import Mathlib

/-! # Antiword: the guess evaluator and the game session

A shallow embedding of `antiword.go` (the word-guessing game) and theorems about it.

Modelling conventions.
* A letter is the `uint8` code of the source, held as a `Nat`; a Go string is the
  list of its bytes.  The development covers ASCII text, where `range` over a string
  visits every byte and `%c` yields one byte per letter.
* A Go map that is only read by key and written by key is a total function that
  returns the zero value at a missing key (`keys`, `wordMap`, `enforcementMap`);
  a nil slice and an empty list coincide.
* `dictMap` (a `map[string]bool` whose values are all `true`) is the list of its keys;
  its iteration order is not used by any result.
* A run-time panic of the source (index out of range) is the result `none`.
* The drawing code and the translation of a mouse position into a key are not
  modelled; `Update` receives the decoded click.
-/

namespace Antiword

/-! ## Data model -/

abbrev UNKNOWN : Nat := 0
abbrev RIGHTLETTERWRONGPLACE : Nat := 1
abbrev RIGHTLETTERRIGHTPLACE : Nat := 2
abbrev WRONGLETTER : Nat := 3

/-- One cell of the board: `letter` is 0 while the cell is empty.  The two drawing
widths of the source struct play no part in the game logic and are left out. -/
structure ColorfulLetter where
  letter : Nat
  state : Nat
deriving DecidableEq

/-- One occurrence of a letter in the secret word. -/
structure PositionAndClaim where
  pos : Nat
  claim : Bool
  bound : Bool
deriving DecidableEq

structure AntiwordGame where
  playtrix : List (List ColorfulLetter)
  keys : Nat → Nat
  dict : List (List Nat)
  dictMap : List (List Nat)
  word : List Nat
  wordMap : Nat → List PositionAndClaim
  entryWord : Nat
  entryLetter : Nat
  enforcementMap : Nat → Nat → Bool

/-- Map assignment `m[k] = v`. -/
def upd {β : Type} (m : Nat → β) (k : Nat) (v : β) : Nat → β :=
  fun x => if x = k then v else m x

def GetWordSize : Nat := 5

/-- The row made by `make([]ColorfulLetter, 5, 5)`. -/
def emptyRow : List ColorfulLetter := List.replicate GetWordSize ⟨0, 0⟩

/-- Assignment `awg.playtrix[awg.entryWord][i].state = st`. -/
def setState (awg : AntiwordGame) (i st : Nat) : AntiwordGame :=
  { awg with playtrix :=
      List.modify (List.modify (fun c => { c with state := st }) i) awg.entryWord awg.playtrix }

/-- Assignment `awg.playtrix[r][j].letter = v`, which panics outside the board. -/
def setLetter (awg : AntiwordGame) (r j v : Nat) : Option AntiwordGame :=
  match awg.playtrix[r]? with
  | none => none
  | some row =>
    if j < row.length then
      let rows := List.modify (List.modify (fun c => { c with letter := v }) j) r awg.playtrix
      some { awg with playtrix := rows }
    else none

/-! ## Word-claim index -/

def WordContainsLetter (awg : AntiwordGame) (letter : Nat) : Bool :=
  !(awg.wordMap letter).isEmpty

/-- The loop of `ClaimLetterAtPosition` over the occurrence records of one letter. -/
def claimLoop (position : Nat) : List PositionAndClaim → List PositionAndClaim × Bool
  | [] => ([], false)
  | r :: rs =>
    if r.pos = position then ({ r with claim := true } :: rs, true)
    else (r :: (claimLoop position rs).1, (claimLoop position rs).2)

def ClaimLetterAtPosition (awg : AntiwordGame) (letter position : Nat) :
    AntiwordGame × Bool :=
  ({ awg with wordMap := upd awg.wordMap letter (claimLoop position (awg.wordMap letter)).1 },
   (claimLoop position (awg.wordMap letter)).2)

/-- The loop of `BindALetter` over the occurrence records of one letter. -/
def bindLoop : List PositionAndClaim → List PositionAndClaim × Bool
  | [] => ([], false)
  | r :: rs =>
    if r.claim = false then
      if r.bound = false then ({ r with bound := true } :: rs, true)
      else (r :: (bindLoop rs).1, (bindLoop rs).2)
    else (r :: (bindLoop rs).1, (bindLoop rs).2)

def BindALetter (awg : AntiwordGame) (letter : Nat) : AntiwordGame × Bool :=
  ({ awg with wordMap := upd awg.wordMap letter (bindLoop (awg.wordMap letter)).1 },
   (bindLoop (awg.wordMap letter)).2)

def ResetBindings (awg : AntiwordGame) : AntiwordGame :=
  { awg with wordMap := fun letter =>
      (awg.wordMap letter).map (fun r => { r with bound := false }) }

/-! ## Guess evaluation -/

/-- The first loop of `EnterPressed`: the entered word, or `none` at an empty cell. -/
def readRow : List ColorfulLetter → Option (List Nat)
  | [] => some []
  | c :: cs =>
    if c.letter = 0 then none
    else
      match readRow cs with
      | none => none
      | some w => some (c.letter :: w)

/-- Body of the exact-match loop at column `i`, where `c` is `enteredWord[i]`;
the second component is `skipList`. -/
def greenStep (i c : Nat) (st : AntiwordGame × (Nat → Bool)) : AntiwordGame × (Nat → Bool) :=
  if WordContainsLetter st.1 c then
    if (ClaimLetterAtPosition st.1 c i).2 then
      let a1 := setState (ClaimLetterAtPosition st.1 c i).1 i RIGHTLETTERRIGHTPLACE
      let a2 := { a1 with keys := upd a1.keys c RIGHTLETTERRIGHTPLACE }
      ({ a2 with enforcementMap := upd a2.enforcementMap i (upd (fun _ => false) c true) },
       upd st.2 i true)
    else ((ClaimLetterAtPosition st.1 c i).1, st.2)
  else st

/-- The exact-match loop `for i := range enteredWord`, from column `i` on. -/
def greenPass : Nat → List Nat → AntiwordGame × (Nat → Bool) → AntiwordGame × (Nat → Bool)
  | _, [], st => st
  | i, c :: cs, st => greenPass (i + 1) cs (greenStep i c st)

/-- Body of the second loop at column `i`, where `c` is `enteredWord[i]`. -/
def bindStep (skipList : Nat → Bool) (i c : Nat) (awg : AntiwordGame) : AntiwordGame :=
  if skipList i then awg
  else if (BindALetter awg c).2 then
    let a1 := setState (BindALetter awg c).1 i RIGHTLETTERWRONGPLACE
    let a2 := if a1.keys c = UNKNOWN then { a1 with keys := upd a1.keys c RIGHTLETTERWRONGPLACE }
              else a1
    { a2 with enforcementMap := upd a2.enforcementMap i (upd (a2.enforcementMap i) c false) }
  else
    let a1 := setState (BindALetter awg c).1 i WRONGLETTER
    let a2 := if a1.keys c = UNKNOWN then { a1 with keys := upd a1.keys c WRONGLETTER }
              else a1
    { a2 with enforcementMap := upd a2.enforcementMap i (upd (a2.enforcementMap i) c false) }

/-- The second loop `for i := range enteredWord`, from column `i` on. -/
def bindPass (skipList : Nat → Bool) : Nat → List Nat → AntiwordGame → AntiwordGame
  | _, [], awg => awg
  | i, c :: cs, awg => bindPass skipList (i + 1) cs (bindStep skipList i c awg)

/-- The words collected in `dictWordsToDelete`: those with a letter that is not in
the secret word and occurs in the entered word. -/
def dictWordsToDelete (awg : AntiwordGame) (enteredWord : List Nat) : List (List Nat) :=
  awg.dictMap.filter (fun k =>
    k.any (fun letterA =>
      (awg.wordMap letterA).isEmpty && enteredWord.any (fun letterB => letterA == letterB)))

def pruneDict (awg : AntiwordGame) (enteredWord : List Nat) : AntiwordGame :=
  { awg with dictMap :=
      awg.dictMap.filter (fun k => !(dictWordsToDelete awg enteredWord).contains k) }

/-- The evaluation of an accepted guess: everything `EnterPressed` does after the
three early returns. -/
def evaluate (awg : AntiwordGame) (enteredWord : List Nat) : AntiwordGame :=
  let a0 := { awg with dictMap := awg.dictMap.filter (fun k => k != enteredWord) }
  let r1 := greenPass 0 enteredWord (a0, fun _ => false)
  let a2 := bindPass r1.2 0 enteredWord (ResetBindings r1.1)
  let a3 := pruneDict a2 enteredWord
  { a3 with playtrix := a3.playtrix ++ [emptyRow], entryWord := a3.entryWord + 1,
            entryLetter := 0 }

def EnterPressed (awg : AntiwordGame) : Option AntiwordGame :=
  match awg.playtrix[awg.entryWord]? with
  | none => none
  | some row =>
    match readRow row with
    | none => some awg
    | some enteredWord =>
      if enteredWord = awg.word then some awg
      else if awg.dictMap.contains enteredWord = false then some awg
      else some (evaluate awg enteredWord)

/-! ## Reset -/

/-- ASCII `strings.ToUpper`. -/
def toUpper (s : List Nat) : List Nat :=
  s.map (fun c => if 97 ≤ c ∧ c ≤ 122 then c - 32 else c)

def loadDictMap (dict : List (List Nat)) : List (List Nat) :=
  dict.foldl (fun m w => if m.contains (toUpper w) then m else m ++ [toUpper w]) []

/-- The inner loop of the enforcement map set-up: `A` to `Z` are admitted. -/
def fullAlphabet : Nat → Bool :=
  (List.range' 65 26).foldl (fun m j => upd m j true) (fun _ => false)

def initEnforcement : Nat → Nat → Bool :=
  (List.range GetWordSize).foldl (fun em i => upd em i fullAlphabet) (fun _ _ => false)

/-- The loop building `wordMap`, from position `i` on. -/
def buildWordMap : Nat → List Nat → (Nat → List PositionAndClaim) → Nat → List PositionAndClaim
  | _, [], wm => wm
  | i, c :: cs, wm => buildWordMap (i + 1) cs (upd wm c (wm c ++ [⟨i, false, false⟩]))

/-- The loop `for awg.entryWord >= len(awg.playtrix)` (with bound `n`), in closed form. -/
def growTo (awg : AntiwordGame) (n : Nat) : AntiwordGame :=
  { awg with playtrix :=
      awg.playtrix ++ List.replicate (n + 1 - awg.playtrix.length) emptyRow }

/-- The loop `for j := 0; j < 5; j++` copying scripted guess `g` into row `i`. -/
def fillRow (i : Nat) (g : List Nat) : List Nat → AntiwordGame → Option AntiwordGame
  | [], awg => some awg
  | j :: js, awg =>
    match g[j]? with
    | none => none
    | some c =>
      match setLetter awg i j c with
      | none => none
      | some a => fillRow i g js a

/-- The loop over the scripted guesses, from index `i` on. -/
def replay : Nat → List (List Nat) → AntiwordGame → Option AntiwordGame
  | _, [], awg => some awg
  | i, g :: gs, awg =>
    match fillRow i (toUpper g) (List.range GetWordSize) (growTo awg i) with
    | none => none
    | some a =>
      match EnterPressed a with
      | none => none
      | some b => replay (i + 1) gs b

/-- The assignments of `Reset` up to the scripted guesses: every field but `dict` and
`entryLetter` is set anew; `w` is the dictionary entry picked as the secret word. -/
def freshState (awg : AntiwordGame) (w : List Nat) : AntiwordGame :=
  { awg with
    dictMap := loadDictMap awg.dict
    keys := fun _ => 0
    playtrix := [emptyRow]
    entryWord := 0
    enforcementMap := initEnforcement
    word := toUpper w
    wordMap := buildWordMap 0 (toUpper w) (fun _ => []) }

/-- Reset.  `wordIdx` stands for `int(rand.Float64() * float64(len(awg.dict)))`; with
scripted guesses (`debug` not nil) the first dictionary entry is the secret word. -/
def Reset (awg : AntiwordGame) (debug : Option (List (List Nat))) (wordIdx : Nat) :
    Option AntiwordGame :=
  match awg.dict[if debug.isNone then wordIdx else 0]? with
  | none => none
  | some w =>
    match debug with
    | none => some (freshState awg w)
    | some gs => replay 0 gs (freshState awg w)

/-! ## Input events -/

/-- A decoded mouse click: the ENTER bar, or the key with code `enteredLetter`
(code 91, one past `Z`, is the backspace key). -/
inductive Click where
  | enter : Click
  | key (enteredLetter : Nat) : Click
deriving DecidableEq

def Update (awg : AntiwordGame) (click : Click) : Option AntiwordGame :=
  let a := growTo awg awg.entryWord
  match click with
  | Click.enter => EnterPressed a
  | Click.key enteredLetter =>
    if enteredLetter = 90 + 1 then
      let b := if a.entryLetter > 0 then { a with entryLetter := a.entryLetter - 1 } else a
      setLetter b b.entryWord b.entryLetter 0
    else if a.entryLetter < 5 ∧ a.keys enteredLetter ≠ WRONGLETTER ∧
        a.enforcementMap a.entryLetter enteredLetter = true then
      match setLetter a a.entryWord a.entryLetter enteredLetter with
      | none => none
      | some b => some { b with entryLetter := b.entryLetter + 1 }
    else some a

/-- The states of a session: those produced by `Reset` (called on a struct whose
entry column, which `Reset` keeps, is a column 0..5) and by clicks after it. -/
inductive Reachable : AntiwordGame → Prop
  | reset (awg : AntiwordGame) (debug : Option (List (List Nat))) (wordIdx : Nat)
      (s : AntiwordGame) :
      awg.entryLetter ≤ 5 → Reset awg debug wordIdx = some s → Reachable s
  | click (s : AntiwordGame) (c : Click) (t : AntiwordGame) :
      Reachable s → Update s c = some t → Reachable t

/-- The states of a session started without scripted guesses. -/
inductive Played : AntiwordGame → Prop
  | reset (awg : AntiwordGame) (wordIdx : Nat) (s : AntiwordGame) :
      awg.entryLetter ≤ 5 → Reset awg none wordIdx = some s → Played s
  | click (s : AntiwordGame) (c : Click) (t : AntiwordGame) :
      Played s → Update s c = some t → Played t

/-- The struct built by `main` before its call of `Reset`. -/
def newGame (dict : List (List Nat)) : AntiwordGame :=
  { playtrix := [], keys := fun _ => 0, dict := dict, dictMap := [], word := [],
    wordMap := fun _ => [], entryWord := 0, entryLetter := 0,
    enforcementMap := fun _ _ => false }

/-- A run of clicks. -/
def runClicks : AntiwordGame → List Click → Option AntiwordGame
  | s, [] => some s
  | s, c :: cs =>
    match Update s c with
    | none => none
    | some t => runClicks t cs

/-- The cell at row `r`, column `j`, if the board has one. -/
def cell? (awg : AntiwordGame) (r j : Nat) : Option ColorfulLetter :=
  match awg.playtrix[r]? with
  | none => none
  | some row => row[j]?

/-! ### Example words -/

def CRANE : List Nat := [67, 82, 65, 78, 69]
def REACT : List Nat := [82, 69, 65, 67, 84]
def crane : List Nat := [99, 114, 97, 110, 101]
def react : List Nat := [114, 101, 97, 99, 116]

/-! ### Invariants -/

/-- The positions of letter `l` in the word `cs`, whose first letter has position `i`. -/
def positionsFrom (l : Nat) : Nat → List Nat → List Nat
  | _, [] => []
  | i, c :: cs =>
    if c = l then i :: positionsFrom l (i + 1) cs else positionsFrom l (i + 1) cs

/-- Every row of the board has five cells. -/
def Rows5 (p : List (List ColorfulLetter)) : Prop := ∀ row ∈ p, row.length = 5

/-- The facts that hold at every point of a session, also between two steps of an
evaluation: the shape of the board, the agreement of the word-claim index with the
secret word, and the link between the key hints and the occurrence records. -/
structure Core (awg : AntiwordGame) : Prop where
  rows5 : Rows5 awg.playtrix
  cur : awg.entryWord < awg.playtrix.length
  col : awg.entryLetter ≤ 5
  wfm : ∀ l, (awg.wordMap l).map (fun r => r.pos) = positionsFrom l 0 awg.word
  k3 : ∀ l, awg.keys l = 3 → awg.wordMap l = []
  kclaim : ∀ l r, r ∈ awg.wordMap l → r.claim = true → awg.keys l = 2
  kbound : ∀ l r, r ∈ awg.wordMap l → r.bound = true → awg.keys l ≠ 0
  krange : ∀ l, awg.keys l ≤ 3

/-- Column `j` of the guess `G` holds the letter the secret word `S` has there. -/
def exactAt (S G : List Nat) (j : Nat) : Prop := ∃ c, G[j]? = some c ∧ S[j]? = some c

/-- State of the exact-match loop before column `i`, in terms of the state `a0` the
loop started from (with an empty `skipList`). -/
structure GreenInv (a0 : AntiwordGame) (G : List Nat) (i : Nat)
    (st : AntiwordGame × (Nat → Bool)) : Prop where
  core : Core st.1
  word : st.1.word = a0.word
  dict : st.1.dict = a0.dict
  dictMap : st.1.dictMap = a0.dictMap
  entryWord : st.1.entryWord = a0.entryWord
  entryLetter : st.1.entryLetter = a0.entryLetter
  len : st.1.playtrix.length = a0.playtrix.length
  skip : ∀ j, st.2 j = true ↔ j < i ∧ exactAt a0.word G j
  cell_hit : ∀ j, j < i → exactAt a0.word G j →
    cell? st.1 a0.entryWord j = (cell? a0 a0.entryWord j).map (fun x => { x with state := 2 })
  cell_miss : ∀ r j, ¬ (r = a0.entryWord ∧ j < i ∧ exactAt a0.word G j) →
    cell? st.1 r j = cell? a0 r j
  keys_hit : ∀ l j, j < i → G[j]? = some l → a0.word[j]? = some l → st.1.keys l = 2
  keys_miss : ∀ l, (∀ j, j < i → G[j]? = some l → a0.word[j]? ≠ some l) →
    st.1.keys l = a0.keys l
  enf_hit : ∀ k x, k < i → exactAt a0.word G k →
    st.1.enforcementMap k x = decide (G[k]? = some x)
  enf_miss : ∀ k x, ¬ (k < i ∧ exactAt a0.word G k) →
    st.1.enforcementMap k x = a0.enforcementMap k x

/-- State of the second loop before column `i`, in terms of the state `a1` the loop
started from. -/
structure BindInv (a1 : AntiwordGame) (skip : Nat → Bool) (G : List Nat) (i : Nat)
    (awg : AntiwordGame) : Prop where
  core : Core awg
  word : awg.word = a1.word
  dict : awg.dict = a1.dict
  dictMap : awg.dictMap = a1.dictMap
  entryWord : awg.entryWord = a1.entryWord
  entryLetter : awg.entryLetter = a1.entryLetter
  len : awg.playtrix.length = a1.playtrix.length
  cell_same : ∀ r j, ¬ (r = a1.entryWord ∧ j < i ∧ skip j = false) →
    cell? awg r j = cell? a1 r j
  cell_set : ∀ j, j < i → skip j = false → ∃ v, (v = 1 ∨ v = 3) ∧
    cell? awg a1.entryWord j = (cell? a1 a1.entryWord j).map (fun x => { x with state := v })
  enf_set : ∀ k x, k < i → skip k = false → G[k]? = some x → awg.enforcementMap k x = false
  enf_same : ∀ k x, ¬ (k < i ∧ skip k = false ∧ G[k]? = some x) →
    awg.enforcementMap k x = a1.enforcementMap k x
  keys_keep : ∀ l, a1.keys l ≠ 0 → awg.keys l = a1.keys l
  keys_seen : ∀ l j, j < i → skip j = false → G[j]? = some l → awg.keys l ≠ 0
  keys_unseen : ∀ l, (∀ j, j < i → skip j = false → G[j]? ≠ some l) → awg.keys l = a1.keys l

/-- The state and `skipList` after the exact-match loop of an evaluation. -/
def afterGreen (awg : AntiwordGame) (G : List Nat) : AntiwordGame × (Nat → Bool) :=
  greenPass 0 G ({ awg with dictMap := awg.dictMap.filter (fun k => k != G) }, fun _ => false)

/-- The state after the second loop of an evaluation. -/
def afterBind (awg : AntiwordGame) (G : List Nat) : AntiwordGame :=
  bindPass (afterGreen awg G).2 0 G (ResetBindings (afterGreen awg G).1)

/-- Some cell of the first `n` rows holds letter `l` with classification `v`. -/
def seen (awg : AntiwordGame) (n l v : Nat) : Prop :=
  ∃ r j, r < n ∧ cell? awg r j = some ⟨l, v⟩

/-- The key hints agree with the classifications in the first `n` rows. -/
def HintOK (awg : AntiwordGame) (n : Nat) : Prop :=
  ∀ l, (awg.keys l = 2 ↔ seen awg n l 2) ∧
    (awg.keys l = 1 ↔ seen awg n l 1 ∧ ¬ seen awg n l 2) ∧
    (awg.keys l = 3 ↔ seen awg n l 3 ∧ ¬ seen awg n l 1 ∧ ¬ seen awg n l 2)

/-- The invariant of a session. -/
structure Inv (awg : AntiwordGame) : Prop where
  core : Core awg
  fresh : ∀ r j c, awg.entryWord ≤ r → cell? awg r j = some c → c.state = 0
  evald : ∀ r j c, r < awg.entryWord → cell? awg r j = some c →
    c.state = 1 ∨ c.state = 2 ∨ c.state = 3
  enf : ∀ k x, k < 5 → 65 ≤ x → x ≤ 90 → awg.word[k]? = some x →
    awg.enforcementMap k x = true
  hint : HintOK awg awg.entryWord

/-- The cell holds letter `L` and is classified PresentWrongPlace or PresentRightPlace. -/
def lit (L : Nat) (c : ColorfulLetter) : Bool :=
  c.letter == L && (c.state == 1 || c.state == 2)

/-- The number of cells of the current row that hold `L` and are not Absent or Unknown. -/
def litCount (awg : AntiwordGame) (L : Nat) : Nat :=
  match awg.playtrix[awg.entryWord]? with
  | none => 0
  | some row => row.countP (lit L)

/-- An occurrence record that is unclaimed, or lies at a column the exact-match loop
has not reached yet (`i` is the next column). -/
def openRec (i : Nat) (r : PositionAndClaim) : Bool := !r.claim || decide (i ≤ r.pos)

/-- An occurrence record that `BindALetter` can still take. -/
def freeRec (r : PositionAndClaim) : Bool := !r.claim && !r.bound

/-! ### Example session: secret word CRANE, dictionary CRANE and REACT -/

/-- The state of the example session with first row `cells` and entry column `col`,
before any guess has been evaluated. -/
def demoState (cells : List ColorfulLetter) (col : Nat) : AntiwordGame :=
  { playtrix := [cells], keys := fun _ => 0, dict := [crane, react],
    dictMap := [CRANE, REACT], word := CRANE,
    wordMap := buildWordMap 0 CRANE (fun _ => []), entryWord := 0, entryLetter := col,
    enforcementMap := initEnforcement }

/-- The example session after the letters of REACT have been typed. -/
def demoTyped : AntiwordGame :=
  demoState [⟨82, 0⟩, ⟨69, 0⟩, ⟨65, 0⟩, ⟨67, 0⟩, ⟨84, 0⟩] 5

/-! ### Example session: secret word ALLOW, dictionary ALLOW and LLAMA -/

def ALLOW : List Nat := [65, 76, 76, 79, 87]
def LLAMA : List Nat := [76, 76, 65, 77, 65]
def allow : List Nat := [97, 108, 108, 111, 119]
def llama : List Nat := [108, 108, 97, 109, 97]

def allowState (cells : List ColorfulLetter) (col : Nat) : AntiwordGame :=
  { playtrix := [cells], keys := fun _ => 0, dict := [allow, llama],
    dictMap := [ALLOW, LLAMA], word := ALLOW,
    wordMap := buildWordMap 0 ALLOW (fun _ => []), entryWord := 0, entryLetter := col,
    enforcementMap := initEnforcement }

/-- The second example session after the letters of LLAMA have been typed. -/
def allowTyped : AntiwordGame :=
  allowState [⟨76, 0⟩, ⟨76, 0⟩, ⟨65, 0⟩, ⟨77, 0⟩, ⟨65, 0⟩] 5

/-- The state without its word lists, which the classification of a row never reads. -/
def stripDict (s : AntiwordGame) : AntiwordGame := { s with dict := [], dictMap := [] }

/-- The clicks that type the word `w`. -/
def typeWord (w : List Nat) : List Click := w.map Click.key

/-- The row REACT classified against CRANE. -/
def reactOnCrane : List ColorfulLetter :=
  [⟨82, RIGHTLETTERWRONGPLACE⟩, ⟨69, RIGHTLETTERWRONGPLACE⟩, ⟨65, RIGHTLETTERRIGHTPLACE⟩,
   ⟨67, RIGHTLETTERWRONGPLACE⟩, ⟨84, WRONGLETTER⟩]

/-- The example session after REACT has been submitted. -/
def demoGuessed : AntiwordGame := evaluate demoTyped REACT

/-! ### The keyboard hint as the specification words it -/

/-- Rank of a classification in the order
PresentRightPlace > PresentWrongPlace > Absent > Unknown. -/
def rank (v : Nat) : Nat :=
  if v = RIGHTLETTERRIGHTPLACE then 3
  else if v = RIGHTLETTERWRONGPLACE then 2
  else if v = WRONGLETTER then 1 else 0

/-- The better of two classifications. -/
def better (a b : Nat) : Nat := if rank a < rank b then b else a

/-- The cells of the rows evaluated so far (the rows before the entry row). -/
def evaluatedCells (s : AntiwordGame) : List ColorfulLetter :=
  (s.playtrix.take s.entryWord).flatten

/-- The best classification among the evaluated cells that hold letter `l`. -/
def bestClassification (s : AntiwordGame) (l : Nat) : Nat :=
  ((evaluatedCells s).filter (fun c => c.letter == l)).foldl (fun a c => better a c.state)
    UNKNOWN

/-- The example session after the letters of the secret word CRANE have been typed. -/
def demoWon : AntiwordGame :=
  demoState [⟨67, 0⟩, ⟨82, 0⟩, ⟨65, 0⟩, ⟨78, 0⟩, ⟨69, 0⟩] 5

/-- The second example session after LLAMA has been submitted. -/
def allowGuessed : AntiwordGame := evaluate allowTyped LLAMA

def BRAVE : List Nat := [66, 82, 65, 86, 69]
def brave : List Nat := [98, 114, 97, 118, 101]

/-- A key hint PresentWrongPlace or PresentRightPlace belongs to a letter of the secret
word. -/
def K12 (awg : AntiwordGame) : Prop :=
  ∀ l, awg.keys l = 1 ∨ awg.keys l = 2 → awg.wordMap l ≠ []

/-- Facts of a session that do not depend on the board: the key hints PresentWrongPlace and
PresentRightPlace belong to letters of the secret word, and the secret word is a candidate. -/
structure Aux (awg : AntiwordGame) : Prop where
  k12 : K12 awg
  wordIn : awg.word ∈ awg.dictMap

/-- The board of a session started without scripted guesses: the entry row is the last
row, its cells from the entry column on are empty, and every letter in it passed the
guard of `Update`. -/
structure PInv (s : AntiwordGame) : Prop where
  last : s.playtrix.length = s.entryWord + 1
  blank : ∀ j c, s.entryLetter ≤ j → cell? s s.entryWord j = some c → c.letter = 0
  legal : ∀ j c, cell? s s.entryWord j = some c → c.letter ≠ 0 →
    s.enforcementMap j c.letter = true ∧ s.keys c.letter ≠ 3

/-- The letters on the board, row by row. -/
def boardLetters (s : AntiwordGame) : List (List Nat) :=
  s.playtrix.map (fun r => r.map (fun c => c.letter))

/-- The word `w` cannot be typed in full: one of its letters is forbidden in its column, or
its key is Absent. -/
def Blocked (s : AntiwordGame) (w : List Nat) : Prop :=
  ∃ j x, w[j]? = some x ∧ (s.enforcementMap j x = false ∨ s.keys x = 3)

/-- With a five-letter secret word, every dictionary word that has left the candidate
dictionary can no longer be typed in full. -/
def Gone (s : AntiwordGame) : Prop :=
  s.word.length = 5 → ∀ w, w ∈ s.dict.map toUpper →
    w ∈ s.dictMap ∨ w = s.word ∨ Blocked s w

/-- An occurrence record of letter `L` after the exact-match loop over the guess `G` has
passed the columns before `i`. -/
def markExact (G : List Nat) (L i : Nat) (r : PositionAndClaim) : PositionAndClaim :=
  if r.pos < i ∧ G[r.pos]? = some L then { r with claim := true } else r

/-- Facts about claimed occurrence records: before the first evaluation nothing is claimed,
and a claimed record of letter `l` sits at a column 0..4 that admits `l` only. -/
structure Claims (s : AntiwordGame) : Prop where
  first : s.entryWord = 0 → ∀ l r, r ∈ s.wordMap l → r.claim = false
  coll : ∀ l r, r ∈ s.wordMap l → r.claim = true →
    r.pos < 5 ∧ ∀ x, s.enforcementMap r.pos x = true → x = l

/-! ### The two-pass reference classification -/

/-- The number of columns `j < i` of the guess `G` that hold `L` where the secret word `S`
has another letter. -/
def earlierMisplaced (S G : List Nat) (L i : Nat) : Nat :=
  (List.range i).countP (fun j => decide (G[j]? = some L) && decide (S[j]? ≠ some L))

/-- The number of positions `k` of the secret word `S` that hold `L` where the guess `G`
has another letter. -/
def unmatched (S G : List Nat) (L : Nat) : Nat :=
  (List.range S.length).countP (fun k => decide (S[k]? = some L) && decide (G[k]? ≠ some L))

/-- The two-pass reference classification of column `i` of the guess `G` against the
secret word `S`. -/
def twoPass (S G : List Nat) (i : Nat) : Nat :=
  match G[i]? with
  | none => UNKNOWN
  | some c =>
    if S[i]? = some c then RIGHTLETTERRIGHTPLACE
    else if earlierMisplaced S G c i < unmatched S G c then RIGHTLETTERWRONGPLACE
    else WRONGLETTER

/-- Every occurrence record claimed by an earlier guess sits at a column where the guess
`G` holds the record's letter. -/
def claimedExact (s : AntiwordGame) (G : List Nat) : Prop :=
  ∀ l r, r ∈ s.wordMap l → r.claim = true → G[r.pos]? = some l

/-- State of the second loop before column `i`, in terms of the two-pass reference for
the secret word `S`: the free records of each letter are counted, and the columns passed
carry the reference classification. -/
structure TwoInv (a1 : AntiwordGame) (skip : Nat → Bool) (S G : List Nat) (i : Nat)
    (awg : AntiwordGame) : Prop where
  base : BindInv a1 skip G i awg
  free : ∀ L, (awg.wordMap L).countP freeRec = unmatched S G L - earlierMisplaced S G L i
  cells : ∀ j c, j < i → skip j = false → G[j]? = some c →
    cell? awg a1.entryWord j
      = (cell? a1 a1.entryWord j).map (fun x => { x with state := twoPass S G j })

/-! ### Example session: secret word APPLE, dictionary APPLE and PAPER -/

def APPLE : List Nat := [65, 80, 80, 76, 69]
def PAPER : List Nat := [80, 65, 80, 69, 82]
def apple : List Nat := [97, 112, 112, 108, 101]
def paper : List Nat := [112, 97, 112, 101, 114]

def appleState (cells : List ColorfulLetter) (col : Nat) : AntiwordGame :=
  { playtrix := [cells], keys := fun _ => 0, dict := [apple, paper],
    dictMap := [APPLE, PAPER], word := APPLE,
    wordMap := buildWordMap 0 APPLE (fun _ => []), entryWord := 0, entryLetter := col,
    enforcementMap := initEnforcement }

/-- The third example session after the letters of PAPER have been typed. -/
def appleTyped : AntiwordGame :=
  appleState [⟨80, 0⟩, ⟨65, 0⟩, ⟨80, 0⟩, ⟨69, 0⟩, ⟨82, 0⟩] 5

/-! ### Standard scoring from scratch -/

/-- The letters of the secret word at the positions where the guess does not match it
exactly. -/
def unmatchedLetters : List Nat → List Nat → List Nat
  | [], _ => []
  | s :: S, [] => s :: unmatchedLetters S []
  | s :: S, g :: G => if g = s then unmatchedLetters S G else s :: unmatchedLetters S G

/-- The second pass of standard scoring from column `i` on: `cs` are the letters of the
guess still to score and `pool` the unconsumed letters of the secret word. -/
def scoreFrom (S : List Nat) : Nat → List Nat → List Nat → List Nat
  | _, [], _ => []
  | i, c :: cs, pool =>
    if S[i]? = some c then RIGHTLETTERRIGHTPLACE :: scoreFrom S (i + 1) cs pool
    else if pool.contains c then RIGHTLETTERWRONGPLACE :: scoreFrom S (i + 1) cs (pool.erase c)
    else WRONGLETTER :: scoreFrom S (i + 1) cs pool

/-- Standard Wordle scoring of the guess `G` against the secret word `S`. -/
def wordleScore (S G : List Nat) : List Nat := scoreFrom S 0 G (unmatchedLetters S G)

/-! # Theorems -/

/-! ## Maps and occurrence records -/

theorem upd_apply {β : Type} (m : Nat → β) (k : Nat) (v : β) (x : Nat) :
    upd m k v x = if x = k then v else m x := rfl

theorem claimLoop_snd (p : Nat) (rs : List PositionAndClaim) :
    (claimLoop p rs).2 = true ↔ ∃ r ∈ rs, r.pos = p := by
  induction rs with
  | nil => simp [claimLoop]
  | cons r rs ih =>
    by_cases h : r.pos = p
    · simp [claimLoop, h]
    · simp [claimLoop, h, ih]

theorem claimLoop_fail (p : Nat) (rs : List PositionAndClaim)
    (h : (claimLoop p rs).2 = false) : (claimLoop p rs).1 = rs := by
  induction rs with
  | nil => simp [claimLoop]
  | cons r rs ih =>
    by_cases h1 : r.pos = p
    · simp [claimLoop, h1] at h
    · simp [claimLoop, h1] at h ⊢
      exact ih h

theorem claimLoop_pos (p : Nat) (rs : List PositionAndClaim) :
    (claimLoop p rs).1.map (fun r => r.pos) = rs.map (fun r => r.pos) := by
  induction rs with
  | nil => simp [claimLoop]
  | cons r rs ih =>
    by_cases h1 : r.pos = p
    · simp [claimLoop, h1]
    · simp [claimLoop, h1, ih]

theorem claimLoop_eq_nil (p : Nat) (rs : List PositionAndClaim) :
    (claimLoop p rs).1 = [] ↔ rs = [] := by
  cases rs with
  | nil => simp [claimLoop]
  | cons r rs => by_cases h1 : r.pos = p <;> simp [claimLoop, h1]

theorem bindLoop_snd (rs : List PositionAndClaim) :
    (bindLoop rs).2 = true ↔ ∃ r ∈ rs, r.claim = false ∧ r.bound = false := by
  induction rs with
  | nil => simp [bindLoop]
  | cons r rs ih =>
    by_cases h1 : r.claim = false <;> by_cases h2 : r.bound = false <;>
      simp [bindLoop, h1, h2, ih]

theorem bindLoop_fail (rs : List PositionAndClaim)
    (h : (bindLoop rs).2 = false) : (bindLoop rs).1 = rs := by
  induction rs with
  | nil => simp [bindLoop]
  | cons r rs ih =>
    by_cases h1 : r.claim = false <;> by_cases h2 : r.bound = false <;>
      simp [bindLoop, h1, h2] at h ⊢ <;> exact ih h

theorem bindLoop_pos (rs : List PositionAndClaim) :
    (bindLoop rs).1.map (fun r => r.pos) = rs.map (fun r => r.pos) := by
  induction rs with
  | nil => simp [bindLoop]
  | cons r rs ih =>
    by_cases h1 : r.claim = false <;> by_cases h2 : r.bound = false <;>
      simp [bindLoop, h1, h2, ih]

theorem bindLoop_claim (rs : List PositionAndClaim) :
    (bindLoop rs).1.map (fun r => r.claim) = rs.map (fun r => r.claim) := by
  induction rs with
  | nil => simp [bindLoop]
  | cons r rs ih =>
    by_cases h1 : r.claim = false <;> by_cases h2 : r.bound = false <;>
      simp [bindLoop, h1, h2, ih]

theorem bindLoop_eq_nil (rs : List PositionAndClaim) :
    (bindLoop rs).1 = [] ↔ rs = [] := by
  cases rs with
  | nil => simp [bindLoop]
  | cons r rs =>
    by_cases h1 : r.claim = false <;> by_cases h2 : r.bound = false <;>
      simp [bindLoop, h1, h2]

/-! ## One step of each loop -/

theorem cell?_setState (awg : AntiwordGame) (i st r j : Nat) :
    cell? (setState awg i st) r j =
      if r = awg.entryWord ∧ j = i then
        (cell? awg r j).map (fun c => { c with state := st })
      else cell? awg r j := by
  unfold cell? setState
  simp only [List.getElem?_modify]
  cases h : awg.playtrix[r]? with
  | none => simp
  | some row =>
    by_cases h1 : awg.entryWord = r
    · by_cases h2 : i = j
      · subst h1; subst h2; simp [List.getElem?_modify]
      · have h3 : ¬ j = i := fun e => h2 e.symm
        subst h1; simp [List.getElem?_modify, h2, h3]
    · have h3 : ¬ r = awg.entryWord := fun e => h1 e.symm
      simp [h1, h3]

theorem greenStep_entryWord (i c : Nat) (st : AntiwordGame × (Nat → Bool)) :
    (greenStep i c st).1.entryWord = st.1.entryWord := by
  simp only [greenStep]; split_ifs <;> rfl

theorem greenStep_entryLetter (i c : Nat) (st : AntiwordGame × (Nat → Bool)) :
    (greenStep i c st).1.entryLetter = st.1.entryLetter := by
  simp only [greenStep]; split_ifs <;> rfl

theorem greenStep_word (i c : Nat) (st : AntiwordGame × (Nat → Bool)) :
    (greenStep i c st).1.word = st.1.word := by
  simp only [greenStep]; split_ifs <;> rfl

theorem greenStep_dict (i c : Nat) (st : AntiwordGame × (Nat → Bool)) :
    (greenStep i c st).1.dict = st.1.dict := by
  simp only [greenStep]; split_ifs <;> rfl

theorem greenStep_dictMap (i c : Nat) (st : AntiwordGame × (Nat → Bool)) :
    (greenStep i c st).1.dictMap = st.1.dictMap := by
  simp only [greenStep]; split_ifs <;> rfl

theorem not_contains_claim (awg : AntiwordGame) (i c : Nat)
    (h : ¬ WordContainsLetter awg c = true) : (claimLoop i (awg.wordMap c)).2 = false := by
  simp only [WordContainsLetter, Bool.not_eq_true', Bool.not_eq_true, Bool.not_eq_false,
    List.isEmpty_iff] at h
  simp [h, claimLoop]

theorem greenStep_wordMap (i c : Nat) (st : AntiwordGame × (Nat → Bool)) (l : Nat) :
    (greenStep i c st).1.wordMap l =
      if l = c then (claimLoop i (st.1.wordMap c)).1 else st.1.wordMap l := by
  simp only [greenStep]
  by_cases h1 : WordContainsLetter st.1 c = true
  · by_cases h2 : (claimLoop i (st.1.wordMap c)).2 = true
    · simp [h1, h2, ClaimLetterAtPosition, setState, upd]
    · simp [h1, h2, ClaimLetterAtPosition, upd]
  · have h3 := claimLoop_fail i _ (not_contains_claim st.1 i c h1)
    simp only [h1, if_false, Bool.false_eq_true]
    split_ifs with h4
    · subst h4; exact h3.symm
    · rfl

theorem greenStep_keys (i c : Nat) (st : AntiwordGame × (Nat → Bool)) (l : Nat) :
    (greenStep i c st).1.keys l =
      if (claimLoop i (st.1.wordMap c)).2 = true ∧ l = c then 2 else st.1.keys l := by
  simp only [greenStep]
  by_cases h1 : WordContainsLetter st.1 c = true
  · by_cases h2 : (claimLoop i (st.1.wordMap c)).2 = true
    · simp [h1, h2, ClaimLetterAtPosition, setState, upd]
    · simp [h1, h2, ClaimLetterAtPosition]
  · have h3 := not_contains_claim st.1 i c h1
    simp [h1, h3]

theorem greenStep_enforcementMap (i c : Nat) (st : AntiwordGame × (Nat → Bool)) (k x : Nat) :
    (greenStep i c st).1.enforcementMap k x =
      if (claimLoop i (st.1.wordMap c)).2 = true ∧ k = i then decide (x = c)
      else st.1.enforcementMap k x := by
  simp only [greenStep]
  by_cases h1 : WordContainsLetter st.1 c = true
  · by_cases h2 : (claimLoop i (st.1.wordMap c)).2 = true
    · by_cases h3 : k = i
      · by_cases h4 : x = c <;> simp [h1, h2, h3, h4, ClaimLetterAtPosition, setState, upd]
      · simp [h1, h2, h3, ClaimLetterAtPosition, setState, upd]
    · simp [h1, h2, ClaimLetterAtPosition]
  · have h3 := not_contains_claim st.1 i c h1
    simp [h1, h3]

theorem greenStep_skip (i c : Nat) (st : AntiwordGame × (Nat → Bool)) (j : Nat) :
    (greenStep i c st).2 j =
      if (claimLoop i (st.1.wordMap c)).2 = true ∧ j = i then true else st.2 j := by
  simp only [greenStep]
  by_cases h1 : WordContainsLetter st.1 c = true
  · by_cases h2 : (claimLoop i (st.1.wordMap c)).2 = true
    · by_cases h3 : j = i <;> simp [h1, h2, h3, ClaimLetterAtPosition, upd]
    · simp [h1, h2, ClaimLetterAtPosition]
  · have h3 := not_contains_claim st.1 i c h1
    simp [h1, h3]

theorem greenStep_cell (i c : Nat) (st : AntiwordGame × (Nat → Bool)) (r j : Nat) :
    cell? (greenStep i c st).1 r j =
      if (claimLoop i (st.1.wordMap c)).2 = true ∧ r = st.1.entryWord ∧ j = i then
        (cell? st.1 r j).map (fun x => { x with state := 2 })
      else cell? st.1 r j := by
  simp only [greenStep]
  by_cases h1 : WordContainsLetter st.1 c = true
  · by_cases h2 : (claimLoop i (st.1.wordMap c)).2 = true
    · have h5 : ∀ a : AntiwordGame, ∀ f g, cell? { a with keys := f, enforcementMap := g } r j
          = cell? a r j := fun _ _ _ => rfl
      simp only [h1, h2, ClaimLetterAtPosition, if_true, true_and]
      rw [h5, cell?_setState]
      rfl
    · simp only [h1, h2, ClaimLetterAtPosition, if_true, if_false, false_and,
        Bool.false_eq_true]
      rfl
  · have h3 := not_contains_claim st.1 i c h1
    simp [h1, h3]

theorem greenStep_length (i c : Nat) (st : AntiwordGame × (Nat → Bool)) :
    (greenStep i c st).1.playtrix.length = st.1.playtrix.length := by
  simp only [greenStep]; split_ifs <;> simp [setState, ClaimLetterAtPosition]

theorem bindStep_entryWord (skip : Nat → Bool) (i c : Nat) (awg : AntiwordGame) :
    (bindStep skip i c awg).entryWord = awg.entryWord := by
  simp only [bindStep]; split_ifs <;> rfl

theorem bindStep_entryLetter (skip : Nat → Bool) (i c : Nat) (awg : AntiwordGame) :
    (bindStep skip i c awg).entryLetter = awg.entryLetter := by
  simp only [bindStep]; split_ifs <;> rfl

theorem bindStep_word (skip : Nat → Bool) (i c : Nat) (awg : AntiwordGame) :
    (bindStep skip i c awg).word = awg.word := by
  simp only [bindStep]; split_ifs <;> rfl

theorem bindStep_dict (skip : Nat → Bool) (i c : Nat) (awg : AntiwordGame) :
    (bindStep skip i c awg).dict = awg.dict := by
  simp only [bindStep]; split_ifs <;> rfl

theorem bindStep_dictMap (skip : Nat → Bool) (i c : Nat) (awg : AntiwordGame) :
    (bindStep skip i c awg).dictMap = awg.dictMap := by
  simp only [bindStep]; split_ifs <;> rfl

theorem bindStep_wordMap (skip : Nat → Bool) (i c : Nat) (awg : AntiwordGame) (l : Nat) :
    (bindStep skip i c awg).wordMap l =
      if skip i = false ∧ l = c then (bindLoop (awg.wordMap c)).1 else awg.wordMap l := by
  simp only [bindStep]
  by_cases h0 : skip i = true
  · simp [h0]
  · by_cases h2 : (bindLoop (awg.wordMap c)).2 = true
    · by_cases h3 : awg.keys c = 0 <;> simp [h0, h2, h3, BindALetter, setState, upd]
    · by_cases h3 : awg.keys c = 0 <;> simp [h0, h2, h3, BindALetter, setState, upd]

theorem bindStep_keys (skip : Nat → Bool) (i c : Nat) (awg : AntiwordGame) (l : Nat) :
    (bindStep skip i c awg).keys l =
      if skip i = false ∧ l = c ∧ awg.keys c = 0 then
        (if (bindLoop (awg.wordMap c)).2 = true then 1 else 3)
      else awg.keys l := by
  simp only [bindStep]
  by_cases h0 : skip i = true
  · simp [h0]
  · by_cases h2 : (bindLoop (awg.wordMap c)).2 = true
    · by_cases h3 : awg.keys c = 0 <;> by_cases h4 : l = c <;>
        simp [h0, h2, h3, h4, BindALetter, setState, upd]
    · by_cases h3 : awg.keys c = 0 <;> by_cases h4 : l = c <;>
        simp [h0, h2, h3, h4, BindALetter, setState, upd]

theorem bindStep_enforcementMap (skip : Nat → Bool) (i c : Nat) (awg : AntiwordGame)
    (k x : Nat) :
    (bindStep skip i c awg).enforcementMap k x =
      if skip i = false ∧ k = i ∧ x = c then false else awg.enforcementMap k x := by
  simp only [bindStep]
  by_cases h0 : skip i = true
  · simp [h0]
  · by_cases h2 : (bindLoop (awg.wordMap c)).2 = true
    · by_cases h3 : awg.keys c = 0 <;> by_cases h4 : k = i <;> by_cases h5 : x = c <;>
        simp [h0, h2, h3, h4, h5, BindALetter, setState, upd]
    · by_cases h3 : awg.keys c = 0 <;> by_cases h4 : k = i <;> by_cases h5 : x = c <;>
        simp [h0, h2, h3, h4, h5, BindALetter, setState, upd]

theorem cell?_congr (a b : AntiwordGame) (h : a.playtrix = b.playtrix) (r j : Nat) :
    cell? a r j = cell? b r j := by
  unfold cell?; rw [h]

theorem bindStep_cell (skip : Nat → Bool) (i c : Nat) (awg : AntiwordGame) (r j : Nat) :
    cell? (bindStep skip i c awg) r j =
      if skip i = false ∧ r = awg.entryWord ∧ j = i then
        (cell? awg r j).map (fun x =>
          { x with state := if (bindLoop (awg.wordMap c)).2 = true then 1 else 3 })
      else cell? awg r j := by
  cases h0 : skip i with
  | true => simp [bindStep, h0]
  | false =>
    by_cases h2 : (bindLoop (awg.wordMap c)).2 = true
    · have e : cell? (bindStep skip i c awg) r j
          = cell? (setState (BindALetter awg c).1 i 1) r j := by
        apply cell?_congr
        simp only [bindStep, h0, BindALetter, h2, if_true, if_false, Bool.false_eq_true]
        split_ifs <;> rfl
      rw [e, cell?_setState]
      simp only [h2, if_true, true_and]
      rfl
    · have e : cell? (bindStep skip i c awg) r j
          = cell? (setState (BindALetter awg c).1 i 3) r j := by
        apply cell?_congr
        simp only [bindStep, h0, BindALetter, h2, if_true, if_false, Bool.false_eq_true]
        split_ifs <;> rfl
      rw [e, cell?_setState]
      simp only [h2, if_false, true_and]
      rfl

theorem bindStep_length (skip : Nat → Bool) (i c : Nat) (awg : AntiwordGame) :
    (bindStep skip i c awg).playtrix.length = awg.playtrix.length := by
  simp only [bindStep]; split_ifs <;> simp [setState, BindALetter]

theorem greenStep_playtrix (i c : Nat) (st : AntiwordGame × (Nat → Bool)) :
    (greenStep i c st).1.playtrix =
      if (claimLoop i (st.1.wordMap c)).2 = true then
        List.modify (List.modify (fun x => { x with state := 2 }) i) st.1.entryWord st.1.playtrix
      else st.1.playtrix := by
  simp only [greenStep]
  by_cases h1 : WordContainsLetter st.1 c = true
  · by_cases h2 : (claimLoop i (st.1.wordMap c)).2 = true
    · simp [h1, h2, ClaimLetterAtPosition, setState]
    · simp [h1, h2, ClaimLetterAtPosition]
  · have h3 := not_contains_claim st.1 i c h1
    simp [h1, h3]

theorem bindStep_playtrix (skip : Nat → Bool) (i c : Nat) (awg : AntiwordGame) :
    (bindStep skip i c awg).playtrix =
      if skip i = false then
        List.modify (List.modify (fun x =>
          { x with state := if (bindLoop (awg.wordMap c)).2 = true then 1 else 3 }) i)
          awg.entryWord awg.playtrix
      else awg.playtrix := by
  simp only [bindStep]
  cases h0 : skip i with
  | true => simp
  | false =>
    by_cases h2 : (bindLoop (awg.wordMap c)).2 = true
    · by_cases h3 : awg.keys c = 0 <;> simp [h2, h3, BindALetter, setState]
    · by_cases h3 : awg.keys c = 0 <;> simp [h2, h3, BindALetter, setState]

theorem Rows5_modify (p : List (List ColorfulLetter)) (f : List ColorfulLetter → List ColorfulLetter)
    (n : Nat) (hf : ∀ row, (f row).length = row.length) (h : Rows5 p) :
    Rows5 (List.modify f n p) := by
  intro row hrow
  rw [List.mem_iff_getElem?] at hrow
  obtain ⟨m, hm⟩ := hrow
  rw [List.getElem?_modify] at hm
  cases h1 : p[m]? with
  | none => simp [h1] at hm
  | some row0 =>
    have h2 : row0 ∈ p := List.mem_iff_getElem?.mpr ⟨m, h1⟩
    simp only [h1, Option.map_eq_map, Option.map_some', Option.some.injEq] at hm
    split_ifs at hm
    · rw [← hm, hf]; exact h row0 h2
    · rw [← hm]; exact h row0 h2

/-! ## The word-claim index and the secret word -/

theorem mem_positionsFrom (l : Nat) (cs : List Nat) (i p : Nat) :
    p ∈ positionsFrom l i cs ↔ i ≤ p ∧ cs[p - i]? = some l := by
  induction cs generalizing i with
  | nil => simp [positionsFrom]
  | cons c cs ih =>
    by_cases h : c = l
    · simp only [positionsFrom, h, if_true, List.mem_cons, ih]
      constructor
      · rintro (rfl | ⟨h1, h2⟩)
        · simp
        · refine ⟨by omega, ?_⟩
          have : p - i = (p - (i + 1)) + 1 := by omega
          rw [this]; simpa using h2
      · rintro ⟨h1, h2⟩
        by_cases h3 : p = i
        · left; exact h3
        · right
          refine ⟨by omega, ?_⟩
          have : p - i = (p - (i + 1)) + 1 := by omega
          rw [this] at h2; simpa using h2
    · simp only [positionsFrom, h, if_false, ih]
      constructor
      · rintro ⟨h1, h2⟩
        refine ⟨by omega, ?_⟩
        have : p - i = (p - (i + 1)) + 1 := by omega
        rw [this]; simpa using h2
      · rintro ⟨h1, h2⟩
        by_cases h3 : p = i
        · subst h3; simp [h] at h2
        · refine ⟨by omega, ?_⟩
          have : p - i = (p - (i + 1)) + 1 := by omega
          rw [this] at h2; simpa using h2

theorem length_positionsFrom (l : Nat) (cs : List Nat) (i : Nat) :
    (positionsFrom l i cs).length = cs.count l := by
  induction cs generalizing i with
  | nil => simp [positionsFrom]
  | cons c cs ih =>
    by_cases h : c = l
    · simp [positionsFrom, h, ih]
    · simp [positionsFrom, h, ih, List.count_cons]

theorem hit_iff (awg : AntiwordGame) (h : Core awg) (i c : Nat) :
    (claimLoop i (awg.wordMap c)).2 = true ↔ awg.word[i]? = some c := by
  rw [claimLoop_snd]
  have h1 : (∃ r ∈ awg.wordMap c, r.pos = i) ↔ i ∈ (awg.wordMap c).map (fun r => r.pos) := by
    simp [List.mem_map]
  rw [h1, h.wfm, mem_positionsFrom]
  simp

theorem wordMap_eq_nil_iff (awg : AntiwordGame) (h : Core awg) (l : Nat) :
    awg.wordMap l = [] ↔ l ∉ awg.word := by
  have h1 := congrArg List.length (h.wfm l)
  rw [List.length_map, length_positionsFrom] at h1
  rw [← List.length_eq_zero, h1, List.count_eq_zero]

/-! ## The core invariant is kept by every step -/

theorem modify_state_length (i st : Nat) (row : List ColorfulLetter) :
    (List.modify (fun x : ColorfulLetter => { x with state := st }) i row).length = row.length := by
  simp

theorem Core_greenStep (i c : Nat) (st : AntiwordGame × (Nat → Bool)) (h : Core st.1) :
    Core (greenStep i c st).1 := by
  refine ⟨?_, ?_, ?_, ?_, ?_, ?_, ?_, ?_⟩
  · rw [greenStep_playtrix]
    split_ifs
    · exact Rows5_modify _ _ _ (modify_state_length _ _) h.rows5
    · exact h.rows5
  · rw [greenStep_entryWord, greenStep_length]; exact h.cur
  · rw [greenStep_entryLetter]; exact h.col
  · intro l
    rw [greenStep_wordMap, greenStep_word]
    split_ifs with h1
    · subst h1; rw [claimLoop_pos]; exact h.wfm l
    · exact h.wfm l
  · intro l hl
    rw [greenStep_keys] at hl
    rw [greenStep_wordMap]
    split_ifs at hl with h1
    · omega
    · have h2 := h.k3 l hl
      split_ifs with h3
      · subst h3; rw [claimLoop_eq_nil]; exact h2
      · exact h2
  · intro l r hr hc
    rw [greenStep_wordMap] at hr
    rw [greenStep_keys]
    by_cases h1 : (claimLoop i (st.1.wordMap c)).2 = true
    · by_cases h2 : l = c
      · simp [h1, h2]
      · simp only [h2, if_false, and_false] at hr ⊢
        exact h.kclaim l r hr hc
    · simp only [h1, false_and, if_false]
      split_ifs at hr with h2
      · subst h2
        rw [claimLoop_fail _ _ (by simpa using h1)] at hr
        exact h.kclaim l r hr hc
      · exact h.kclaim l r hr hc
  · intro l r hr hc
    rw [greenStep_wordMap] at hr
    rw [greenStep_keys]
    by_cases h1 : (claimLoop i (st.1.wordMap c)).2 = true
    · by_cases h2 : l = c
      · simp [h1, h2]
      · simp only [h2, if_false, and_false] at hr ⊢
        exact h.kbound l r hr hc
    · simp only [h1, false_and, if_false]
      split_ifs at hr with h2
      · subst h2
        rw [claimLoop_fail _ _ (by simpa using h1)] at hr
        exact h.kbound l r hr hc
      · exact h.kbound l r hr hc
  · intro l
    rw [greenStep_keys]
    split_ifs
    · omega
    · exact h.krange l

theorem mem_bindLoop_claim (rs : List PositionAndClaim) (r : PositionAndClaim)
    (hr : r ∈ (bindLoop rs).1) (hc : r.claim = true) : ∃ r0 ∈ rs, r0.claim = true := by
  have h1 : true ∈ (bindLoop rs).1.map (fun r => r.claim) :=
    List.mem_map.mpr ⟨r, hr, hc⟩
  rw [bindLoop_claim] at h1
  obtain ⟨r0, h2, h3⟩ := List.mem_map.mp h1
  exact ⟨r0, h2, h3⟩

theorem Core_bindStep (skip : Nat → Bool) (i c : Nat) (awg : AntiwordGame) (h : Core awg) :
    Core (bindStep skip i c awg) := by
  refine ⟨?_, ?_, ?_, ?_, ?_, ?_, ?_, ?_⟩
  · rw [bindStep_playtrix]
    by_cases h0 : skip i = false
    · rw [if_pos h0]
      exact Rows5_modify _ _ _ (modify_state_length _ _) h.rows5
    · rw [if_neg h0]
      exact h.rows5
  · rw [bindStep_entryWord, bindStep_length]; exact h.cur
  · rw [bindStep_entryLetter]; exact h.col
  · intro l
    rw [bindStep_wordMap, bindStep_word]
    split_ifs with h1
    · rw [bindLoop_pos, ← h1.2]; exact h.wfm l
    · exact h.wfm l
  · intro l hl
    rw [bindStep_keys] at hl
    rw [bindStep_wordMap]
    split_ifs at hl with h1 h2
    · omega
    · obtain ⟨h3, h4, h5⟩ := h1
      subst h4
      have h6 : (bindLoop (awg.wordMap l)).2 = false := by simpa using h2
      simp only [h3, true_and, if_true, bindLoop_fail _ h6]
      by_contra h7
      obtain ⟨r, hr⟩ := List.exists_mem_of_ne_nil _ h7
      have h8 : (bindLoop (awg.wordMap l)).2 = true := by
        rw [bindLoop_snd]
        refine ⟨r, hr, ?_, ?_⟩
        · by_contra h9
          have := h.kclaim l r hr (by simpa using h9)
          omega
        · by_contra h9
          exact h.kbound l r hr (by simpa using h9) h5
      rw [h8] at h6; exact Bool.noConfusion h6
    · have h2 := h.k3 l hl
      split_ifs with h3
      · rw [bindLoop_eq_nil, ← h3.2]; exact h2
      · exact h2
  · intro l r hr hc
    rw [bindStep_wordMap] at hr
    rw [bindStep_keys]
    split_ifs at hr with h1
    · obtain ⟨r0, h2, h3⟩ := mem_bindLoop_claim _ r hr hc
      have h4 := h.kclaim c r0 h2 h3
      have h5 : ¬ awg.keys c = 0 := by omega
      simp only [h5, and_false, if_false]
      rw [h1.2]; exact h4
    · have h4 := h.kclaim l r hr hc
      split_ifs with h5
      · rw [h5.2.1] at h4; omega
      · rw [h5.2.1] at h4; omega
      · exact h4
  · intro l r hr hc
    rw [bindStep_wordMap] at hr
    rw [bindStep_keys]
    split_ifs at hr with h1
    · split_ifs with h5 h6
      · omega
      · omega
      · intro h7
        apply h5
        refine ⟨h1.1, h1.2, ?_⟩
        rw [← h1.2]; exact h7
    · have h4 := h.kbound l r hr hc
      split_ifs with h5
      · omega
      · omega
      · exact h4
  · intro l
    rw [bindStep_keys]
    split_ifs
    · omega
    · omega
    · exact h.krange l

theorem Core_ResetBindings (awg : AntiwordGame) (h : Core awg) : Core (ResetBindings awg) := by
  refine ⟨h.rows5, h.cur, h.col, ?_, ?_, ?_, ?_, h.krange⟩
  · intro l
    simp only [ResetBindings, List.map_map]
    exact h.wfm l
  · intro l hl
    simp only [ResetBindings, List.map_eq_nil_iff]
    exact h.k3 l hl
  · intro l r hr hc
    simp only [ResetBindings, List.mem_map] at hr
    obtain ⟨r0, h1, h2⟩ := hr
    subst h2
    exact h.kclaim l r0 h1 hc
  · intro l r hr hc
    simp only [ResetBindings, List.mem_map] at hr
    obtain ⟨r0, h1, h2⟩ := hr
    subst h2
    simp at hc

theorem Core_greenPass (cs : List Nat) (i : Nat) (st : AntiwordGame × (Nat → Bool))
    (h : Core st.1) : Core (greenPass i cs st).1 := by
  induction cs generalizing i st with
  | nil => exact h
  | cons c cs ih => exact ih (i + 1) _ (Core_greenStep i c st h)

theorem Core_bindPass (skip : Nat → Bool) (cs : List Nat) (i : Nat) (awg : AntiwordGame)
    (h : Core awg) : Core (bindPass skip i cs awg) := by
  induction cs generalizing i awg with
  | nil => exact h
  | cons c cs ih => exact ih (i + 1) _ (Core_bindStep skip i c awg h)

/-! ## Loop rules -/

theorem greenPass_rule (G : List Nat) (Q : Nat → AntiwordGame × (Nat → Bool) → Prop)
    (step : ∀ i c st, G[i]? = some c → Q i st → Q (i + 1) (greenStep i c st)) :
    ∀ (n i : Nat) (st : AntiwordGame × (Nat → Bool)), n + i = G.length → Q i st →
      Q G.length (greenPass i (G.drop i) st) := by
  intro n
  induction n with
  | zero =>
    intro i st hi hq
    have h1 : i = G.length := by omega
    subst h1
    simpa [greenPass] using hq
  | succ n ih =>
    intro i st hi hq
    have h1 : i < G.length := by omega
    rw [List.drop_eq_getElem_cons h1]
    simp only [greenPass]
    exact ih (i + 1) _ (by omega) (step i G[i] st (List.getElem?_eq_getElem h1) hq)

theorem bindPass_rule (skip : Nat → Bool) (G : List Nat) (Q : Nat → AntiwordGame → Prop)
    (step : ∀ i c awg, G[i]? = some c → Q i awg → Q (i + 1) (bindStep skip i c awg)) :
    ∀ (n i : Nat) (awg : AntiwordGame), n + i = G.length → Q i awg →
      Q G.length (bindPass skip i (G.drop i) awg) := by
  intro n
  induction n with
  | zero =>
    intro i awg hi hq
    have h1 : i = G.length := by omega
    subst h1
    simpa [bindPass] using hq
  | succ n ih =>
    intro i awg hi hq
    have h1 : i < G.length := by omega
    rw [List.drop_eq_getElem_cons h1]
    simp only [bindPass]
    exact ih (i + 1) _ (by omega) (step i G[i] awg (List.getElem?_eq_getElem h1) hq)

theorem greenPass_rule0 (G : List Nat) (Q : Nat → AntiwordGame × (Nat → Bool) → Prop)
    (step : ∀ i c st, G[i]? = some c → Q i st → Q (i + 1) (greenStep i c st))
    (st : AntiwordGame × (Nat → Bool)) (h : Q 0 st) : Q G.length (greenPass 0 G st) := by
  have := greenPass_rule G Q step G.length 0 st (by omega) h
  simpa using this

theorem bindPass_rule0 (skip : Nat → Bool) (G : List Nat) (Q : Nat → AntiwordGame → Prop)
    (step : ∀ i c awg, G[i]? = some c → Q i awg → Q (i + 1) (bindStep skip i c awg))
    (awg : AntiwordGame) (h : Q 0 awg) : Q G.length (bindPass skip 0 G awg) := by
  have := bindPass_rule skip G Q step G.length 0 awg (by omega) h
  simpa using this

/-! ## The exact-match loop -/

theorem GreenInv_init (a0 : AntiwordGame) (G : List Nat) (h : Core a0) :
    GreenInv a0 G 0 (a0, fun _ => false) := by
  refine ⟨h, rfl, rfl, rfl, rfl, rfl, rfl, ?_, ?_, ?_, ?_, ?_, ?_, ?_⟩
  · intro j; simp
  · intro j hj; omega
  · intro r j _; rfl
  · intro l j hj; omega
  · intro l _; rfl
  · intro k x hk; omega
  · intro k x _; rfl

theorem GreenInv_step (a0 : AntiwordGame) (G : List Nat) (i c : Nat)
    (st : AntiwordGame × (Nat → Bool)) (hc : G[i]? = some c) (h : GreenInv a0 G i st) :
    GreenInv a0 G (i + 1) (greenStep i c st) := by
  have hhit : (claimLoop i (st.1.wordMap c)).2 = true ↔ exactAt a0.word G i := by
    rw [hit_iff _ h.core, h.word]
    constructor
    · intro h1; exact ⟨c, hc, h1⟩
    · rintro ⟨c1, h1, h2⟩
      rw [hc] at h1
      cases h1; exact h2
  refine ⟨Core_greenStep i c st h.core, ?_, ?_, ?_, ?_, ?_, ?_, ?_, ?_, ?_, ?_, ?_, ?_, ?_⟩
  · rw [greenStep_word]; exact h.word
  · rw [greenStep_dict]; exact h.dict
  · rw [greenStep_dictMap]; exact h.dictMap
  · rw [greenStep_entryWord]; exact h.entryWord
  · rw [greenStep_entryLetter]; exact h.entryLetter
  · rw [greenStep_length]; exact h.len
  · intro j
    rw [greenStep_skip]
    by_cases h1 : j = i
    · subst h1
      by_cases h2 : exactAt a0.word G j
      · simp [h2, hhit.mpr h2]
      · have h4 : ¬ (claimLoop j (st.1.wordMap c)).2 = true := fun e => h2 (hhit.mp e)
        simp only [h4, h2, if_false, and_false, false_and, iff_false]
        intro h3
        have := (h.skip j).mp h3
        omega
    · simp only [h1, and_false, if_false, h.skip j]
      constructor
      · rintro ⟨h2, h3⟩; exact ⟨by omega, h3⟩
      · rintro ⟨h2, h3⟩; exact ⟨by omega, h3⟩
  · intro j hj hex
    rw [greenStep_cell, h.entryWord]
    by_cases h1 : j = i
    · subst h1
      have h2 := h.cell_miss a0.entryWord j (by intro h3; omega)
      simp only [hhit.mpr hex, true_and, and_true, if_true, h2]
    · simp only [h1, and_false, if_false]
      exact h.cell_hit j (by omega) hex
  · intro r j hn
    rw [greenStep_cell, h.entryWord]
    by_cases h1 : (claimLoop i (st.1.wordMap c)).2 = true ∧ r = a0.entryWord ∧ j = i
    · exfalso
      apply hn
      obtain ⟨h2, h3, h4⟩ := h1
      subst h4
      exact ⟨h3, by omega, hhit.mp h2⟩
    · rw [if_neg h1]
      apply h.cell_miss
      rintro ⟨h2, h3, h4⟩
      exact hn ⟨h2, by omega, h4⟩
  · intro l j hj h1 h2
    rw [greenStep_keys]
    by_cases h3 : j = i
    · subst h3
      rw [hc] at h1
      cases h1
      have : (claimLoop j (st.1.wordMap c)).2 = true := hhit.mpr ⟨c, hc, h2⟩
      simp [this]
    · split_ifs
      · rfl
      · exact h.keys_hit l j (by omega) h1 h2
  · intro l hl
    rw [greenStep_keys]
    have h1 : ¬ ((claimLoop i (st.1.wordMap c)).2 = true ∧ l = c) := by
      rintro ⟨h2, h3⟩
      subst h3
      obtain ⟨c1, h4, h5⟩ := hhit.mp h2
      rw [hc] at h4
      cases h4
      exact hl i (by omega) hc h5
    rw [if_neg h1]
    exact h.keys_miss l (fun j hj => hl j (by omega))
  · intro k x hk hex
    rw [greenStep_enforcementMap]
    by_cases h1 : k = i
    · subst h1
      simp only [hhit.mpr hex, and_self, if_true, hc]
      by_cases h2 : x = c
      · subst h2; simp
      · have h3 : ¬ c = x := fun e => h2 e.symm
        simp [h2, h3]
    · simp only [h1, and_false, if_false]
      exact h.enf_hit k x (by omega) hex
  · intro k x hn
    rw [greenStep_enforcementMap]
    by_cases h1 : (claimLoop i (st.1.wordMap c)).2 = true ∧ k = i
    · exfalso
      apply hn
      obtain ⟨h2, h3⟩ := h1
      subst h3
      exact ⟨by omega, hhit.mp h2⟩
    · rw [if_neg h1]
      apply h.enf_miss
      rintro ⟨h2, h3⟩
      exact hn ⟨by omega, h3⟩

theorem GreenInv_greenPass (a0 : AntiwordGame) (G : List Nat) (h : Core a0) :
    GreenInv a0 G G.length (greenPass 0 G (a0, fun _ => false)) :=
  greenPass_rule0 G (GreenInv a0 G) (fun i c st hc hq => GreenInv_step a0 G i c st hc hq) _
    (GreenInv_init a0 G h)

/-! ## The second loop -/

theorem BindInv_init (a1 : AntiwordGame) (skip : Nat → Bool) (G : List Nat) (h : Core a1) :
    BindInv a1 skip G 0 a1 := by
  refine ⟨h, rfl, rfl, rfl, rfl, rfl, rfl, ?_, ?_, ?_, ?_, ?_, ?_, ?_⟩
  · intro r j _; rfl
  · intro j hj; omega
  · intro k x hk; omega
  · intro k x _; rfl
  · intro l _; rfl
  · intro l j hj; omega
  · intro l _; rfl

theorem BindInv_step (a1 : AntiwordGame) (skip : Nat → Bool) (G : List Nat) (i c : Nat)
    (awg : AntiwordGame) (hc : G[i]? = some c) (h : BindInv a1 skip G i awg) :
    BindInv a1 skip G (i + 1) (bindStep skip i c awg) := by
  refine ⟨Core_bindStep skip i c awg h.core, ?_, ?_, ?_, ?_, ?_, ?_, ?_, ?_, ?_, ?_, ?_, ?_, ?_⟩
  · rw [bindStep_word]; exact h.word
  · rw [bindStep_dict]; exact h.dict
  · rw [bindStep_dictMap]; exact h.dictMap
  · rw [bindStep_entryWord]; exact h.entryWord
  · rw [bindStep_entryLetter]; exact h.entryLetter
  · rw [bindStep_length]; exact h.len
  · intro r j hn
    rw [bindStep_cell, h.entryWord]
    by_cases h1 : skip i = false ∧ r = a1.entryWord ∧ j = i
    · exfalso
      obtain ⟨h2, h3, h4⟩ := h1
      subst h4
      exact hn ⟨h3, by omega, h2⟩
    · rw [if_neg h1]
      apply h.cell_same
      rintro ⟨h2, h3, h4⟩
      exact hn ⟨h2, by omega, h4⟩
  · intro j hj hs
    rw [bindStep_cell, h.entryWord]
    by_cases h1 : j = i
    · subst h1
      have h2 := h.cell_same a1.entryWord j (by intro h3; omega)
      simp only [hs, true_and, and_self, if_true, h2]
      by_cases h3 : (bindLoop (awg.wordMap c)).2 = true
      · exact ⟨1, Or.inl rfl, by simp [h3]⟩
      · exact ⟨3, Or.inr rfl, by simp [h3]⟩
    · simp only [h1, and_false, if_false]
      exact h.cell_set j (by omega) hs
  · intro k x hk hs hx
    rw [bindStep_enforcementMap]
    by_cases h1 : k = i
    · subst h1
      rw [hc] at hx
      cases hx
      simp [hs]
    · split_ifs
      · rfl
      · exact h.enf_set k x (by omega) hs hx
  · intro k x hn
    rw [bindStep_enforcementMap]
    by_cases h1 : skip i = false ∧ k = i ∧ x = c
    · exfalso
      obtain ⟨h2, h3, h4⟩ := h1
      subst h3; subst h4
      exact hn ⟨by omega, h2, hc⟩
    · rw [if_neg h1]
      apply h.enf_same
      rintro ⟨h2, h3, h4⟩
      exact hn ⟨by omega, h3, h4⟩
  · intro l hl
    rw [bindStep_keys]
    have h2 := h.keys_keep l hl
    split_ifs with h1
    · obtain ⟨_, h3, h4⟩ := h1
      subst h3; omega
    · obtain ⟨_, h3, h4⟩ := h1
      subst h3; omega
    · exact h2
  · intro l j hj hs hl
    rw [bindStep_keys]
    by_cases h1 : j = i
    · subst h1
      rw [hc] at hl
      cases hl
      split_ifs with h2
      · omega
      · omega
      · intro h3
        exact h2 ⟨hs, rfl, h3⟩
    · have h2 := h.keys_seen l j (by omega) hs hl
      split_ifs
      · omega
      · omega
      · exact h2
  · intro l hl
    rw [bindStep_keys]
    have h1 : ¬ (skip i = false ∧ l = c ∧ awg.keys c = 0) := by
      rintro ⟨h2, h3, _⟩
      subst h3
      exact hl i (by omega) h2 hc
    rw [if_neg h1]
    exact h.keys_unseen l (fun j hj => hl j (by omega))

theorem BindInv_bindPass (a1 : AntiwordGame) (skip : Nat → Bool) (G : List Nat) (h : Core a1) :
    BindInv a1 skip G G.length (bindPass skip 0 G a1) :=
  bindPass_rule0 skip G (BindInv a1 skip G)
    (fun i c awg hc hq => BindInv_step a1 skip G i c awg hc hq) _ (BindInv_init a1 skip G h)

/-! ## Summary of an evaluation -/

theorem evaluate_eq (awg : AntiwordGame) (G : List Nat) :
    evaluate awg G =
      { pruneDict (afterBind awg G) G with
        playtrix := (afterBind awg G).playtrix ++ [emptyRow]
        entryWord := (afterBind awg G).entryWord + 1
        entryLetter := 0 } := rfl

theorem Core_filter (awg : AntiwordGame) (h : Core awg) (f : List (List Nat)) :
    Core { awg with dictMap := f } :=
  ⟨h.rows5, h.cur, h.col, h.wfm, h.k3, h.kclaim, h.kbound, h.krange⟩

theorem afterGreen_inv (awg : AntiwordGame) (G : List Nat) (h : Core awg) :
    GreenInv { awg with dictMap := awg.dictMap.filter (fun k => k != G) } G G.length
      (afterGreen awg G) :=
  GreenInv_greenPass _ G (Core_filter awg h _)

theorem afterBind_inv (awg : AntiwordGame) (G : List Nat) (h : Core awg) :
    BindInv (ResetBindings (afterGreen awg G).1) (afterGreen awg G).2 G G.length
      (afterBind awg G) :=
  BindInv_bindPass _ _ G (Core_ResetBindings _ (afterGreen_inv awg G h).core)

theorem exactAt_lt (S G : List Nat) (j : Nat) (h : exactAt S G j) : j < G.length := by
  obtain ⟨c, h1, _⟩ := h
  exact (List.getElem?_eq_some.mp h1).1

theorem skip_false_iff (awg : AntiwordGame) (G : List Nat) (h : Core awg) (j : Nat) :
    (afterGreen awg G).2 j = false ↔ ¬ exactAt awg.word G j := by
  have h1 := (afterGreen_inv awg G h).skip j
  constructor
  · intro h2 h3
    have := h1.mpr ⟨exactAt_lt _ _ _ h3, h3⟩
    rw [h2] at this; exact Bool.noConfusion this
  · intro h2
    by_contra h3
    exact h2 (h1.mp (by simpa using h3)).2

theorem afterBind_word (awg : AntiwordGame) (G : List Nat) (h : Core awg) :
    (afterBind awg G).word = awg.word :=
  (afterBind_inv awg G h).word.trans (afterGreen_inv awg G h).word

theorem afterBind_dict (awg : AntiwordGame) (G : List Nat) (h : Core awg) :
    (afterBind awg G).dict = awg.dict :=
  (afterBind_inv awg G h).dict.trans (afterGreen_inv awg G h).dict

theorem afterBind_dictMap (awg : AntiwordGame) (G : List Nat) (h : Core awg) :
    (afterBind awg G).dictMap = awg.dictMap.filter (fun k => k != G) :=
  (afterBind_inv awg G h).dictMap.trans (afterGreen_inv awg G h).dictMap

theorem afterBind_entryWord (awg : AntiwordGame) (G : List Nat) (h : Core awg) :
    (afterBind awg G).entryWord = awg.entryWord :=
  (afterBind_inv awg G h).entryWord.trans (afterGreen_inv awg G h).entryWord

theorem afterBind_length (awg : AntiwordGame) (G : List Nat) (h : Core awg) :
    (afterBind awg G).playtrix.length = awg.playtrix.length :=
  (afterBind_inv awg G h).len.trans (afterGreen_inv awg G h).len

theorem afterBind_cell_hit (awg : AntiwordGame) (G : List Nat) (h : Core awg) (j : Nat)
    (hex : exactAt awg.word G j) :
    cell? (afterBind awg G) awg.entryWord j =
      (cell? awg awg.entryWord j).map (fun x => { x with state := 2 }) := by
  have hg := afterGreen_inv awg G h
  have hb := afterBind_inv awg G h
  have hs : (afterGreen awg G).2 j = true := (hg.skip j).mpr ⟨exactAt_lt _ _ _ hex, hex⟩
  rw [hb.cell_same awg.entryWord j (by rintro ⟨_, _, h3⟩; rw [hs] at h3; exact Bool.noConfusion h3)]
  exact hg.cell_hit j (exactAt_lt _ _ _ hex) hex

theorem afterBind_cell_miss (awg : AntiwordGame) (G : List Nat) (h : Core awg) (j : Nat)
    (hj : j < G.length) (hex : ¬ exactAt awg.word G j) :
    ∃ v, (v = 1 ∨ v = 3) ∧ cell? (afterBind awg G) awg.entryWord j =
      (cell? awg awg.entryWord j).map (fun x => { x with state := v }) := by
  have hg := afterGreen_inv awg G h
  have hb := afterBind_inv awg G h
  have hs : (afterGreen awg G).2 j = false := (skip_false_iff awg G h j).mpr hex
  have he : (ResetBindings (afterGreen awg G).1).entryWord = awg.entryWord := hg.entryWord
  obtain ⟨v, hv, h1⟩ := hb.cell_set j hj hs
  refine ⟨v, hv, ?_⟩
  rw [he] at h1
  rw [h1]
  have h2 : cell? (ResetBindings (afterGreen awg G).1) awg.entryWord j
      = cell? awg awg.entryWord j :=
    hg.cell_miss awg.entryWord j (by rintro ⟨_, _, h3⟩; exact hex h3)
  rw [h2]

theorem afterBind_cell_other (awg : AntiwordGame) (G : List Nat) (h : Core awg) (r j : Nat)
    (hr : r ≠ awg.entryWord ∨ G.length ≤ j) :
    cell? (afterBind awg G) r j = cell? awg r j := by
  have hg := afterGreen_inv awg G h
  have hb := afterBind_inv awg G h
  have he : (ResetBindings (afterGreen awg G).1).entryWord = awg.entryWord := hg.entryWord
  rw [hb.cell_same r j (by rw [he]; rintro ⟨h1, h2, _⟩; rcases hr with h3 | h3 <;> omega)]
  exact hg.cell_miss r j (by
    rintro ⟨h1, h2, _⟩
    rcases hr with h3 | h3
    · exact h3 h1
    · omega)

theorem afterBind_enf_hit (awg : AntiwordGame) (G : List Nat) (h : Core awg) (k x : Nat)
    (hex : exactAt awg.word G k) :
    (afterBind awg G).enforcementMap k x = decide (G[k]? = some x) := by
  have hg := afterGreen_inv awg G h
  have hb := afterBind_inv awg G h
  have hs : (afterGreen awg G).2 k = true := (hg.skip k).mpr ⟨exactAt_lt _ _ _ hex, hex⟩
  rw [hb.enf_same k x (by rintro ⟨_, h3, _⟩; rw [hs] at h3; exact Bool.noConfusion h3)]
  exact hg.enf_hit k x (exactAt_lt _ _ _ hex) hex

theorem afterBind_enf_forbid (awg : AntiwordGame) (G : List Nat) (h : Core awg) (k x : Nat)
    (hex : ¬ exactAt awg.word G k) (hx : G[k]? = some x) :
    (afterBind awg G).enforcementMap k x = false := by
  have hb := afterBind_inv awg G h
  exact hb.enf_set k x (List.getElem?_eq_some.mp hx).1 ((skip_false_iff awg G h k).mpr hex) hx

theorem afterBind_enf_other (awg : AntiwordGame) (G : List Nat) (h : Core awg) (k x : Nat)
    (hex : ¬ exactAt awg.word G k) (hx : G[k]? ≠ some x) :
    (afterBind awg G).enforcementMap k x = awg.enforcementMap k x := by
  have hg := afterGreen_inv awg G h
  have hb := afterBind_inv awg G h
  rw [hb.enf_same k x (by rintro ⟨_, _, h3⟩; exact hx h3)]
  exact hg.enf_miss k x (by rintro ⟨_, h3⟩; exact hex h3)

/-! ## Key hints during an evaluation -/

theorem hint_logic (k v0 : Nat) (s1 s2 s3 : Prop) (hk : k ≤ 3)
    (hv0 : v0 = 1 ∨ v0 = 2 ∨ v0 = 3)
    (h2 : k = 2 ↔ s2) (h1 : k = 1 ↔ s1 ∧ ¬ s2) (h3 : k = 3 ↔ s3 ∧ ¬ s1 ∧ ¬ s2)
    (hk3 : k = 3 → v0 ≠ 1) (k' : Nat)
    (hk' : k' = if v0 = 2 then 2 else if k = 0 then v0 else k) :
    (k' = 2 ↔ s2 ∨ v0 = 2) ∧ (k' = 1 ↔ (s1 ∨ v0 = 1) ∧ ¬ (s2 ∨ v0 = 2)) ∧
      (k' = 3 ↔ (s3 ∨ v0 = 3) ∧ ¬ (s1 ∨ v0 = 1) ∧ ¬ (s2 ∨ v0 = 2)) := by
  subst hk'
  interval_cases k <;> rcases hv0 with rfl | rfl | rfl <;> simp at * <;> tauto

theorem seen_update (awg awg' : AntiwordGame) (N n i c v0 : Nat) (P : Prop)
    (hset : P → cell? awg' n i = some ⟨c, v0⟩)
    (hsame : ∀ r j, ¬ (P ∧ r = n ∧ j = i) → cell? awg' r j = cell? awg r j)
    (h0 : P → cell? awg n i = some ⟨c, 0⟩) (hn : n < N) (l v : Nat) (hv : v ≠ 0) :
    seen awg' N l v ↔ seen awg N l v ∨ (P ∧ l = c ∧ v = v0) := by
  constructor
  · rintro ⟨r, j, hr, hc⟩
    by_cases h1 : P ∧ r = n ∧ j = i
    · obtain ⟨hp, h2, h3⟩ := h1
      subst h2; subst h3
      rw [hset hp] at hc
      cases hc
      exact Or.inr ⟨hp, rfl, rfl⟩
    · rw [hsame r j h1] at hc
      exact Or.inl ⟨r, j, hr, hc⟩
  · rintro (⟨r, j, hr, hc⟩ | ⟨hp, h2, h3⟩)
    · refine ⟨r, j, hr, ?_⟩
      rw [hsame r j]
      · exact hc
      · rintro ⟨hp, h2, h3⟩
        subst h2; subst h3
        rw [h0 hp] at hc
        cases hc
        exact hv rfl
    · subst h2; subst h3
      exact ⟨n, i, hn, hset hp⟩

theorem HintOK_update (awg awg' : AntiwordGame) (N n i c v0 : Nat) (P : Prop)
    (hset : P → cell? awg' n i = some ⟨c, v0⟩)
    (hsame : ∀ r j, ¬ (P ∧ r = n ∧ j = i) → cell? awg' r j = cell? awg r j)
    (h0 : P → cell? awg n i = some ⟨c, 0⟩) (hn : n < N)
    (hv0 : v0 = 1 ∨ v0 = 2 ∨ v0 = 3)
    (hkP : P → awg'.keys c = if v0 = 2 then 2 else if awg.keys c = 0 then v0 else awg.keys c)
    (hkO : ∀ l, ¬ (P ∧ l = c) → awg'.keys l = awg.keys l)
    (hk3 : awg.keys c = 3 → v0 ≠ 1) (hr : ∀ l, awg.keys l ≤ 3)
    (h : HintOK awg N) : HintOK awg' N := by
  intro l
  have e1 := seen_update awg awg' N n i c v0 P hset hsame h0 hn l 1 (by omega)
  have e2 := seen_update awg awg' N n i c v0 P hset hsame h0 hn l 2 (by omega)
  have e3 := seen_update awg awg' N n i c v0 P hset hsame h0 hn l 3 (by omega)
  obtain ⟨h2, h1, h3⟩ := h l
  by_cases hp : P ∧ l = c
  · obtain ⟨hp1, hp2⟩ := hp
    subst hp2
    have e1' : seen awg' N l 1 ↔ seen awg N l 1 ∨ v0 = 1 := by
      rw [e1]; constructor
      · rintro (h | ⟨_, _, h⟩); exact Or.inl h; exact Or.inr h.symm
      · rintro (h | h); exact Or.inl h; exact Or.inr ⟨hp1, rfl, h.symm⟩
    have e2' : seen awg' N l 2 ↔ seen awg N l 2 ∨ v0 = 2 := by
      rw [e2]; constructor
      · rintro (h | ⟨_, _, h⟩); exact Or.inl h; exact Or.inr h.symm
      · rintro (h | h); exact Or.inl h; exact Or.inr ⟨hp1, rfl, h.symm⟩
    have e3' : seen awg' N l 3 ↔ seen awg N l 3 ∨ v0 = 3 := by
      rw [e3]; constructor
      · rintro (h | ⟨_, _, h⟩); exact Or.inl h; exact Or.inr h.symm
      · rintro (h | h); exact Or.inl h; exact Or.inr ⟨hp1, rfl, h.symm⟩
    rw [e1', e2', e3']
    exact hint_logic (awg.keys l) v0 _ _ _ (hr l) hv0 h2 h1 h3 hk3 _ (hkP hp1)
  · have f : ∀ v, (seen awg N l v ∨ P ∧ l = c ∧ v = v0) ↔ seen awg N l v := by
      intro v; constructor
      · rintro (h | ⟨h4, h5, _⟩); exact h; exact absurd ⟨h4, h5⟩ hp
      · intro h; exact Or.inl h
    rw [e1, e2, e3, f 1, f 2, f 3, hkO l hp]
    exact ⟨h2, h1, h3⟩

theorem afterGreen_hint (s : AntiwordGame) (G : List Nat) (N : Nat) (hc : Core s)
    (hrow : ∀ j c, G[j]? = some c → cell? s s.entryWord j = some ⟨c, 0⟩)
    (hn : s.entryWord < N) (hh : HintOK s N) : HintOK (afterGreen s G).1 N := by
  have key := greenPass_rule0 G
    (fun i st => GreenInv { s with dictMap := s.dictMap.filter (fun k => k != G) } G i st ∧
      HintOK st.1 N)
    (fun i c st hci hq => by
      obtain ⟨hg, hq⟩ := hq
      refine ⟨GreenInv_step _ G i c st hci hg, ?_⟩
      have hcell : cell? st.1 s.entryWord i = some ⟨c, 0⟩ := by
        have := hg.cell_miss s.entryWord i (by rintro ⟨_, h2, _⟩; omega)
        rw [this]; exact hrow i c hci
      have hew : st.1.entryWord = s.entryWord := hg.entryWord
      refine HintOK_update st.1 (greenStep i c st).1 N s.entryWord i c 2
        ((claimLoop i (st.1.wordMap c)).2 = true) ?_ ?_ (fun _ => hcell) hn
        (Or.inr (Or.inl rfl)) ?_ ?_ (by omega) hg.core.krange hq
      · intro hp
        rw [greenStep_cell, hew]
        simp [hp, hcell]
      · intro r j hnp
        rw [greenStep_cell, hew, if_neg hnp]
      · intro hp
        rw [greenStep_keys]
        simp [hp]
      · intro l hnp
        rw [greenStep_keys, if_neg hnp])
    ({ s with dictMap := s.dictMap.filter (fun k => k != G) }, fun _ => false)
    ⟨GreenInv_init _ G (Core_filter s hc _), hh⟩
  exact key.2

theorem afterBind_hint (s : AntiwordGame) (G : List Nat) (N : Nat) (hc : Core s)
    (hrow : ∀ j c, G[j]? = some c → cell? s s.entryWord j = some ⟨c, 0⟩)
    (hn : s.entryWord < N) (hh : HintOK s N) : HintOK (afterBind s G) N := by
  have hg := afterGreen_inv s G hc
  have h1 : HintOK (ResetBindings (afterGreen s G).1) N := afterGreen_hint s G N hc hrow hn hh
  have hew0 : (ResetBindings (afterGreen s G).1).entryWord = s.entryWord := hg.entryWord
  have key := bindPass_rule0 (afterGreen s G).2 G
    (fun i awg => BindInv (ResetBindings (afterGreen s G).1) (afterGreen s G).2 G i awg ∧
      HintOK awg N)
    (fun i c awg hci hq => by
      obtain ⟨hb, hq⟩ := hq
      refine ⟨BindInv_step _ _ G i c awg hci hb, ?_⟩
      have hew : awg.entryWord = s.entryWord := hb.entryWord.trans hew0
      have hcell : (afterGreen s G).2 i = false → cell? awg s.entryWord i = some ⟨c, 0⟩ := by
        intro hs
        have e1 := hb.cell_same s.entryWord i (by rintro ⟨_, h2, _⟩; omega)
        have e2 : cell? (ResetBindings (afterGreen s G).1) s.entryWord i
            = cell? s s.entryWord i :=
          hg.cell_miss s.entryWord i (by
            rintro ⟨_, _, h3⟩
            exact (skip_false_iff s G hc i).mp hs h3)
        rw [e1, e2]; exact hrow i c hci
      refine HintOK_update awg (bindStep (afterGreen s G).2 i c awg) N s.entryWord i c
        (if (bindLoop (awg.wordMap c)).2 = true then 1 else 3)
        ((afterGreen s G).2 i = false) ?_ ?_ hcell hn ?_ ?_ ?_ ?_ hb.core.krange hq
      · intro hp
        rw [bindStep_cell, hew]
        simp [hp, hcell hp]
      · intro r j hnp
        rw [bindStep_cell, hew, if_neg hnp]
      · split_ifs
        · exact Or.inl rfl
        · exact Or.inr (Or.inr rfl)
      · intro hp
        rw [bindStep_keys]
        by_cases hb2 : (bindLoop (awg.wordMap c)).2 = true <;>
          by_cases hk : awg.keys c = 0 <;> simp [hp, hb2, hk]
      · intro l hnp
        rw [bindStep_keys]
        have : ¬ ((afterGreen s G).2 i = false ∧ l = c ∧ awg.keys c = 0) := by
          rintro ⟨h2, h3, _⟩; exact hnp ⟨h2, h3⟩
        rw [if_neg this]
      · intro hk3
        have := hb.core.k3 c hk3
        simp [this, bindLoop])
    (ResetBindings (afterGreen s G).1)
    ⟨BindInv_init _ _ G (Core_ResetBindings _ hg.core), h1⟩
  exact key.2

/-! ## Reading the current row -/

theorem readRow_some (row : List ColorfulLetter) (G : List Nat) (h : readRow row = some G) :
    G = row.map (fun c => c.letter) ∧ ∀ c ∈ row, c.letter ≠ 0 := by
  induction row generalizing G with
  | nil => simp [readRow] at h; simp [h]
  | cons c cs ih =>
    by_cases h1 : c.letter = 0
    · simp [readRow, h1] at h
    · cases h2 : readRow cs with
      | none => simp [readRow, h1, h2] at h
      | some w =>
        simp only [readRow, h1, h2, if_false, Option.some.injEq] at h
        obtain ⟨h3, h4⟩ := ih w h2
        subst h
        refine ⟨by simp [h3], ?_⟩
        intro x hx
        rcases List.mem_cons.mp hx with rfl | hx
        · exact h1
        · exact h4 x hx

theorem readRow_none (row : List ColorfulLetter) (h : readRow row = none) :
    ∃ c ∈ row, c.letter = 0 := by
  induction row with
  | nil => simp [readRow] at h
  | cons c cs ih =>
    by_cases h1 : c.letter = 0
    · exact ⟨c, List.mem_cons_self _ _, h1⟩
    · cases h2 : readRow cs with
      | none =>
        obtain ⟨x, hx, h3⟩ := ih h2
        exact ⟨x, List.mem_cons_of_mem _ hx, h3⟩
      | some w => simp [readRow, h1, h2] at h

theorem cell?_row (awg : AntiwordGame) (r : Nat) (row : List ColorfulLetter)
    (h : awg.playtrix[r]? = some row) (j : Nat) : cell? awg r j = row[j]? := by
  simp [cell?, h]

theorem cell?_none_of_len (awg : AntiwordGame) (r j : Nat) (h : awg.playtrix.length ≤ r) :
    cell? awg r j = none := by
  simp [cell?, List.getElem?_eq_none h]

theorem cell?_lt (awg : AntiwordGame) (h : Rows5 awg.playtrix) (r j : Nat) (c : ColorfulLetter)
    (hc : cell? awg r j = some c) : r < awg.playtrix.length ∧ j < 5 := by
  unfold cell? at hc
  cases h1 : awg.playtrix[r]? with
  | none => simp [h1] at hc
  | some row =>
    simp only [h1] at hc
    have h2 := (List.getElem?_eq_some.mp h1).1
    have h3 := (List.getElem?_eq_some.mp hc).1
    have h4 := h row (List.mem_iff_getElem?.mpr ⟨r, h1⟩)
    exact ⟨h2, by omega⟩

/-- The facts about an accepted row: it holds the guess, unclassified. -/
theorem row_holds (s : AntiwordGame) (h : Inv s) (row : List ColorfulLetter) (G : List Nat)
    (hrow : s.playtrix[s.entryWord]? = some row) (hG : readRow row = some G) :
    G.length = 5 ∧ ∀ j c, G[j]? = some c → cell? s s.entryWord j = some ⟨c, 0⟩ := by
  obtain ⟨h1, _⟩ := readRow_some row G hG
  have h5 : row.length = 5 := h.core.rows5 row (List.mem_iff_getElem?.mpr ⟨_, hrow⟩)
  refine ⟨by rw [h1, List.length_map, h5], ?_⟩
  intro j c hj
  rw [cell?_row s _ row hrow]
  rw [h1, List.getElem?_map] at hj
  cases h2 : row[j]? with
  | none => simp [h2] at hj
  | some x =>
    simp only [h2, Option.map_some', Option.some.injEq] at hj
    have h3 := h.fresh s.entryWord j x (le_refl _) (by rw [cell?_row s _ row hrow]; exact h2)
    cases x with
    | mk a b =>
      simp only at hj h3
      subst hj; subst h3; rfl

theorem cell?_evaluate (s : AntiwordGame) (G : List Nat) (h : Core s) (r j : Nat) :
    cell? (evaluate s G) r j =
      if r < s.playtrix.length then cell? (afterBind s G) r j
      else if r = s.playtrix.length then emptyRow[j]? else none := by
  have hl := afterBind_length s G h
  rw [evaluate_eq]
  unfold cell?
  simp only [pruneDict]
  by_cases h1 : r < s.playtrix.length
  · rw [if_pos h1, List.getElem?_append_left (by omega)]
  · rw [if_neg h1, List.getElem?_append_right (by omega), hl]
    by_cases h2 : r = s.playtrix.length
    · subst h2; simp
    · rw [if_neg h2]
      have : r - s.playtrix.length = (r - s.playtrix.length - 1) + 1 := by omega
      rw [this]; simp

theorem emptyRow_cell (j : Nat) (c : ColorfulLetter) (h : emptyRow[j]? = some c) :
    c = ⟨0, 0⟩ := by
  unfold emptyRow at h
  rw [List.getElem?_replicate] at h
  split_ifs at h
  cases h; rfl

/-! ## The invariant is kept by an evaluation -/

theorem Core_evaluate (s : AntiwordGame) (G : List Nat) (h : Core s) : Core (evaluate s G) := by
  have hb := (afterBind_inv s G h).core
  rw [evaluate_eq]
  refine ⟨?_, ?_, ?_, hb.wfm, hb.k3, hb.kclaim, hb.kbound, hb.krange⟩
  · intro row hr
    rcases List.mem_append.mp hr with h1 | h1
    · exact hb.rows5 row h1
    · simp only [List.mem_singleton] at h1
      subst h1; simp [emptyRow, GetWordSize]
  · have := hb.cur
    simp only [List.length_append, List.length_singleton]
    omega
  · simp

theorem seen_fresh (s : AntiwordGame) (h : Inv s) (l v : Nat) (hv : v ≠ 0) :
    seen s (s.entryWord + 1) l v ↔ seen s s.entryWord l v := by
  constructor
  · rintro ⟨r, j, hr, hc⟩
    by_cases h1 : r < s.entryWord
    · exact ⟨r, j, h1, hc⟩
    · have := h.fresh r j _ (by omega) hc
      exact absurd this hv
  · rintro ⟨r, j, hr, hc⟩
    exact ⟨r, j, by omega, hc⟩

theorem HintOK_fresh (s : AntiwordGame) (h : Inv s) : HintOK s (s.entryWord + 1) := by
  intro l
  rw [seen_fresh s h l 1 (by omega), seen_fresh s h l 2 (by omega),
    seen_fresh s h l 3 (by omega)]
  exact h.hint l

theorem Inv_evaluate (s : AntiwordGame) (G : List Nat) (row : List ColorfulLetter)
    (h : Inv s) (hrow : s.playtrix[s.entryWord]? = some row) (hG : readRow row = some G) :
    Inv (evaluate s G) := by
  have hc := h.core
  obtain ⟨h5, hcells⟩ := row_holds s h row G hrow hG
  have hew : (evaluate s G).entryWord = s.entryWord + 1 := by
    rw [evaluate_eq]; simp [afterBind_entryWord s G hc]
  have hword : (evaluate s G).word = s.word := by
    rw [evaluate_eq]; simp [pruneDict, afterBind_word s G hc]
  have hcur := hc.cur
  refine ⟨Core_evaluate s G hc, ?_, ?_, ?_, ?_⟩
  · intro r j c hr hcell
    rw [hew] at hr
    rw [cell?_evaluate s G hc] at hcell
    split_ifs at hcell with h1 h2
    · rw [afterBind_cell_other s G hc r j (Or.inl (by omega))] at hcell
      exact h.fresh r j c (by omega) hcell
    · rw [emptyRow_cell j c hcell]
  · intro r j c hr hcell
    rw [hew] at hr
    rw [cell?_evaluate s G hc, if_pos (by omega)] at hcell
    by_cases h1 : r = s.entryWord
    · subst h1
      by_cases h2 : exactAt s.word G j
      · rw [afterBind_cell_hit s G hc j h2] at hcell
        cases h3 : cell? s s.entryWord j with
        | none => simp [h3] at hcell
        | some x =>
          simp only [h3, Option.map_some', Option.some.injEq] at hcell
          subst hcell; right; left; rfl
      · by_cases h3 : j < G.length
        · obtain ⟨v, hv, h4⟩ := afterBind_cell_miss s G hc j h3 h2
          rw [h4] at hcell
          cases h6 : cell? s s.entryWord j with
          | none => simp [h6] at hcell
          | some x =>
            simp only [h6, Option.map_some', Option.some.injEq] at hcell
            subst hcell
            rcases hv with rfl | rfl
            · left; rfl
            · right; right; rfl
        · rw [afterBind_cell_other s G hc _ j (Or.inr (by omega))] at hcell
          have := (cell?_lt s hc.rows5 _ j c hcell).2
          omega
    · rw [afterBind_cell_other s G hc r j (Or.inl h1)] at hcell
      exact h.evald r j c (by omega) hcell
  · intro k x hk h65 h90 hx
    rw [hword] at hx
    have e : (evaluate s G).enforcementMap k x = (afterBind s G).enforcementMap k x := rfl
    rw [e]
    by_cases h2 : exactAt s.word G k
    · rw [afterBind_enf_hit s G hc k x h2]
      obtain ⟨c, h3, h4⟩ := h2
      rw [hx] at h4
      cases h4
      simp [h3]
    · have h3 : G[k]? ≠ some x := fun h3 => h2 ⟨x, h3, hx⟩
      rw [afterBind_enf_other s G hc k x h2 h3]
      exact h.enf k x hk h65 h90 hx
  · rw [hew]
    have hb := afterBind_hint s G (s.entryWord + 1) hc hcells (by omega) (HintOK_fresh s h)
    intro l
    have f : ∀ v, seen (evaluate s G) (s.entryWord + 1) l v
        ↔ seen (afterBind s G) (s.entryWord + 1) l v := by
      intro v
      constructor
      · rintro ⟨r, j, hr, hcell⟩
        rw [cell?_evaluate s G hc, if_pos (by omega)] at hcell
        exact ⟨r, j, hr, hcell⟩
      · rintro ⟨r, j, hr, hcell⟩
        refine ⟨r, j, hr, ?_⟩
        rw [cell?_evaluate s G hc, if_pos (by omega)]
        exact hcell
    rw [f 1, f 2, f 3]
    exact hb l

/-! ## The invariant is kept by every event -/

theorem EnterPressed_eq (s : AntiwordGame) (row : List ColorfulLetter)
    (hrow : s.playtrix[s.entryWord]? = some row) :
    EnterPressed s = some (match readRow row with
      | none => s
      | some G => if G = s.word then s else if s.dictMap.contains G = false then s
          else evaluate s G) := by
  unfold EnterPressed
  rw [hrow]
  cases hG : readRow row with
  | none => simp only [hG]
  | some G =>
    simp only [hG]
    split_ifs <;> rfl

theorem Inv_EnterPressed (s t : AntiwordGame) (h : Inv s) (ht : EnterPressed s = some t) :
    Inv t := by
  obtain ⟨row, hrow⟩ : ∃ row, s.playtrix[s.entryWord]? = some row :=
    ⟨_, List.getElem?_eq_getElem h.core.cur⟩
  rw [EnterPressed_eq s row hrow] at ht
  cases hG : readRow row with
  | none => simp only [hG, Option.some.injEq] at ht; subst ht; exact h
  | some G =>
    simp only [hG, Option.some.injEq] at ht
    split_ifs at ht
    · subst ht; exact h
    · subst ht; exact h
    · subst ht; exact Inv_evaluate s G row h hrow hG

theorem growTo_eq (s : AntiwordGame) (h : s.entryWord < s.playtrix.length) :
    growTo s s.entryWord = s := by
  unfold growTo
  have : s.entryWord + 1 - s.playtrix.length = 0 := by omega
  simp [this]

theorem cell?_growTo (s : AntiwordGame) (n r j : Nat) :
    cell? (growTo s n) r j =
      if r < s.playtrix.length then cell? s r j
      else if r < n + 1 then emptyRow[j]? else none := by
  unfold cell? growTo
  simp only
  by_cases h1 : r < s.playtrix.length
  · rw [if_pos h1, List.getElem?_append_left h1]
  · rw [if_neg h1, List.getElem?_append_right (by omega), List.getElem?_replicate]
    by_cases h2 : r < n + 1
    · rw [if_pos h2, if_pos (by omega)]
    · rw [if_neg h2, if_neg (by omega)]

theorem Inv_growTo (s : AntiwordGame) (n : Nat) (h : Inv s) : Inv (growTo s n) := by
  have hc := h.core
  have hseen : ∀ l v, seen (growTo s n) s.entryWord l v ↔ seen s s.entryWord l v := by
    intro l v
    constructor
    · rintro ⟨r, j, hr, hcell⟩
      rw [cell?_growTo, if_pos (by have := hc.cur; omega)] at hcell
      exact ⟨r, j, hr, hcell⟩
    · rintro ⟨r, j, hr, hcell⟩
      refine ⟨r, j, hr, ?_⟩
      rw [cell?_growTo, if_pos (by have := hc.cur; omega)]
      exact hcell
  refine ⟨⟨?_, ?_, hc.col, hc.wfm, hc.k3, hc.kclaim, hc.kbound, hc.krange⟩, ?_, ?_, h.enf, ?_⟩
  · intro row hr
    simp only [growTo] at hr
    rcases List.mem_append.mp hr with h1 | h1
    · exact hc.rows5 row h1
    · rw [(List.mem_replicate.mp h1).2]; simp [emptyRow, GetWordSize]
  · have := hc.cur
    simp only [growTo, List.length_append, List.length_replicate]
    omega
  · intro r j c hr hcell
    rw [cell?_growTo] at hcell
    split_ifs at hcell
    · exact h.fresh r j c hr hcell
    · rw [emptyRow_cell j c hcell]
  · intro r j c hr hcell
    have hr2 : r < s.entryWord := hr
    rw [cell?_growTo, if_pos (by have := hc.cur; omega)] at hcell
    exact h.evald r j c hr2 hcell
  · intro l
    have e : (growTo s n).entryWord = s.entryWord := rfl
    have k : (growTo s n).keys = s.keys := rfl
    rw [e, k, hseen l 1, hseen l 2, hseen l 3]
    exact h.hint l

theorem setLetter_some (s t : AntiwordGame) (r0 j0 v : Nat) (ht : setLetter s r0 j0 v = some t) :
    t = { s with playtrix :=
      List.modify (List.modify (fun c => { c with letter := v }) j0) r0 s.playtrix } := by
  unfold setLetter at ht
  cases h1 : s.playtrix[r0]? with
  | none => simp [h1] at ht
  | some row =>
    simp only [h1] at ht
    split_ifs at ht
    simp only [Option.some.injEq] at ht
    exact ht.symm

theorem setLetter_total (s : AntiwordGame) (h : Rows5 s.playtrix) (r0 j0 v : Nat)
    (hr : r0 < s.playtrix.length) (hj : j0 < 5) : ∃ t, setLetter s r0 j0 v = some t := by
  unfold setLetter
  have h1 := List.getElem?_eq_getElem hr
  rw [h1]
  have h2 : (s.playtrix[r0]).length = 5 := h _ (List.getElem_mem hr)
  simp only
  rw [if_pos (by omega)]
  exact ⟨_, rfl⟩

theorem cell?_setLetter (s t : AntiwordGame) (r0 j0 v : Nat)
    (ht : setLetter s r0 j0 v = some t) (r j : Nat) :
    cell? t r j =
      if r = r0 ∧ j = j0 then (cell? s r j).map (fun c => { c with letter := v })
      else cell? s r j := by
  rw [setLetter_some s t r0 j0 v ht]
  unfold cell?
  simp only [List.getElem?_modify]
  cases h : s.playtrix[r]? with
  | none => simp
  | some row =>
    by_cases h1 : r0 = r
    · by_cases h2 : j0 = j
      · subst h1; subst h2; simp [List.getElem?_modify]
      · have h3 : ¬ j = j0 := fun e => h2 e.symm
        subst h1; simp [List.getElem?_modify, h2, h3]
    · have h3 : ¬ r = r0 := fun e => h1 e.symm
      simp [h1, h3]

theorem Inv_setLetter (s t : AntiwordGame) (r0 j0 v : Nat) (h : Inv s)
    (hr : s.entryWord ≤ r0) (ht : setLetter s r0 j0 v = some t) : Inv t := by
  have hc := h.core
  have e := setLetter_some s t r0 j0 v ht
  have ew : t.entryWord = s.entryWord := by rw [e]
  have ek : t.keys = s.keys := by rw [e]
  have hseen : ∀ l w, seen t s.entryWord l w ↔ seen s s.entryWord l w := by
    intro l w
    constructor
    · rintro ⟨r, j, hr1, hcell⟩
      rw [cell?_setLetter s t r0 j0 v ht, if_neg (by omega)] at hcell
      exact ⟨r, j, hr1, hcell⟩
    · rintro ⟨r, j, hr1, hcell⟩
      refine ⟨r, j, hr1, ?_⟩
      rw [cell?_setLetter s t r0 j0 v ht, if_neg (by omega)]
      exact hcell
  refine ⟨⟨?_, ?_, ?_, ?_, ?_, ?_, ?_, ?_⟩, ?_, ?_, ?_, ?_⟩
  · rw [e]; exact Rows5_modify _ _ _ (by intro row; simp) hc.rows5
  · rw [e]; simpa using hc.cur
  · rw [e]; exact hc.col
  · rw [e]; exact hc.wfm
  · rw [e]; exact hc.k3
  · rw [e]; exact hc.kclaim
  · rw [e]; exact hc.kbound
  · rw [e]; exact hc.krange
  · intro r j c hr1 hcell
    rw [ew] at hr1
    rw [cell?_setLetter s t r0 j0 v ht] at hcell
    split_ifs at hcell
    · cases h3 : cell? s r j with
      | none => simp [h3] at hcell
      | some x =>
        simp only [h3, Option.map_some', Option.some.injEq] at hcell
        subst hcell
        exact h.fresh r j x hr1 h3
    · exact h.fresh r j c hr1 hcell
  · intro r j c hr1 hcell
    rw [ew] at hr1
    rw [cell?_setLetter s t r0 j0 v ht, if_neg (by omega)] at hcell
    exact h.evald r j c hr1 hcell
  · rw [e]; exact h.enf
  · intro l
    rw [ew, ek, hseen l 1, hseen l 2, hseen l 3]
    exact h.hint l

theorem Inv_entryLetter (s : AntiwordGame) (e : Nat) (he : e ≤ 5) (h : Inv s) :
    Inv { s with entryLetter := e } :=
  ⟨⟨h.core.rows5, h.core.cur, he, h.core.wfm, h.core.k3, h.core.kclaim, h.core.kbound,
    h.core.krange⟩, h.fresh, h.evald, h.enf, h.hint⟩

theorem Inv_Update (s t : AntiwordGame) (c : Click) (h : Inv s) (ht : Update s c = some t) :
    Inv t := by
  unfold Update at ht
  rw [growTo_eq s h.core.cur] at ht
  cases c with
  | enter => exact Inv_EnterPressed s t h ht
  | key x =>
    simp only at ht
    split_ifs at ht with h1 h2 h3
    · exact Inv_setLetter _ t _ _ _ (Inv_entryLetter s _ (by have := h.core.col; omega) h)
        (le_refl _) ht
    · exact Inv_setLetter _ t _ _ _ h (le_refl _) ht
    · cases h4 : setLetter s s.entryWord s.entryLetter x with
      | none => simp [h4] at ht
      | some b =>
        simp only [h4, Option.some.injEq] at ht
        subst ht
        have hb := Inv_setLetter s b _ _ _ h (le_refl _) h4
        have e := setLetter_some s b _ _ _ h4
        have : b.entryLetter = s.entryLetter := by rw [e]
        exact Inv_entryLetter b _ (by rw [this]; omega) hb
    · simp only [Option.some.injEq] at ht
      subst ht; exact h

theorem Update_total (s : AntiwordGame) (c : Click) (h : Inv s) : ∃ t, Update s c = some t := by
  unfold Update
  rw [growTo_eq s h.core.cur]
  have hcur := h.core.cur
  have hcol := h.core.col
  cases c with
  | enter =>
    exact ⟨_, EnterPressed_eq s _ (List.getElem?_eq_getElem hcur)⟩
  | key x =>
    simp only
    split_ifs with h1 h2 h3
    · exact setLetter_total { s with entryLetter := s.entryLetter - 1 } h.core.rows5
        s.entryWord (s.entryLetter - 1) 0 hcur (by omega)
    · exact setLetter_total _ h.core.rows5 _ _ _ hcur (by omega)
    · obtain ⟨b, hb⟩ := setLetter_total s h.core.rows5 s.entryWord s.entryLetter x hcur h3.1
      rw [hb]; exact ⟨_, rfl⟩
    · exact ⟨_, rfl⟩

/-! ## Reset -/

theorem buildWordMap_apply (cs : List Nat) (i : Nat) (wm : Nat → List PositionAndClaim)
    (l : Nat) :
    buildWordMap i cs wm l =
      wm l ++ (positionsFrom l i cs).map (fun p => (⟨p, false, false⟩ : PositionAndClaim)) := by
  induction cs generalizing i wm with
  | nil => simp [buildWordMap, positionsFrom]
  | cons c cs ih =>
    simp only [buildWordMap, positionsFrom]
    rw [ih]
    by_cases h : c = l
    · subst h; simp [upd]
    · have h2 : ¬ l = c := fun e => h e.symm
      simp [upd, h, h2]

theorem foldl_upd_true (l : List Nat) (m0 : Nat → Bool) (x : Nat) :
    (l.foldl (fun m j => upd m j true) m0) x = (decide (x ∈ l) || m0 x) := by
  induction l generalizing m0 with
  | nil => simp
  | cons a l ih =>
    simp only [List.foldl_cons, ih, upd, List.mem_cons]
    by_cases h1 : x = a
    · simp [h1]
    · simp [h1]

theorem fullAlphabet_apply (x : Nat) : fullAlphabet x = decide (65 ≤ x ∧ x ≤ 90) := by
  unfold fullAlphabet
  have h : x ∈ List.range' 65 26 ↔ (65 ≤ x ∧ x ≤ 90) := by
    rw [List.mem_range'_1]; omega
  rw [foldl_upd_true]
  simp [h]

theorem foldl_upd_const {β : Type} (l : List Nat) (f : β) (e0 : Nat → β) (k : Nat) :
    (l.foldl (fun em i => upd em i f) e0) k = if k ∈ l then f else e0 k := by
  induction l generalizing e0 with
  | nil => simp
  | cons a l ih =>
    simp only [List.foldl_cons, ih, upd, List.mem_cons]
    by_cases h1 : k = a
    · simp [h1]
    · simp [h1]

theorem initEnforcement_apply (k x : Nat) :
    initEnforcement k x = (decide (k < 5) && decide (65 ≤ x ∧ x ≤ 90)) := by
  unfold initEnforcement
  rw [foldl_upd_const]
  simp only [List.mem_range, GetWordSize]
  by_cases h : k < 5
  · simp [h, fullAlphabet_apply]
  · simp [h]

theorem Inv_freshState (awg : AntiwordGame) (w : List Nat) (h : awg.entryLetter ≤ 5) :
    Inv (freshState awg w) := by
  have hcell : ∀ r j c, cell? (freshState awg w) r j = some c → c.state = 0 := by
    intro r j c hc
    unfold cell? freshState at hc
    simp only at hc
    cases r with
    | zero =>
      simp only [List.getElem?_cons_zero] at hc
      rw [emptyRow_cell j c hc]
    | succ r => simp at hc
  refine ⟨⟨?_, ?_, h, ?_, ?_, ?_, ?_, ?_⟩, ?_, ?_, ?_, ?_⟩
  · intro row hr
    simp only [freshState, List.mem_singleton] at hr
    subst hr; simp [emptyRow, GetWordSize]
  · simp [freshState]
  · intro l
    simp only [freshState, buildWordMap_apply, List.nil_append, List.map_map]
    exact List.map_id _
  · intro l hl
    simp [freshState] at hl
  · intro l r hr hc
    simp only [freshState, buildWordMap_apply, List.nil_append, List.mem_map] at hr
    obtain ⟨_, _, h2⟩ := hr
    subst h2; simp at hc
  · intro l r hr hc
    simp only [freshState, buildWordMap_apply, List.nil_append, List.mem_map] at hr
    obtain ⟨_, _, h2⟩ := hr
    subst h2; simp at hc
  · intro l; simp [freshState]
  · intro r j c _ hc; exact hcell r j c hc
  · intro r j c hr _
    simp [freshState] at hr
  · intro k x hk h65 h90 _
    simp only [freshState, initEnforcement_apply]
    simp [hk, h65, h90]
  · intro l
    have e : ∀ v, ¬ seen (freshState awg w) (freshState awg w).entryWord l v := by
      rintro v ⟨r, j, hr, _⟩
      simp [freshState] at hr
    have k : (freshState awg w).keys l = 0 := rfl
    rw [k]
    simp [e]

theorem fillRow_inv (i : Nat) (g : List Nat) (js : List Nat) (a b : AntiwordGame)
    (h : Inv a) (hi : a.entryWord ≤ i) (hb : fillRow i g js a = some b) :
    Inv b ∧ b.entryWord = a.entryWord ∧ b.dict = a.dict := by
  induction js generalizing a with
  | nil =>
    simp only [fillRow, Option.some.injEq] at hb
    subst hb; exact ⟨h, rfl, rfl⟩
  | cons j js ih =>
    simp only [fillRow] at hb
    cases h1 : g[j]? with
    | none => simp [h1] at hb
    | some c =>
      simp only [h1] at hb
      cases h2 : setLetter a i j c with
      | none => simp [h2] at hb
      | some a2 =>
        simp only [h2] at hb
        have e := setLetter_some a a2 i j c h2
        have ew : a2.entryWord = a.entryWord := by rw [e]
        have ed : a2.dict = a.dict := by rw [e]
        obtain ⟨h3, h4, h5⟩ := ih a2 (Inv_setLetter a a2 i j c h hi h2) (by omega) hb
        exact ⟨h3, by omega, h5.trans ed⟩

theorem EnterPressed_entryWord (s t : AntiwordGame) (h : Inv s) (ht : EnterPressed s = some t) :
    t.entryWord ≤ s.entryWord + 1 ∧ t.dict = s.dict := by
  obtain ⟨row, hrow⟩ : ∃ row, s.playtrix[s.entryWord]? = some row :=
    ⟨_, List.getElem?_eq_getElem h.core.cur⟩
  rw [EnterPressed_eq s row hrow] at ht
  have e1 : (evaluate s = fun G => evaluate s G) := rfl
  cases hG : readRow row with
  | none => simp only [hG, Option.some.injEq] at ht; subst ht; exact ⟨by omega, rfl⟩
  | some G =>
    simp only [hG, Option.some.injEq] at ht
    split_ifs at ht
    · subst ht; exact ⟨by omega, rfl⟩
    · subst ht; exact ⟨by omega, rfl⟩
    · subst ht
      refine ⟨?_, ?_⟩
      · rw [evaluate_eq]
        simp [afterBind_entryWord s G h.core]
      · rw [evaluate_eq]
        simp [pruneDict, afterBind_dict s G h.core]

theorem replay_inv (gs : List (List Nat)) (i : Nat) (a s : AntiwordGame)
    (h : Inv a) (hi : a.entryWord ≤ i) (hs : replay i gs a = some s) :
    Inv s ∧ s.dict = a.dict := by
  induction gs generalizing i a with
  | nil =>
    simp only [replay, Option.some.injEq] at hs
    subst hs; exact ⟨h, rfl⟩
  | cons g gs ih =>
    simp only [replay] at hs
    cases h1 : fillRow i (toUpper g) (List.range GetWordSize) (growTo a i) with
    | none => simp [h1] at hs
    | some b =>
      simp only [h1] at hs
      cases h2 : EnterPressed b with
      | none => simp [h2] at hs
      | some c =>
        simp only [h2] at hs
        obtain ⟨hb, hbw, hbd⟩ := fillRow_inv i _ _ (growTo a i) b (Inv_growTo a i h) hi h1
        have hc := Inv_EnterPressed b c hb h2
        obtain ⟨hcw, hcd⟩ := EnterPressed_entryWord b c hb h2
        have e : (growTo a i).entryWord = a.entryWord := rfl
        have e2 : (growTo a i).dict = a.dict := rfl
        obtain ⟨h3, h4⟩ := ih (i + 1) c hc (by omega) hs
        exact ⟨h3, by rw [h4, hcd, hbd, e2]⟩

theorem Inv_Reset (awg s : AntiwordGame) (debug : Option (List (List Nat))) (wordIdx : Nat)
    (h : awg.entryLetter ≤ 5) (hs : Reset awg debug wordIdx = some s) : Inv s := by
  unfold Reset at hs
  cases debug with
  | none =>
    cases h1 : awg.dict[wordIdx]? with
    | none => simp [h1] at hs
    | some w =>
      simp only [Option.isNone_none, if_true, h1, Option.some.injEq] at hs
      subst hs; exact Inv_freshState awg w h
  | some gs =>
    cases h1 : awg.dict[0]? with
    | none => simp [h1] at hs
    | some w =>
      simp only [Option.isNone_some, Bool.false_eq_true, if_false, h1] at hs
      exact (replay_inv gs 0 _ s (Inv_freshState awg w h) (Nat.zero_le _) hs).1

theorem Reachable_Inv (s : AntiwordGame) (h : Reachable s) : Inv s := by
  induction h with
  | reset awg debug wordIdx s h1 h2 => exact Inv_Reset awg s debug wordIdx h1 h2
  | click s c t _ h2 ih => exact Inv_Update s t c ih h2

/-! ## The example session -/

theorem demo_reset : Reset (newGame [crane, react]) none 0 = some (demoState emptyRow 0) := rfl

theorem demo_key1 : Update (demoState emptyRow 0) (Click.key 82)
    = some (demoState [⟨82, 0⟩, ⟨0, 0⟩, ⟨0, 0⟩, ⟨0, 0⟩, ⟨0, 0⟩] 1) := rfl

theorem demo_key2 : Update (demoState [⟨82, 0⟩, ⟨0, 0⟩, ⟨0, 0⟩, ⟨0, 0⟩, ⟨0, 0⟩] 1) (Click.key 69)
    = some (demoState [⟨82, 0⟩, ⟨69, 0⟩, ⟨0, 0⟩, ⟨0, 0⟩, ⟨0, 0⟩] 2) := rfl

theorem demo_key3 : Update (demoState [⟨82, 0⟩, ⟨69, 0⟩, ⟨0, 0⟩, ⟨0, 0⟩, ⟨0, 0⟩] 2) (Click.key 65)
    = some (demoState [⟨82, 0⟩, ⟨69, 0⟩, ⟨65, 0⟩, ⟨0, 0⟩, ⟨0, 0⟩] 3) := rfl

theorem demo_key4 : Update (demoState [⟨82, 0⟩, ⟨69, 0⟩, ⟨65, 0⟩, ⟨0, 0⟩, ⟨0, 0⟩] 3) (Click.key 67)
    = some (demoState [⟨82, 0⟩, ⟨69, 0⟩, ⟨65, 0⟩, ⟨67, 0⟩, ⟨0, 0⟩] 4) := rfl

theorem demo_key5 : Update (demoState [⟨82, 0⟩, ⟨69, 0⟩, ⟨65, 0⟩, ⟨67, 0⟩, ⟨0, 0⟩] 4) (Click.key 84)
    = some demoTyped := rfl

theorem demoTyped_reachable : Reachable demoTyped :=
  Reachable.click _ _ _ (Reachable.click _ _ _ (Reachable.click _ _ _ (Reachable.click _ _ _
    (Reachable.click _ _ _ (Reachable.reset _ _ _ _ (Nat.zero_le 5) demo_reset)
      demo_key1) demo_key2) demo_key3) demo_key4) demo_key5

/-! ## Accepted and rejected guesses -/

theorem EnterPressed_accept (s : AntiwordGame) (row : List ColorfulLetter) (G : List Nat)
    (hrow : s.playtrix[s.entryWord]? = some row) (hG : readRow row = some G)
    (hne : G ≠ s.word) (hmem : G ∈ s.dictMap) : EnterPressed s = some (evaluate s G) := by
  rw [EnterPressed_eq s row hrow]
  have h1 : ¬ (s.dictMap.contains G = false) := by simp [hmem]
  simp only [hG, if_neg hne, if_neg h1]

theorem submitted_cell (s : AntiwordGame) (h : Inv s) (row : List ColorfulLetter)
    (G : List Nat) (hrow : s.playtrix[s.entryWord]? = some row) (hG : readRow row = some G)
    (i : Nat) (hi : i < 5) :
    ∃ c v, G[i]? = some c ∧ cell? (evaluate s G) s.entryWord i = some ⟨c, v⟩ ∧
      (exactAt s.word G i → v = 2) ∧ (¬ exactAt s.word G i → v = 1 ∨ v = 3) := by
  obtain ⟨h5, hcells⟩ := row_holds s h row G hrow hG
  have hc := h.core
  have hi2 : i < G.length := by omega
  have hGi : G[i]? = some G[i] := List.getElem?_eq_getElem hi2
  have h0 := hcells i _ hGi
  rw [cell?_evaluate s G hc, if_pos hc.cur]
  by_cases hex : exactAt s.word G i
  · refine ⟨G[i], 2, hGi, ?_, fun _ => rfl, fun h => absurd hex h⟩
    rw [afterBind_cell_hit s G hc i hex, h0]; rfl
  · obtain ⟨v, hv, h1⟩ := afterBind_cell_miss s G hc i hi2 hex
    refine ⟨G[i], v, hGi, ?_, fun h => absurd h hex, fun _ => hv⟩
    rw [h1, h0]; rfl

/-- C1: after an accepted Submit, column `i` of the submitted row is classified
PresentRightPlace exactly when the guess and the secret word have the same letter
in column `i`. -/
theorem C1_right_place_iff_same_letter (s : AntiwordGame) (hs : Reachable s)
    (row : List ColorfulLetter) (G : List Nat)
    (hrow : s.playtrix[s.entryWord]? = some row) (hG : readRow row = some G)
    (hmem : G ∈ s.dictMap) (hne : G ≠ s.word) :
    ∃ t, EnterPressed s = some t ∧ ∀ i, i < 5 →
      ∃ c, cell? t s.entryWord i = some c ∧ G[i]? = some c.letter ∧
        (c.state = RIGHTLETTERRIGHTPLACE ↔ s.word[i]? = G[i]?) := by
  refine ⟨evaluate s G, EnterPressed_accept s row G hrow hG hne hmem, ?_⟩
  intro i hi
  obtain ⟨c, v, h1, h2, h3, h4⟩ := submitted_cell s (Reachable_Inv s hs) row G hrow hG i hi
  refine ⟨⟨c, v⟩, h2, h1, ?_⟩
  constructor
  · intro hv
    by_cases hex : exactAt s.word G i
    · obtain ⟨c1, h5, h6⟩ := hex
      rw [h5, h6]
    · have := h4 hex
      simp only [RIGHTLETTERRIGHTPLACE] at hv
      omega
  · intro hw
    exact h3 ⟨c, h1, by rw [hw, h1]⟩

theorem C1_witness :
    ∃ t, EnterPressed demoTyped = some t ∧ ∀ i, i < 5 →
      ∃ c, cell? t demoTyped.entryWord i = some c ∧ REACT[i]? = some c.letter ∧
        (c.state = RIGHTLETTERRIGHTPLACE ↔ demoTyped.word[i]? = REACT[i]?) :=
  C1_right_place_iff_same_letter demoTyped demoTyped_reachable
    [⟨82, 0⟩, ⟨69, 0⟩, ⟨65, 0⟩, ⟨67, 0⟩, ⟨84, 0⟩] REACT rfl rfl (by decide) (by decide)

/-! ## Counting the classified cells of one letter -/

theorem countP_modify_le {α : Type} (p : α → Bool) (f : α → α) (row : List α) (i : Nat) :
    (List.modify f i row).countP p ≤ row.countP p + 1 := by
  induction row generalizing i with
  | nil => simp
  | cons a row ih =>
    cases i with
    | zero =>
      simp only [List.modify, List.modifyTailIdx, List.modifyHead, List.countP_cons]
      split_ifs <;> omega
    | succ i =>
      simp only [List.modify_succ_cons, List.countP_cons]
      have := ih i
      omega

theorem countP_modify_le_of_false {α : Type} (p : α → Bool) (f : α → α) (row : List α)
    (i : Nat) (h : ∀ x, row[i]? = some x → p (f x) = false) :
    (List.modify f i row).countP p ≤ row.countP p := by
  induction row generalizing i with
  | nil => simp
  | cons a row ih =>
    cases i with
    | zero =>
      have h1 := h a (by simp)
      have e : List.modify f 0 (a :: row) = f a :: row := rfl
      rw [e, List.countP_cons, List.countP_cons, h1]
      simp
    | succ i =>
      simp only [List.modify_succ_cons, List.countP_cons]
      have := ih i (fun x hx => h x (by simpa using hx))
      omega

theorem litCount_modify (awg awg' : AntiwordGame) (L i : Nat)
    (f : ColorfulLetter → ColorfulLetter)
    (hp : awg'.playtrix = List.modify (List.modify f i) awg.entryWord awg.playtrix)
    (hw : awg'.entryWord = awg.entryWord) :
    litCount awg' L ≤ litCount awg L + 1 ∧
      ((∀ x, cell? awg awg.entryWord i = some x → lit L (f x) = false) →
        litCount awg' L ≤ litCount awg L) := by
  unfold litCount cell?
  rw [hp, hw, List.getElem?_modify_eq]
  cases h : awg.playtrix[awg.entryWord]? with
  | none => simp
  | some row =>
    simp only [Option.map_eq_map, Option.map_some']
    exact ⟨countP_modify_le _ _ _ _, fun h1 => countP_modify_le_of_false _ _ _ _ h1⟩

theorem litCount_same (awg awg' : AntiwordGame) (L : Nat)
    (hp : awg'.playtrix = awg.playtrix) (hw : awg'.entryWord = awg.entryWord) :
    litCount awg' L = litCount awg L := by
  unfold litCount; rw [hp, hw]

theorem openRec_mono (i : Nat) (rs : List PositionAndClaim) :
    rs.countP (openRec (i + 1)) ≤ rs.countP (openRec i) := by
  apply List.countP_mono_left
  intro r _ h
  simp only [openRec, Bool.or_eq_true, Bool.not_eq_true', decide_eq_true_eq] at h ⊢
  rcases h with h | h
  · exact Or.inl h
  · exact Or.inr (by omega)

theorem claimLoop_count (i : Nat) (rs : List PositionAndClaim)
    (h : (claimLoop i rs).2 = true) :
    (claimLoop i rs).1.countP (openRec (i + 1)) + 1 ≤ rs.countP (openRec i) := by
  induction rs with
  | nil => simp [claimLoop] at h
  | cons r rs ih =>
    by_cases h1 : r.pos = i
    · have h2 := openRec_mono i rs
      have e : (claimLoop i (r :: rs)).1 = { r with claim := true } :: rs := by
        simp [claimLoop, h1]
      have e1 : openRec (i + 1) { r with claim := true } = false := by
        simp [openRec, h1]
      have e2 : openRec i r = true := by simp [openRec, h1]
      rw [e, List.countP_cons, List.countP_cons, e1, e2]
      simp only [Bool.false_eq_true, if_false, if_true]
      omega
    · have e : (claimLoop i (r :: rs)).1 = r :: (claimLoop i rs).1 := by
        simp [claimLoop, h1]
      have h' : (claimLoop i rs).2 = true := by simpa [claimLoop, h1] using h
      have h3 := ih h'
      have h4 : openRec (i + 1) r = true → openRec i r = true := by
        intro h5
        simp only [openRec, Bool.or_eq_true, Bool.not_eq_true', decide_eq_true_eq] at h5 ⊢
        rcases h5 with h5 | h5
        · exact Or.inl h5
        · exact Or.inr (by omega)
      rw [e, List.countP_cons, List.countP_cons]
      cases ha : openRec (i + 1) r with
      | true => rw [h4 ha]; simp; omega
      | false => cases hb : openRec i r <;> simp <;> omega

theorem bindLoop_count (rs : List PositionAndClaim) (h : (bindLoop rs).2 = true) :
    (bindLoop rs).1.countP freeRec + 1 = rs.countP freeRec := by
  induction rs with
  | nil => simp [bindLoop] at h
  | cons r rs ih =>
    by_cases h1 : r.claim = false ∧ r.bound = false
    · have e : (bindLoop (r :: rs)).1 = { r with bound := true } :: rs := by
        simp [bindLoop, h1.1, h1.2]
      have e1 : freeRec { r with bound := true } = false := by simp [freeRec]
      have e2 : freeRec r = true := by simp [freeRec, h1.1, h1.2]
      rw [e, List.countP_cons, List.countP_cons, e1, e2]
      simp
    · have e : bindLoop (r :: rs) = (r :: (bindLoop rs).1, (bindLoop rs).2) := by
        by_cases h2 : r.claim = false
        · have h3 : ¬ r.bound = false := fun h3 => h1 ⟨h2, h3⟩
          simp [bindLoop, h2, h3]
        · simp [bindLoop, h2]
      have e2 : freeRec r = false := by
        by_cases h2 : r.claim = false
        · have h3 : ¬ r.bound = false := fun h3 => h1 ⟨h2, h3⟩
          simp only [Bool.not_eq_false] at h3
          simp [freeRec, h2, h3]
        · simp only [Bool.not_eq_false] at h2
          simp [freeRec, h2]
      rw [e] at h ⊢
      have h3 := ih h
      rw [List.countP_cons, List.countP_cons, e2]
      simp only [Bool.false_eq_true, if_false]
      omega

theorem litCount_fresh (s : AntiwordGame) (h : Inv s) (L : Nat) : litCount s L = 0 := by
  unfold litCount
  cases h1 : s.playtrix[s.entryWord]? with
  | none => rfl
  | some row =>
    simp only
    rw [List.countP_eq_zero]
    intro c hc
    obtain ⟨j, hj⟩ := List.mem_iff_getElem?.mp hc
    have := h.fresh s.entryWord j c (le_refl _) (by rw [cell?_row s _ row h1]; exact hj)
    simp [lit, this]

theorem wordMap_length (awg : AntiwordGame) (h : Core awg) (L : Nat) :
    (awg.wordMap L).length = awg.word.count L := by
  have h1 := congrArg List.length (h.wfm L)
  rw [List.length_map, length_positionsFrom] at h1
  exact h1

theorem afterGreen_count (s : AntiwordGame) (G : List Nat) (L : Nat) (h : Inv s)
    (hrow : ∀ j c, G[j]? = some c → cell? s s.entryWord j = some ⟨c, 0⟩) :
    litCount (afterGreen s G).1 L + ((afterGreen s G).1.wordMap L).countP (openRec G.length)
      ≤ s.word.count L := by
  have hc := h.core
  have key := greenPass_rule0 G
    (fun i st => GreenInv { s with dictMap := s.dictMap.filter (fun k => k != G) } G i st ∧
      litCount st.1 L + (st.1.wordMap L).countP (openRec i) ≤ s.word.count L)
    (fun i c st hci hq => by
      obtain ⟨hg, hq⟩ := hq
      refine ⟨GreenInv_step _ G i c st hci hg, ?_⟩
      have hcell : cell? st.1 st.1.entryWord i = some ⟨c, 0⟩ := by
        have hew : st.1.entryWord = s.entryWord := hg.entryWord
        have := hg.cell_miss s.entryWord i (by rintro ⟨_, h2, _⟩; omega)
        rw [hew, this]; exact hrow i c hci
      have hplay := greenStep_playtrix i c st
      have hwm := greenStep_wordMap i c st L
      by_cases hit : (claimLoop i (st.1.wordMap c)).2 = true
      · rw [if_pos hit] at hplay
        obtain ⟨l1, l2⟩ := litCount_modify st.1 (greenStep i c st).1 L i _ hplay
          (greenStep_entryWord i c st)
        by_cases hL : L = c
        · subst hL
          rw [hwm, if_pos rfl]
          have := claimLoop_count i _ hit
          omega
        · rw [hwm, if_neg hL]
          have l3 := l2 (by
            intro x hx
            rw [hcell] at hx
            cases hx
            have : ¬ c = L := fun e => hL e.symm
            simp [lit, this])
          have := openRec_mono i (st.1.wordMap L)
          omega
      · rw [if_neg hit] at hplay
        have l1 := litCount_same st.1 (greenStep i c st).1 L hplay (greenStep_entryWord i c st)
        have e : (greenStep i c st).1.wordMap L = st.1.wordMap L := by
          rw [hwm]
          split_ifs with hL
          · subst hL; exact claimLoop_fail _ _ (by simpa using hit)
          · rfl
        rw [e, l1]
        have := openRec_mono i (st.1.wordMap L)
        omega)
    ({ s with dictMap := s.dictMap.filter (fun k => k != G) }, fun _ => false)
    ⟨GreenInv_init _ G (Core_filter s hc _), by
      have e1 : litCount { s with dictMap := s.dictMap.filter (fun k => k != G) } L
          = litCount s L := rfl
      rw [e1, litCount_fresh s h L]
      have := wordMap_length s hc L
      have h2 : (s.wordMap L).countP (openRec 0) ≤ (s.wordMap L).length :=
        List.countP_le_length _
      show 0 + (s.wordMap L).countP (openRec 0) ≤ s.word.count L
      omega⟩
  exact key.2

theorem afterBind_count (s : AntiwordGame) (G : List Nat) (L : Nat) (h : Inv s)
    (hrow : ∀ j c, G[j]? = some c → cell? s s.entryWord j = some ⟨c, 0⟩) :
    litCount (afterBind s G) L ≤ s.word.count L := by
  have hc := h.core
  have hg := afterGreen_inv s G hc
  have hew0 : (ResetBindings (afterGreen s G).1).entryWord = s.entryWord := hg.entryWord
  have key := bindPass_rule0 (afterGreen s G).2 G
    (fun i awg => BindInv (ResetBindings (afterGreen s G).1) (afterGreen s G).2 G i awg ∧
      litCount awg L + (awg.wordMap L).countP freeRec ≤ s.word.count L)
    (fun i c awg hci hq => by
      obtain ⟨hb, hq⟩ := hq
      refine ⟨BindInv_step _ _ G i c awg hci hb, ?_⟩
      have hew : awg.entryWord = s.entryWord := hb.entryWord.trans hew0
      have hcell : (afterGreen s G).2 i = false → cell? awg awg.entryWord i = some ⟨c, 0⟩ := by
        intro hs
        have e1 := hb.cell_same s.entryWord i (by rintro ⟨_, h2, _⟩; omega)
        have e2 : cell? (ResetBindings (afterGreen s G).1) s.entryWord i
            = cell? s s.entryWord i :=
          hg.cell_miss s.entryWord i (by
            rintro ⟨_, _, h3⟩
            exact (skip_false_iff s G hc i).mp hs h3)
        rw [hew, e1, e2]; exact hrow i c hci
      have hplay := bindStep_playtrix (afterGreen s G).2 i c awg
      have hwm := bindStep_wordMap (afterGreen s G).2 i c awg L
      cases hs : (afterGreen s G).2 i with
      | true =>
        have hs' : ¬ ((afterGreen s G).2 i = false) := by simp [hs]
        rw [if_neg hs'] at hplay
        rw [if_neg (fun hx => hs' hx.1)] at hwm
        rw [hwm, litCount_same awg _ L hplay (bindStep_entryWord _ i c awg)]
        exact hq
      | false =>
        rw [if_pos hs] at hplay
        obtain ⟨l1, l2⟩ := litCount_modify awg _ L i _ hplay (bindStep_entryWord _ i c awg)
        by_cases hL : L = c
        · subst hL
          rw [hwm, if_pos ⟨hs, rfl⟩]
          by_cases hb2 : (bindLoop (awg.wordMap L)).2 = true
          · have := bindLoop_count _ hb2
            omega
          · rw [bindLoop_fail _ (by simpa using hb2)]
            have l3 := l2 (by
              intro x _
              simp [lit, hb2])
            omega
        · rw [hwm, if_neg (fun hx => hL hx.2)]
          have l3 := l2 (by
            intro x hx
            rw [hcell hs] at hx
            cases hx
            have : ¬ c = L := fun e => hL e.symm
            simp [lit, this])
          omega)
    (ResetBindings (afterGreen s G).1)
    ⟨BindInv_init _ _ G (Core_ResetBindings _ hg.core), by
      have e1 : litCount (ResetBindings (afterGreen s G).1) L = litCount (afterGreen s G).1 L :=
        rfl
      have e2 : ((ResetBindings (afterGreen s G).1).wordMap L).countP freeRec
          ≤ ((afterGreen s G).1.wordMap L).countP (openRec G.length) := by
        simp only [ResetBindings, List.countP_map]
        apply List.countP_mono_left
        intro r _ hr
        simp only [Function.comp, freeRec, Bool.and_eq_true, Bool.not_eq_true'] at hr
        simp [openRec, hr.1]
      have := afterGreen_count s G L h hrow
      rw [e1]
      omega⟩
  have h9 : litCount (afterBind s G) L + ((afterBind s G).wordMap L).countP freeRec
      ≤ s.word.count L := key.2
  omega

theorem allow_reset : Reset (newGame [allow, llama]) none 0 = some (allowState emptyRow 0) :=
  rfl

theorem allow_key1 : Update (allowState emptyRow 0) (Click.key 76)
    = some (allowState [⟨76, 0⟩, ⟨0, 0⟩, ⟨0, 0⟩, ⟨0, 0⟩, ⟨0, 0⟩] 1) := rfl

theorem allow_key2 : Update (allowState [⟨76, 0⟩, ⟨0, 0⟩, ⟨0, 0⟩, ⟨0, 0⟩, ⟨0, 0⟩] 1) (Click.key 76)
    = some (allowState [⟨76, 0⟩, ⟨76, 0⟩, ⟨0, 0⟩, ⟨0, 0⟩, ⟨0, 0⟩] 2) := rfl

theorem allow_key3 : Update (allowState [⟨76, 0⟩, ⟨76, 0⟩, ⟨0, 0⟩, ⟨0, 0⟩, ⟨0, 0⟩] 2) (Click.key 65)
    = some (allowState [⟨76, 0⟩, ⟨76, 0⟩, ⟨65, 0⟩, ⟨0, 0⟩, ⟨0, 0⟩] 3) := rfl

theorem allow_key4 : Update (allowState [⟨76, 0⟩, ⟨76, 0⟩, ⟨65, 0⟩, ⟨0, 0⟩, ⟨0, 0⟩] 3) (Click.key 77)
    = some (allowState [⟨76, 0⟩, ⟨76, 0⟩, ⟨65, 0⟩, ⟨77, 0⟩, ⟨0, 0⟩] 4) := rfl

theorem allow_key5 : Update (allowState [⟨76, 0⟩, ⟨76, 0⟩, ⟨65, 0⟩, ⟨77, 0⟩, ⟨0, 0⟩] 4) (Click.key 65)
    = some allowTyped := rfl

theorem allowTyped_reachable : Reachable allowTyped :=
  Reachable.click _ _ _ (Reachable.click _ _ _ (Reachable.click _ _ _ (Reachable.click _ _ _
    (Reachable.click _ _ _ (Reachable.reset _ _ _ _ (Nat.zero_le 5) allow_reset)
      allow_key1) allow_key2) allow_key3) allow_key4) allow_key5

theorem evaluate_row (s : AntiwordGame) (G : List Nat) (h : Core s) :
    (evaluate s G).playtrix[s.entryWord]? = (afterBind s G).playtrix[s.entryWord]? := by
  rw [evaluate_eq]
  simp only
  rw [List.getElem?_append_left (by rw [afterBind_length s G h]; exact h.cur)]

/-- C2: after an accepted Submit, for every letter `L` the cells of the submitted row
that hold `L` and are classified PresentRightPlace or PresentWrongPlace are at most as
many as the occurrences of `L` in the secret word, and every column whose letter is the
secret word's letter there is PresentRightPlace. -/
theorem C2_classified_at_most_occurrences (s : AntiwordGame) (hs : Reachable s)
    (row : List ColorfulLetter) (G : List Nat)
    (hrow : s.playtrix[s.entryWord]? = some row) (hG : readRow row = some G)
    (hmem : G ∈ s.dictMap) (hne : G ≠ s.word) (L : Nat) :
    ∃ (t : AntiwordGame) (submitted : List ColorfulLetter), EnterPressed s = some t ∧ t.playtrix[s.entryWord]? = some submitted ∧
      submitted.countP (lit L) ≤ s.word.count L ∧
      ∀ (i : Nat) (c : ColorfulLetter), submitted[i]? = some c → s.word[i]? = some c.letter →
        c.state = RIGHTLETTERRIGHTPLACE := by
  have h := Reachable_Inv s hs
  have hc := h.core
  obtain ⟨h5, hcells⟩ := row_holds s h row G hrow hG
  have hlen : s.entryWord < (afterBind s G).playtrix.length := by
    rw [afterBind_length s G hc]; exact hc.cur
  have hrow' := List.getElem?_eq_getElem hlen
  have hrowt : (evaluate s G).playtrix[s.entryWord]? = some (afterBind s G).playtrix[s.entryWord] := by
    rw [evaluate_row s G hc]; exact hrow'
  refine ⟨evaluate s G, (afterBind s G).playtrix[s.entryWord],
    EnterPressed_accept s row G hrow hG hne hmem, hrowt, ?_, ?_⟩
  · have := afterBind_count s G L h hcells
    unfold litCount at this
    rw [afterBind_entryWord s G hc, hrow'] at this
    exact this
  · intro i c hi hw
    have hcell : cell? (evaluate s G) s.entryWord i = some c := by
      rw [cell?_row _ _ _ hrowt]; exact hi
    have hi5 : i < 5 := (cell?_lt _ (Core_evaluate s G hc).rows5 _ _ _ hcell).2
    obtain ⟨c1, v, h1, h2, h3, _⟩ := submitted_cell s h row G hrow hG i hi5
    rw [hcell] at h2
    cases h2
    exact h3 ⟨c1, h1, hw⟩

theorem C2_witness :
    ∃ (t : AntiwordGame) (submitted : List ColorfulLetter), EnterPressed allowTyped = some t ∧
      t.playtrix[allowTyped.entryWord]? = some submitted ∧
      submitted.countP (lit 76) ≤ allowTyped.word.count 76 ∧
      ∀ (i : Nat) (c : ColorfulLetter), submitted[i]? = some c → allowTyped.word[i]? = some c.letter →
        c.state = RIGHTLETTERRIGHTPLACE :=
  C2_classified_at_most_occurrences allowTyped allowTyped_reachable
    [⟨76, 0⟩, ⟨76, 0⟩, ⟨65, 0⟩, ⟨77, 0⟩, ⟨65, 0⟩] LLAMA rfl rfl (by decide) (by decide) 76

/-! ## The classification of a row does not read the word lists -/

theorem greenStep_strip (i c : Nat) (st : AntiwordGame × (Nat → Bool)) :
    greenStep i c (stripDict st.1, st.2)
      = (stripDict (greenStep i c st).1, (greenStep i c st).2) := by
  simp only [greenStep]
  have e1 : WordContainsLetter (stripDict st.1) c = WordContainsLetter st.1 c := rfl
  have e2 : (ClaimLetterAtPosition (stripDict st.1) c i).2 = (ClaimLetterAtPosition st.1 c i).2 :=
    rfl
  rw [e1, e2]
  split_ifs <;> rfl

theorem greenPass_strip (cs : List Nat) (i : Nat) (st : AntiwordGame × (Nat → Bool)) :
    greenPass i cs (stripDict st.1, st.2)
      = (stripDict (greenPass i cs st).1, (greenPass i cs st).2) := by
  induction cs generalizing i st with
  | nil => rfl
  | cons c cs ih =>
    simp only [greenPass]
    rw [greenStep_strip, ih]

theorem bindStep_strip (skip : Nat → Bool) (i c : Nat) (awg : AntiwordGame) :
    bindStep skip i c (stripDict awg) = stripDict (bindStep skip i c awg) := by
  simp only [bindStep]
  have e2 : (BindALetter (stripDict awg) c).2 = (BindALetter awg c).2 := rfl
  rw [e2]
  have e3 : (setState (BindALetter (stripDict awg) c).1 i 1).keys c = awg.keys c := rfl
  have e4 : (setState (BindALetter (stripDict awg) c).1 i 3).keys c = awg.keys c := rfl
  have e5 : (setState (BindALetter awg c).1 i 1).keys c = awg.keys c := rfl
  have e6 : (setState (BindALetter awg c).1 i 3).keys c = awg.keys c := rfl
  rw [e3, e4, e5, e6]
  split_ifs <;> rfl

theorem bindPass_strip (skip : Nat → Bool) (cs : List Nat) (i : Nat) (awg : AntiwordGame) :
    bindPass skip i cs (stripDict awg) = stripDict (bindPass skip i cs awg) := by
  induction cs generalizing i awg with
  | nil => rfl
  | cons c cs ih =>
    simp only [bindPass]
    rw [bindStep_strip, ih]

theorem evaluate_strip (s : AntiwordGame) (G : List Nat) :
    stripDict (evaluate (stripDict s) G) = stripDict (evaluate s G) := by
  unfold evaluate
  simp only
  have e0 : ({ stripDict s with dictMap := (stripDict s).dictMap.filter (fun k => k != G) }
      : AntiwordGame) = stripDict { s with dictMap := s.dictMap.filter (fun k => k != G) } := rfl
  rw [e0]
  have e1 := greenPass_strip G 0 ({ s with dictMap := s.dictMap.filter (fun k => k != G) },
    fun _ => false)
  simp only at e1
  rw [e1]
  simp only
  have e2 : ∀ a, ResetBindings (stripDict a) = stripDict (ResetBindings a) := fun _ => rfl
  rw [e2, bindPass_strip]
  rfl

theorem evaluate_playtrix_strip (s : AntiwordGame) (G : List Nat) :
    (evaluate s G).playtrix = (evaluate (stripDict s) G).playtrix := by
  have h := congrArg AntiwordGame.playtrix (evaluate_strip s G)
  exact h.symm

/-! ## REACT against CRANE -/

theorem demo_eval : (evaluate (stripDict demoTyped) REACT).playtrix[0]? = some reactOnCrane := by
  decide

theorem runClicks_append (s : AntiwordGame) (a b : List Click) :
    runClicks s (a ++ b) = (runClicks s a).bind (fun t => runClicks t b) := by
  induction a generalizing s with
  | nil => simp [runClicks]
  | cons c a ih =>
    simp only [List.cons_append, runClicks]
    cases Update s c with
    | none => rfl
    | some t => exact ih t

theorem runClicks_single (s : AntiwordGame) (c : Click) : runClicks s [c] = Update s c := by
  simp only [runClicks]
  cases Update s c <;> rfl

theorem react_on_crane (d : List (List Nat)) (wordIdx : Nat) (s0 : AntiwordGame)
    (h0 : Reset (newGame d) none wordIdx = some s0) (hw : s0.word = CRANE)
    (hd : REACT ∈ s0.dictMap) :
    ∃ t, runClicks s0 (typeWord REACT ++ [Click.enter]) = some t ∧
      t.playtrix[0]? = some reactOnCrane := by
  unfold Reset at h0
  cases h1 : (newGame d).dict[wordIdx]? with
  | none => simp [h1] at h0
  | some w =>
    simp only [Option.isNone_none, if_true, h1, Option.some.injEq] at h0
    subst h0
    have hw' : toUpper w = CRANE := hw
    have hd' : REACT ∈ loadDictMap d := hd
    have e5 : runClicks (freshState (newGame d) w) (typeWord REACT)
        = some { demoTyped with dict := d, dictMap := loadDictMap d } := by
      simp [runClicks, typeWord, REACT, Update, growTo, freshState, newGame, setLetter, emptyRow,
        GetWordSize, initEnforcement_apply, List.modify, List.modifyTailIdx, List.modifyHead,
        hw', demoTyped, demoState]
    have e6 : Update { demoTyped with dict := d, dictMap := loadDictMap d } Click.enter
        = some (evaluate { demoTyped with dict := d, dictMap := loadDictMap d } REACT) := by
      unfold Update
      rw [growTo_eq _ (by show demoTyped.entryWord < demoTyped.playtrix.length; decide)]
      exact EnterPressed_accept _ [⟨82, 0⟩, ⟨69, 0⟩, ⟨65, 0⟩, ⟨67, 0⟩, ⟨84, 0⟩] REACT rfl rfl
        (by show REACT ≠ demoTyped.word; decide) hd'
    refine ⟨evaluate { demoTyped with dict := d, dictMap := loadDictMap d } REACT, ?_, ?_⟩
    · rw [runClicks_append, e5, Option.some_bind, runClicks_single, e6]
    · rw [evaluate_playtrix_strip]
      exact demo_eval

/-- C3 (as stated, refuted): in the session with dictionary CRANE, REACT and secret word
CRANE, the submitted row REACT is not classified WrongPlace, WrongPlace, WrongPlace,
WrongPlace, Absent: its third cell, A, is in the secret word's third column. -/
theorem C3_counterexample :
    ¬ ∃ s0 t, Reset (newGame [crane, react]) none 0 = some s0 ∧
      runClicks s0 (typeWord REACT ++ [Click.enter]) = some t ∧
      (t.playtrix[0]?).map (fun row => row.map (fun c => c.state))
        = some [RIGHTLETTERWRONGPLACE, RIGHTLETTERWRONGPLACE, RIGHTLETTERWRONGPLACE,
            RIGHTLETTERWRONGPLACE, WRONGLETTER] := by
  rintro ⟨s0, t, h0, hr, hc⟩
  rw [demo_reset] at h0
  cases h0
  obtain ⟨t1, h1, h2⟩ := react_on_crane [crane, react] 0 _ demo_reset rfl (by decide)
  rw [h1] at hr
  cases hr
  rw [h2] at hc
  revert hc
  decide

/-- C3 (amended): in a fresh session whose secret word is CRANE and whose dictionary
contains REACT, typing and submitting REACT classifies the row as PresentWrongPlace (R),
PresentWrongPlace (E), PresentRightPlace (A), PresentWrongPlace (C), Absent (T). -/
theorem C3_react_against_crane (d : List (List Nat)) (wordIdx : Nat) (s0 : AntiwordGame)
    (h0 : Reset (newGame d) none wordIdx = some s0) (hw : s0.word = CRANE)
    (hd : REACT ∈ s0.dictMap) :
    ∃ t, runClicks s0 (typeWord REACT ++ [Click.enter]) = some t ∧
      t.playtrix[0]? = some reactOnCrane :=
  react_on_crane d wordIdx s0 h0 hw hd

theorem C3_witness :
    ∃ t, runClicks (demoState emptyRow 0) (typeWord REACT ++ [Click.enter]) = some t ∧
      t.playtrix[0]? = some reactOnCrane :=
  C3_react_against_crane [crane, react] 0 (demoState emptyRow 0) demo_reset rfl (by decide)

theorem demo_enter : Update demoTyped Click.enter = some demoGuessed := rfl

theorem demoGuessed_reachable : Reachable demoGuessed :=
  Reachable.click _ _ _ demoTyped_reachable demo_enter

/-! ## The enforcement map only shrinks -/

theorem evaluate_enf_shrinks (s : AntiwordGame) (h : Inv s) (G : List Nat) (k x : Nat)
    (h65 : 65 ≤ x) (h90 : x ≤ 90) (hG : G.length = 5)
    (hnot : s.enforcementMap k x = false) : (evaluate s G).enforcementMap k x = false := by
  have hc := h.core
  have e : (evaluate s G).enforcementMap k x = (afterBind s G).enforcementMap k x := rfl
  rw [e]
  by_cases hex : exactAt s.word G k
  · rw [afterBind_enf_hit s G hc k x hex]
    by_contra h1
    have h2 : G[k]? = some x := by simpa using h1
    obtain ⟨c, h3, h4⟩ := hex
    rw [h2] at h3
    cases h3
    have hk : k < 5 := by
      have := (List.getElem?_eq_some.mp h2).1
      omega
    have := h.enf k x hk h65 h90 h4
    rw [hnot] at this
    exact Bool.noConfusion this
  · by_cases h2 : G[k]? = some x
    · exact afterBind_enf_forbid s G hc k x hex h2
    · rw [afterBind_enf_other s G hc k x hex h2]
      exact hnot

theorem Update_enf_shrinks (s t : AntiwordGame) (h : Inv s) (c : Click) (k x : Nat)
    (h65 : 65 ≤ x) (h90 : x ≤ 90) (hnot : s.enforcementMap k x = false)
    (ht : Update s c = some t) : t.enforcementMap k x = false := by
  unfold Update at ht
  rw [growTo_eq s h.core.cur] at ht
  cases c with
  | enter =>
    obtain ⟨row, hrow⟩ : ∃ row, s.playtrix[s.entryWord]? = some row :=
      ⟨_, List.getElem?_eq_getElem h.core.cur⟩
    simp only at ht
    rw [EnterPressed_eq s row hrow] at ht
    cases hG : readRow row with
    | none => simp only [hG, Option.some.injEq] at ht; subst ht; exact hnot
    | some G =>
      simp only [hG, Option.some.injEq] at ht
      split_ifs at ht
      · subst ht; exact hnot
      · subst ht; exact hnot
      · subst ht
        exact evaluate_enf_shrinks s h G k x h65 h90 (row_holds s h row G hrow hG).1 hnot
  | key y =>
    simp only at ht
    split_ifs at ht with h1 h2 h3
    · rw [setLetter_some _ t _ _ _ ht]; exact hnot
    · rw [setLetter_some _ t _ _ _ ht]; exact hnot
    · cases h4 : setLetter s s.entryWord s.entryLetter y with
      | none => simp [h4] at ht
      | some b =>
        simp only [h4, Option.some.injEq] at ht
        subst ht
        rw [setLetter_some s b _ _ _ h4]; exact hnot
    · simp only [Option.some.injEq] at ht
      subst ht; exact hnot

/-- C4: a letter `A`..`Z` that is not legal in a column before an EnterLetter, Backspace
or Submit event is still not legal in that column after it; the event itself always
yields a state. -/
theorem C4_enforcement_only_shrinks (s : AntiwordGame) (hs : Reachable s) (c : Click)
    (k x : Nat) (h65 : 65 ≤ x) (h90 : x ≤ 90) (hnot : s.enforcementMap k x = false) :
    ∃ t, Update s c = some t ∧ t.enforcementMap k x = false := by
  have h := Reachable_Inv s hs
  obtain ⟨t, ht⟩ := Update_total s c h
  exact ⟨t, ht, Update_enf_shrinks s t h c k x h65 h90 hnot ht⟩

theorem C4_witness :
    ∃ t, Update demoGuessed Click.enter = some t ∧ t.enforcementMap 0 82 = false :=
  C4_enforcement_only_shrinks demoGuessed demoGuessed_reachable Click.enter 0 82
    (by decide) (by decide) (by decide)

/-! ## Rejected guesses -/

/-- C6: a Submit on a row with an empty cell, or on a full row whose word is neither in
the dictionary map nor the secret word, returns the state unchanged. -/
theorem C6_rejected_submit_is_noop (s : AntiwordGame) (row : List ColorfulLetter)
    (hrow : s.playtrix[s.entryWord]? = some row)
    (h : (∃ c ∈ row, c.letter = 0) ∨
      (∃ G, readRow row = some G ∧ G ∉ s.dictMap ∧ G ≠ s.word)) :
    EnterPressed s = some s := by
  rw [EnterPressed_eq s row hrow]
  rcases h with ⟨c, hc, h0⟩ | ⟨G, hG, hmem, hne⟩
  · cases hG : readRow row with
    | none => rfl
    | some G => exact absurd h0 ((readRow_some row G hG).2 c hc)
  · have h1 : s.dictMap.contains G = false := by simp [hmem]
    simp only [hG, if_neg hne, h1, if_true]

theorem C6_witness : EnterPressed (demoState emptyRow 0) = some (demoState emptyRow 0) :=
  C6_rejected_submit_is_noop (demoState emptyRow 0) emptyRow rfl
    (Or.inl ⟨⟨0, 0⟩, by decide, rfl⟩)

/-! ## Pruning of the candidate dictionary -/

/-! ## The candidate dictionary after an evaluation -/

theorem mem_evaluate_dictMap (s : AntiwordGame) (hc : Core s) (G w : List Nat) :
    w ∈ (evaluate s G).dictMap ↔
      (w ∈ s.dictMap ∧ w ≠ G ∧ ¬ ∃ x, x ∈ w ∧ x ∈ G ∧ x ∉ s.word) := by
  have hd := afterBind_dictMap s G hc
  have hwm : ∀ a, ((afterBind s G).wordMap a).isEmpty = true ↔ a ∉ s.word := by
    intro a
    rw [List.isEmpty_iff, wordMap_eq_nil_iff _ (afterBind_inv s G hc).core,
      afterBind_word s G hc]
  show w ∈ (pruneDict (afterBind s G) G).dictMap ↔ _
  have hP : ∀ k : List Nat, (k.any (fun letterA => ((afterBind s G).wordMap letterA).isEmpty &&
      G.any (fun letterB => letterA == letterB))) = true ↔ ∃ x, x ∈ k ∧ x ∈ G ∧ x ∉ s.word := by
    intro k
    simp only [List.any_eq_true, Bool.and_eq_true, hwm, beq_iff_eq]
    constructor
    · rintro ⟨x, h1, h2, y, h3, h4⟩
      subst h4
      exact ⟨x, h1, h3, h2⟩
    · rintro ⟨x, h1, h2, h3⟩
      exact ⟨x, h1, h3, x, h2, rfl⟩
  have hA : ∀ k : List Nat, k ∈ List.filter (fun k => k != G) s.dictMap ↔ k ∈ s.dictMap ∧ k ≠ G := by
    intro k
    simp [List.mem_filter]
  simp only [pruneDict, dictWordsToDelete, hd]
  rw [List.mem_filter, hA]
  have hD : (List.filter (fun k => k.any (fun letterA =>
      ((afterBind s G).wordMap letterA).isEmpty && G.any (fun letterB => letterA == letterB)))
      (List.filter (fun k => k != G) s.dictMap)).contains w = true ↔
      (w ∈ s.dictMap ∧ w ≠ G) ∧ ∃ x, x ∈ w ∧ x ∈ G ∧ x ∉ s.word := by
    rw [List.contains_iff_exists_mem_beq]
    constructor
    · rintro ⟨k, h1, h2⟩
      have : w = k := by simpa using h2
      subst this
      rw [List.mem_filter, hA, hP] at h1
      exact h1
    · rintro ⟨h1, h2⟩
      refine ⟨w, ?_, by simp⟩
      rw [List.mem_filter, hA, hP]
      exact ⟨h1, h2⟩
  constructor
  · rintro ⟨⟨h1, h2⟩, h3⟩
    refine ⟨h1, h2, ?_⟩
    intro hx
    have h4 := hD.mpr ⟨⟨h1, h2⟩, hx⟩
    rw [h4] at h3
    simp at h3
  · rintro ⟨h1, h2, h3⟩
    refine ⟨⟨h1, h2⟩, ?_⟩
    cases h5 : (List.filter (fun k => k.any (fun letterA =>
      ((afterBind s G).wordMap letterA).isEmpty && G.any (fun letterB => letterA == letterB)))
      (List.filter (fun k => k != G) s.dictMap)).contains w with
    | false => rfl
    | true => exact absurd (hD.mp h5).2 h3

/-- C7: after an accepted Submit of `G`, the candidate dictionary is the one before the
Submit without `G` and without exactly the words that contain a letter which occurs in
`G` and nowhere in the secret word. -/
theorem C7_pruning_is_exact (s : AntiwordGame) (hs : Reachable s)
    (row : List ColorfulLetter) (G : List Nat)
    (hrow : s.playtrix[s.entryWord]? = some row) (hG : readRow row = some G)
    (hmem : G ∈ s.dictMap) (hne : G ≠ s.word) :
    ∃ t, EnterPressed s = some t ∧ ∀ w, w ∈ t.dictMap ↔
      (w ∈ s.dictMap ∧ w ≠ G ∧ ¬ ∃ x, x ∈ w ∧ x ∈ G ∧ x ∉ s.word) := by
  have hc := (Reachable_Inv s hs).core
  refine ⟨evaluate s G, EnterPressed_accept s row G hrow hG hne hmem, ?_⟩
  intro w
  exact mem_evaluate_dictMap s hc G w

theorem C7_witness :
    ∃ t, EnterPressed demoTyped = some t ∧ ∀ w, w ∈ t.dictMap ↔
      (w ∈ demoTyped.dictMap ∧ w ≠ REACT ∧ ¬ ∃ x, x ∈ w ∧ x ∈ REACT ∧ x ∉ demoTyped.word) :=
  C7_pruning_is_exact demoTyped demoTyped_reachable
    [⟨82, 0⟩, ⟨69, 0⟩, ⟨65, 0⟩, ⟨67, 0⟩, ⟨84, 0⟩] REACT rfl rfl (by decide) (by decide)

/-! ## An Absent key stays Absent -/

theorem evaluate_keys3 (s : AntiwordGame) (G : List Nat) (h : Inv s) (l : Nat)
    (h3 : s.keys l = 3) : (evaluate s G).keys l = 3 := by
  have hc := h.core
  have hg := afterGreen_inv s G hc
  have hb := afterBind_inv s G hc
  have hnot : l ∉ s.word := (wordMap_eq_nil_iff s hc l).mp (hc.k3 l h3)
  have e1 : (afterGreen s G).1.keys l = s.keys l :=
    hg.keys_miss l (by
      intro j _ _ hw
      exact hnot (List.mem_iff_getElem?.mpr ⟨j, hw⟩))
  have e2 : (afterBind s G).keys l = (afterGreen s G).1.keys l :=
    hb.keys_keep l (by
      show (afterGreen s G).1.keys l ≠ 0
      rw [e1, h3]; omega)
  show (afterBind s G).keys l = 3
  rw [e2, e1, h3]

theorem Update_keys3 (s t : AntiwordGame) (h : Inv s) (c : Click) (l : Nat)
    (h3 : s.keys l = 3) (ht : Update s c = some t) : t.keys l = 3 := by
  unfold Update at ht
  rw [growTo_eq s h.core.cur] at ht
  cases c with
  | enter =>
    obtain ⟨row, hrow⟩ : ∃ row, s.playtrix[s.entryWord]? = some row :=
      ⟨_, List.getElem?_eq_getElem h.core.cur⟩
    simp only at ht
    rw [EnterPressed_eq s row hrow] at ht
    cases hG : readRow row with
    | none => simp only [hG, Option.some.injEq] at ht; subst ht; exact h3
    | some G =>
      simp only [hG, Option.some.injEq] at ht
      split_ifs at ht
      · subst ht; exact h3
      · subst ht; exact h3
      · subst ht; exact evaluate_keys3 s G h l h3
  | key y =>
    simp only at ht
    split_ifs at ht with h1 h2 h4
    · rw [setLetter_some _ t _ _ _ ht]; exact h3
    · rw [setLetter_some _ t _ _ _ ht]; exact h3
    · cases h5 : setLetter s s.entryWord s.entryLetter y with
      | none => simp [h5] at ht
      | some b =>
        simp only [h5, Option.some.injEq] at ht
        subst ht
        rw [setLetter_some s b _ _ _ h5]; exact h3
    · simp only [Option.some.injEq] at ht
      subst ht; exact h3

theorem runClicks_keys3 (clicks : List Click) (s : AntiwordGame) (h : Inv s) (l : Nat)
    (h3 : s.keys l = 3) : ∃ t, runClicks s clicks = some t ∧ t.keys l = 3 := by
  induction clicks generalizing s with
  | nil => exact ⟨s, rfl, h3⟩
  | cons c clicks ih =>
    obtain ⟨t, ht⟩ := Update_total s c h
    obtain ⟨u, hu, hk⟩ := ih t (Inv_Update s t c h ht) (Update_keys3 s t h c l h3 ht)
    refine ⟨u, ?_, hk⟩
    simp only [runClicks, ht]
    exact hu

/-- C10: once the key hint of a letter is Absent, it is Absent after every further run
of clicks (letter keys, backspace, ENTER), each of which yields a state. -/
theorem C10_absent_key_stays_absent (s : AntiwordGame) (hs : Reachable s) (l : Nat)
    (h3 : s.keys l = WRONGLETTER) (clicks : List Click) :
    ∃ t, runClicks s clicks = some t ∧ t.keys l = WRONGLETTER :=
  runClicks_keys3 clicks s (Reachable_Inv s hs) l h3

theorem C10_witness :
    ∃ t, runClicks demoGuessed [Click.key 67, Click.enter] = some t ∧ t.keys 84 = WRONGLETTER :=
  C10_absent_key_stays_absent demoGuessed demoGuessed_reachable 84 (by decide)
    [Click.key 67, Click.enter]

/-! ## The keyboard hint is the best classification seen -/

theorem better_cases (a b : Nat) (ha : a ≤ 3) (hb : b = 1 ∨ b = 2 ∨ b = 3) :
    better a b ≤ 3 ∧ (better a b = 2 ↔ a = 2 ∨ b = 2) ∧
      (better a b = 1 ↔ (a = 1 ∨ b = 1) ∧ ¬ (a = 2 ∨ b = 2)) ∧
      (better a b = 3 ↔ (a = 3 ∨ b = 3) ∧ ¬ (a = 1 ∨ b = 1) ∧ ¬ (a = 2 ∨ b = 2)) := by
  interval_cases a <;> rcases hb with rfl | rfl | rfl <;> decide

theorem better_fold_step (r k a b : Nat) (p1 p2 p3 : Prop)
    (ha : a ≤ 3) (hk : k ≤ 3) (hr : r ≤ 3)
    (r2 : r = 2 ↔ k = 2 ∨ p2) (r1 : r = 1 ↔ (k = 1 ∨ p1) ∧ ¬ (k = 2 ∨ p2))
    (r3 : r = 3 ↔ (k = 3 ∨ p3) ∧ ¬ (k = 1 ∨ p1) ∧ ¬ (k = 2 ∨ p2))
    (k2 : k = 2 ↔ a = 2 ∨ b = 2) (k1 : k = 1 ↔ (a = 1 ∨ b = 1) ∧ ¬ (a = 2 ∨ b = 2))
    (k3 : k = 3 ↔ (a = 3 ∨ b = 3) ∧ ¬ (a = 1 ∨ b = 1) ∧ ¬ (a = 2 ∨ b = 2)) :
    (r = 2 ↔ a = 2 ∨ (b = 2 ∨ p2)) ∧
      (r = 1 ↔ (a = 1 ∨ (b = 1 ∨ p1)) ∧ ¬ (a = 2 ∨ (b = 2 ∨ p2))) ∧
      (r = 3 ↔ (a = 3 ∨ (b = 3 ∨ p3)) ∧ ¬ (a = 1 ∨ (b = 1 ∨ p1)) ∧
        ¬ (a = 2 ∨ (b = 2 ∨ p2))) := by
  by_cases h1 : p1 <;> by_cases h2 : p2 <;> by_cases h3 : p3 <;>
    simp only [h1, h2, h3, or_true, or_false, true_and, and_true, not_true_eq_false,
      not_false_eq_true, and_false, false_and, iff_false, iff_true] at r1 r2 r3 ⊢ <;>
    refine ⟨?_, ?_, ?_⟩ <;> omega

theorem foldl_better (cells : List ColorfulLetter) (a : Nat) (ha : a ≤ 3)
    (hc : ∀ c ∈ cells, c.state = 1 ∨ c.state = 2 ∨ c.state = 3) (r : Nat)
    (hr : r = cells.foldl (fun a c => better a c.state) a) :
    r ≤ 3 ∧ (r = 2 ↔ a = 2 ∨ ∃ c ∈ cells, c.state = 2) ∧
      (r = 1 ↔ (a = 1 ∨ ∃ c ∈ cells, c.state = 1) ∧ ¬ (a = 2 ∨ ∃ c ∈ cells, c.state = 2)) ∧
      (r = 3 ↔ (a = 3 ∨ ∃ c ∈ cells, c.state = 3) ∧ ¬ (a = 1 ∨ ∃ c ∈ cells, c.state = 1) ∧
        ¬ (a = 2 ∨ ∃ c ∈ cells, c.state = 2)) := by
  induction cells generalizing a with
  | nil =>
    simp only [List.foldl_nil] at hr
    subst hr
    simp only [List.not_mem_nil, false_and, exists_false, or_false]
    refine ⟨ha, trivial, ?_, ?_⟩ <;> omega
  | cons c cells ih =>
    have h1 := hc c (List.mem_cons_self _ _)
    obtain ⟨h2, b2, b1, b3⟩ := better_cases a c.state ha h1
    have h3 := ih (better a c.state) h2 (fun x hx => hc x (List.mem_cons_of_mem _ hx))
      (by rw [hr]; rfl)
    simp only [List.mem_cons, exists_eq_or_imp]
    obtain ⟨r0, r2, r1, r3⟩ := h3
    exact ⟨r0, better_fold_step r (better a c.state) a c.state _ _ _ ha h2 r0 r2 r1 r3
      b2 b1 b3⟩

theorem mem_evaluatedCells (s : AntiwordGame) (c : ColorfulLetter) :
    c ∈ evaluatedCells s ↔ ∃ r j, r < s.entryWord ∧ cell? s r j = some c := by
  unfold evaluatedCells cell?
  rw [List.mem_flatten]
  constructor
  · rintro ⟨row, hrow, hc⟩
    obtain ⟨r, hr⟩ := List.mem_iff_getElem?.mp hrow
    obtain ⟨j, hj⟩ := List.mem_iff_getElem?.mp hc
    rw [List.getElem?_take] at hr
    split_ifs at hr with h1
    exact ⟨r, j, h1, by simp [hr, hj]⟩
  · rintro ⟨r, j, hr, hc⟩
    cases h1 : s.playtrix[r]? with
    | none => simp [h1] at hc
    | some row =>
      simp only [h1] at hc
      refine ⟨row, List.mem_iff_getElem?.mpr ⟨r, ?_⟩, List.mem_iff_getElem?.mpr ⟨j, hc⟩⟩
      rw [List.getElem?_take, if_pos hr, h1]

theorem seen_iff_evaluated (s : AntiwordGame) (l v : Nat) :
    seen s s.entryWord l v ↔
      ∃ c ∈ (evaluatedCells s).filter (fun c => c.letter == l), c.state = v := by
  constructor
  · rintro ⟨r, j, hr, hc⟩
    refine ⟨⟨l, v⟩, ?_, rfl⟩
    rw [List.mem_filter, mem_evaluatedCells]
    exact ⟨⟨r, j, hr, hc⟩, by simp⟩
  · rintro ⟨c, hc, hv⟩
    rw [List.mem_filter, mem_evaluatedCells] at hc
    obtain ⟨⟨r, j, hr, hcell⟩, hl⟩ := hc
    have hl' : c.letter = l := by simpa using hl
    refine ⟨r, j, hr, ?_⟩
    rw [hcell]
    cases c
    simp only at hl' hv
    subst hl'; subst hv; rfl

/-- C9: in every reachable state the key hint of a letter is the best classification
(PresentRightPlace > PresentWrongPlace > Absent > Unknown) among the cells of the
evaluated rows that hold the letter, and it is Unknown exactly when no evaluated cell
holds the letter. -/
theorem C9_hint_is_best_classification (s : AntiwordGame) (hs : Reachable s) (l : Nat) :
    s.keys l = bestClassification s l ∧
      (s.keys l = UNKNOWN ↔ ∀ c ∈ evaluatedCells s, c.letter ≠ l) := by
  have h := Reachable_Inv s hs
  obtain ⟨k2, k1, k3⟩ := h.hint l
  have kr := h.core.krange l
  have hst : ∀ c ∈ (evaluatedCells s).filter (fun c => c.letter == l),
      c.state = 1 ∨ c.state = 2 ∨ c.state = 3 := by
    intro c hc
    rw [List.mem_filter, mem_evaluatedCells] at hc
    obtain ⟨⟨r, j, hr, hcell⟩, _⟩ := hc
    exact h.evald r j c hr hcell
  obtain ⟨f0, f2, f1, f3⟩ := foldl_better _ 0 (by omega) hst (bestClassification s l) rfl
  rw [← seen_iff_evaluated, ← seen_iff_evaluated] at f1 f3
  rw [← seen_iff_evaluated] at f2 f3
  have hbest : s.keys l = bestClassification s l := by
    generalize bestClassification s l = r at f0 f1 f2 f3
    have e2 : s.keys l = 2 ↔ r = 2 := by rw [k2, f2]; simp
    have e1 : s.keys l = 1 ↔ r = 1 := by rw [k1, f1]; simp
    have e3 : s.keys l = 3 ↔ r = 3 := by rw [k3, f3]; simp
    omega
  refine ⟨hbest, ?_⟩
  constructor
  · intro h0 c hc hl
    obtain ⟨r, j, hr, hcell⟩ := (mem_evaluatedCells s c).mp hc
    have hv := h.evald r j c hr hcell
    have hseen : seen s s.entryWord l c.state := ⟨r, j, hr, by rw [hcell, ← hl]⟩
    rcases hv with hv | hv | hv
    · rw [hv] at hseen
      by_cases h2 : seen s s.entryWord l 2
      · have := k2.mpr h2; simp only [UNKNOWN] at h0; omega
      · have := k1.mpr ⟨hseen, h2⟩; simp only [UNKNOWN] at h0; omega
    · rw [hv] at hseen
      have := k2.mpr hseen; simp only [UNKNOWN] at h0; omega
    · rw [hv] at hseen
      by_cases h2 : seen s s.entryWord l 2
      · have := k2.mpr h2; simp only [UNKNOWN] at h0; omega
      · by_cases h1 : seen s s.entryWord l 1
        · have := k1.mpr ⟨h1, h2⟩; simp only [UNKNOWN] at h0; omega
        · have := k3.mpr ⟨hseen, h1, h2⟩; simp only [UNKNOWN] at h0; omega
  · intro hno
    have hns : ∀ v, ¬ seen s s.entryWord l v := by
      rintro v ⟨r, j, hr, hcell⟩
      exact hno _ ((mem_evaluatedCells s _).mpr ⟨r, j, hr, hcell⟩) rfl
    have n2 : ¬ s.keys l = 2 := fun e => hns 2 (k2.mp e)
    have n1 : ¬ s.keys l = 1 := fun e => hns 1 (k1.mp e).1
    have n3 : ¬ s.keys l = 3 := fun e => hns 3 (k3.mp e).1
    simp only [UNKNOWN]
    omega

theorem C9_witness :
    demoGuessed.keys 65 = bestClassification demoGuessed 65 ∧
      (demoGuessed.keys 65 = UNKNOWN ↔ ∀ c ∈ evaluatedCells demoGuessed, c.letter ≠ 65) :=
  C9_hint_is_best_classification demoGuessed demoGuessed_reachable 65

/-! ## Sessions without scripted guesses -/

theorem Played_Reachable (s : AntiwordGame) (h : Played s) : Reachable s := by
  induction h with
  | reset awg wordIdx s h1 h2 => exact Reachable.reset awg none wordIdx s h1 h2
  | click s c t _ h2 ih => exact Reachable.click s c t ih h2

theorem won_key1 : Update (demoState emptyRow 0) (Click.key 67)
    = some (demoState [⟨67, 0⟩, ⟨0, 0⟩, ⟨0, 0⟩, ⟨0, 0⟩, ⟨0, 0⟩] 1) := rfl

theorem won_key2 : Update (demoState [⟨67, 0⟩, ⟨0, 0⟩, ⟨0, 0⟩, ⟨0, 0⟩, ⟨0, 0⟩] 1) (Click.key 82)
    = some (demoState [⟨67, 0⟩, ⟨82, 0⟩, ⟨0, 0⟩, ⟨0, 0⟩, ⟨0, 0⟩] 2) := rfl

theorem won_key3 : Update (demoState [⟨67, 0⟩, ⟨82, 0⟩, ⟨0, 0⟩, ⟨0, 0⟩, ⟨0, 0⟩] 2) (Click.key 65)
    = some (demoState [⟨67, 0⟩, ⟨82, 0⟩, ⟨65, 0⟩, ⟨0, 0⟩, ⟨0, 0⟩] 3) := rfl

theorem won_key4 : Update (demoState [⟨67, 0⟩, ⟨82, 0⟩, ⟨65, 0⟩, ⟨0, 0⟩, ⟨0, 0⟩] 3) (Click.key 78)
    = some (demoState [⟨67, 0⟩, ⟨82, 0⟩, ⟨65, 0⟩, ⟨78, 0⟩, ⟨0, 0⟩] 4) := rfl

theorem won_key5 : Update (demoState [⟨67, 0⟩, ⟨82, 0⟩, ⟨65, 0⟩, ⟨78, 0⟩, ⟨0, 0⟩] 4) (Click.key 69)
    = some demoWon := rfl

theorem demoWon_played : Played demoWon :=
  Played.click _ _ _ (Played.click _ _ _ (Played.click _ _ _ (Played.click _ _ _
    (Played.click _ _ _ (Played.reset _ _ _ (Nat.zero_le 5) demo_reset)
      won_key1) won_key2) won_key3) won_key4) won_key5

theorem demoWon_run : runClicks (demoState emptyRow 0) (typeWord CRANE) = some demoWon := by
  simp only [typeWord, CRANE, List.map, runClicks, won_key1, won_key2, won_key3, won_key4,
    won_key5]

/-! ## The winning guess -/

/-- The secret word CRANE is typed and submitted: the state is returned unchanged, the row
is still Unknown and so is the key hint of C. -/
theorem C12_counterexample :
    ∃ s0 s, Reset (newGame [crane, react]) none 0 = some s0 ∧
      runClicks s0 (typeWord CRANE) = some s ∧
      (s.playtrix[s.entryWord]?).bind readRow = some s.word ∧
      Update s Click.enter = some s ∧
      s.playtrix[0]? = some [⟨67, UNKNOWN⟩, ⟨82, UNKNOWN⟩, ⟨65, UNKNOWN⟩, ⟨78, UNKNOWN⟩,
        ⟨69, UNKNOWN⟩] ∧ s.keys 67 = UNKNOWN :=
  ⟨demoState emptyRow 0, demoWon, demo_reset, demoWon_run, rfl, rfl, rfl, rfl⟩

/-- C12 (amended): the winning guess is not evaluated.  In every reachable state, a Submit of
a full row whose word equals the secret word returns the state unchanged, and every cell
of that row is still classified Unknown. -/
theorem C12_winning_guess_not_evaluated (s : AntiwordGame) (hs : Reachable s)
    (row : List ColorfulLetter) (hrow : s.playtrix[s.entryWord]? = some row)
    (hw : readRow row = some s.word) :
    EnterPressed s = some s ∧ ∀ c ∈ row, c.state = UNKNOWN := by
  refine ⟨?_, ?_⟩
  · rw [EnterPressed_eq s row hrow]
    simp only [hw, if_true]
  · intro c hc
    obtain ⟨j, hj⟩ := List.mem_iff_getElem?.mp hc
    exact (Reachable_Inv s hs).fresh s.entryWord j c (le_refl _)
      (by rw [cell?_row s _ row hrow]; exact hj)

theorem C12_witness :
    EnterPressed demoWon = some demoWon ∧
      ∀ c ∈ [(⟨67, 0⟩ : ColorfulLetter), ⟨82, 0⟩, ⟨65, 0⟩, ⟨78, 0⟩, ⟨69, 0⟩],
        c.state = UNKNOWN :=
  C12_winning_guess_not_evaluated demoWon (Played_Reachable _ demoWon_played) _ rfl rfl

/-! ## The enforcement map never excludes the secret word -/

/-- C15: in every reachable state the secret word's own letter (a letter A..Z) at a column
0..4 is legal in that column. -/
theorem C15_secret_letter_stays_legal (s : AntiwordGame) (hs : Reachable s) (i x : Nat)
    (hi : i < 5) (h65 : 65 ≤ x) (h90 : x ≤ 90) (hx : s.word[i]? = some x) :
    s.enforcementMap i x = true :=
  (Reachable_Inv s hs).enf i x hi h65 h90 hx

theorem C15_witness : demoGuessed.enforcementMap 0 67 = true :=
  C15_secret_letter_stays_legal demoGuessed demoGuessed_reachable 0 67 (by decide) (by decide)
    (by decide) (by decide)

/-! ## Absent keys -/

theorem allow_enter : Update allowTyped Click.enter = some allowGuessed := rfl

theorem allowGuessed_reachable : Reachable allowGuessed :=
  Reachable.click _ _ _ allowTyped_reachable allow_enter

/-- C18: in every reachable state a letter whose key hint is Absent does not occur in the
secret word, although a cell that holds a letter of the secret word can be classified
Absent (LLAMA against ALLOW: the last A). -/
theorem C18_absent_key_not_in_secret :
    (∀ s, Reachable s → ∀ l, s.keys l = WRONGLETTER → l ∉ s.word) ∧
      ∃ s c, Reachable s ∧ cell? s 0 4 = some c ∧ c.state = WRONGLETTER ∧
        c.letter ∈ s.word := by
  refine ⟨?_, allowGuessed, ⟨65, 3⟩, allowGuessed_reachable, ?_, rfl, ?_⟩
  · intro s hs l h3
    have hc := (Reachable_Inv s hs).core
    exact (wordMap_eq_nil_iff s hc l).mp (hc.k3 l h3)
  · decide!
  · decide!

theorem C18_witness : 84 ∉ demoGuessed.word :=
  C18_absent_key_not_in_secret.1 demoGuessed demoGuessed_reachable 84 (by decide)

/-! ## ClaimLetterAtPosition -/

theorem claimLoop_split (p : Nat) (rs : List PositionAndClaim)
    (h : (claimLoop p rs).2 = true) :
    ∃ pre r post, rs = pre ++ r :: post ∧ (∀ q ∈ pre, q.pos ≠ p) ∧ r.pos = p ∧
      (claimLoop p rs).1 = pre ++ { r with claim := true } :: post := by
  induction rs with
  | nil => simp [claimLoop] at h
  | cons r rs ih =>
    by_cases h1 : r.pos = p
    · exact ⟨[], r, rs, rfl, by simp, h1, by simp [claimLoop, h1]⟩
    · simp only [claimLoop, h1, if_false] at h
      obtain ⟨pre, r0, post, e1, e2, e3, e4⟩ := ih h
      refine ⟨r :: pre, r0, post, by rw [e1]; rfl, ?_, e3, ?_⟩
      · intro q hq
        rcases List.mem_cons.mp hq with rfl | hq
        · exact h1
        · exact e2 q hq
      · simp only [claimLoop, h1, if_false, e4, List.cons_append]

/-- The A of CRANE, claimed by the guess REACT, is claimed again: the call returns true
although the record at position 2 is already claimed. -/
theorem C16_counterexample :
    (demoGuessed.wordMap 65).map (fun r => (r.pos, r.claim)) = [(2, true)] ∧
      (ClaimLetterAtPosition demoGuessed 65 2).2 = true := by
  decide!

/-- C16 (amended): ClaimLetterAtPosition returns true exactly when the letter has an
occurrence record at the given position, claimed or not; it then marks the first such
record claimed and changes no other record.  It returns false, changing nothing, when
there is no record at that position. -/
theorem C16_claim_at_marks_record (awg : AntiwordGame) (letter position : Nat) :
    ((ClaimLetterAtPosition awg letter position).2 = true ↔
        ∃ r ∈ awg.wordMap letter, r.pos = position) ∧
      ((ClaimLetterAtPosition awg letter position).2 = true →
        ∃ pre r post, awg.wordMap letter = pre ++ r :: post ∧
          (∀ q ∈ pre, q.pos ≠ position) ∧ r.pos = position ∧
          (ClaimLetterAtPosition awg letter position).1.wordMap letter
            = pre ++ { r with claim := true } :: post ∧
          ∀ l, l ≠ letter →
            (ClaimLetterAtPosition awg letter position).1.wordMap l = awg.wordMap l) ∧
      ((ClaimLetterAtPosition awg letter position).2 = false →
        (ClaimLetterAtPosition awg letter position).1 = awg) := by
  refine ⟨claimLoop_snd position _, ?_, ?_⟩
  · intro h
    obtain ⟨pre, r, post, e1, e2, e3, e4⟩ := claimLoop_split position _ h
    refine ⟨pre, r, post, e1, e2, e3, ?_, ?_⟩
    · simp only [ClaimLetterAtPosition, upd_apply, if_true, e4]
    · intro l hl
      simp only [ClaimLetterAtPosition, upd_apply, if_neg hl]
  · intro h
    have e := claimLoop_fail position _ h
    have e2 : upd awg.wordMap letter (claimLoop position (awg.wordMap letter)).1
        = awg.wordMap := by
      funext l
      rw [upd_apply, e]
      split_ifs with h1
      · rw [h1]
      · rfl
    simp only [ClaimLetterAtPosition, e2]

theorem C16_witness :
    (ClaimLetterAtPosition demoGuessed 65 2).2 = true ↔
      ∃ r ∈ demoGuessed.wordMap 65, r.pos = 2 :=
  (C16_claim_at_marks_record demoGuessed 65 2).1

/-! ## Reset -/

theorem Reset_none_assigns (awg : AntiwordGame) (wordIdx : Nat) (w : List Nat)
    (hw : awg.dict[wordIdx]? = some w) :
    ∃ s, Reset awg none wordIdx = some s ∧
      s.playtrix = [[⟨0, UNKNOWN⟩, ⟨0, UNKNOWN⟩, ⟨0, UNKNOWN⟩, ⟨0, UNKNOWN⟩, ⟨0, UNKNOWN⟩]] ∧
      s.entryWord = 0 ∧ (∀ l, s.keys l = UNKNOWN) ∧
      (∀ i x, i < 5 → 65 ≤ x → x ≤ 90 → s.enforcementMap i x = true) ∧
      s.dict = awg.dict ∧ s.dictMap = loadDictMap awg.dict ∧ s.word = toUpper w ∧
      ∀ l, s.wordMap l =
        (positionsFrom l 0 (toUpper w)).map (fun p => (⟨p, false, false⟩ : PositionAndClaim)) := by
  refine ⟨freshState awg w, ?_, rfl, rfl, fun _ => rfl, ?_, rfl, rfl, rfl, ?_⟩
  · unfold Reset
    simp only [Option.isNone_none, if_true, hw]
  · intro i x hi h65 h90
    simp only [freshState, initEnforcement_apply]
    simp [hi, h65, h90]
  · intro l
    simp only [freshState, buildWordMap_apply, List.nil_append]

/-- C17 (defect of the code): with dictionary CRANE, REACT and secret CRANE, one letter is
typed (entry column 1) and the session is reset without scripted guesses.  The state Reset
returns has a grid of one row of five empty Unknown cells and entry row 0, as the claim
says, but its entry column is 1 where the claim says 0: Reset assigns `entryWord` and never
`entryLetter`, which the new-row path of `EnterPressed` sets to 0 together with
`entryWord`. -/
theorem C17_reset_leaves_entry_column :
    ∃ s0 p s, Reset (newGame [crane, react]) none 0 = some s0 ∧
      Update s0 (Click.key 82) = some p ∧ p.entryLetter = 1 ∧
      Reset p none 0 = some s ∧
      s.playtrix = [[⟨0, UNKNOWN⟩, ⟨0, UNKNOWN⟩, ⟨0, UNKNOWN⟩, ⟨0, UNKNOWN⟩, ⟨0, UNKNOWN⟩]] ∧
      s.entryWord = 0 ∧ s.entryLetter = 1 :=
  ⟨demoState emptyRow 0, _, demoState emptyRow 1, demo_reset, demo_key1, rfl, rfl, rfl, rfl,
    rfl⟩

/-! ## Key hints across a Submit -/

theorem evaluate_keys_nonzero (s : AntiwordGame) (G : List Nat) (h : Inv s) (l : Nat)
    (hl : s.keys l ≠ 0) :
    (evaluate s G).keys l = s.keys l ∨ (s.keys l = 1 ∧ (evaluate s G).keys l = 2) := by
  have hc := h.core
  have hg := afterGreen_inv s G hc
  have hb := afterBind_inv s G hc
  have e0 : (evaluate s G).keys l = (afterBind s G).keys l := rfl
  by_cases hit : ∃ j, j < G.length ∧ G[j]? = some l ∧ s.word[j]? = some l
  · obtain ⟨j, hj, hG, hw⟩ := hit
    have e1 : (afterGreen s G).1.keys l = 2 := hg.keys_hit l j hj hG hw
    have e2 : (afterBind s G).keys l = (afterGreen s G).1.keys l :=
      hb.keys_keep l (by
        show (afterGreen s G).1.keys l ≠ 0
        rw [e1]; omega)
    have h3 : s.keys l ≠ 3 := by
      intro h3
      exact (wordMap_eq_nil_iff s hc l).mp (hc.k3 l h3) (List.mem_iff_getElem?.mpr ⟨j, hw⟩)
    have hr := hc.krange l
    rw [e0, e2, e1]
    by_cases h2 : s.keys l = 2
    · left; exact h2.symm
    · right; exact ⟨by omega, rfl⟩
  · have e1 : (afterGreen s G).1.keys l = s.keys l :=
      hg.keys_miss l (by
        intro j hj hG hw
        exact hit ⟨j, hj, hG, hw⟩)
    have e2 : (afterBind s G).keys l = (afterGreen s G).1.keys l :=
      hb.keys_keep l (by
        show (afterGreen s G).1.keys l ≠ 0
        rw [e1]; exact hl)
    left
    rw [e0, e2, e1]

/-- With dictionary CRANE, REACT, BRAVE and secret CRANE, the guess REACT leaves the hint of
R PresentWrongPlace, and the next guess BRAVE changes it to PresentRightPlace. -/
theorem C11_counterexample :
    ∃ s0 s t, Reset (newGame [crane, react, brave]) none 0 = some s0 ∧
      runClicks s0 (typeWord REACT ++ [Click.enter] ++ typeWord BRAVE) = some s ∧
      Update s Click.enter = some t ∧
      s.keys 82 = RIGHTLETTERWRONGPLACE ∧ t.keys 82 = RIGHTLETTERRIGHTPLACE := by
  have h : ((Reset (newGame [crane, react, brave]) none 0).bind (fun s0 =>
      (runClicks s0 (typeWord REACT ++ [Click.enter] ++ typeWord BRAVE)).bind (fun s =>
        (Update s Click.enter).bind (fun t => some (s.keys 82, t.keys 82)))))
      = some (RIGHTLETTERWRONGPLACE, RIGHTLETTERRIGHTPLACE) := by
    decide!
  obtain ⟨s0, h0, h1⟩ := Option.bind_eq_some.mp h
  obtain ⟨s, h2, h3⟩ := Option.bind_eq_some.mp h1
  obtain ⟨t, h4, h5⟩ := Option.bind_eq_some.mp h3
  simp only [Option.some.injEq, Prod.mk.injEq] at h5
  exact ⟨s0, s, t, h0, h2, h4, h5.1, h5.2⟩

/-- C11 (amended): in every reachable state, a Submit returns a state in which the key hint
of a letter that was not Unknown has the same value as before, or was PresentWrongPlace
and is now PresentRightPlace; so Absent and PresentRightPlace hints never change, and no
hint returns to Unknown. -/
theorem C11_hint_changes_after_first (s : AntiwordGame) (hs : Reachable s) (l : Nat)
    (hl : s.keys l ≠ UNKNOWN) :
    ∃ t, Update s Click.enter = some t ∧
      (t.keys l = s.keys l ∨
        (s.keys l = RIGHTLETTERWRONGPLACE ∧ t.keys l = RIGHTLETTERRIGHTPLACE)) := by
  have h := Reachable_Inv s hs
  obtain ⟨row, hrow⟩ : ∃ row, s.playtrix[s.entryWord]? = some row :=
    ⟨_, List.getElem?_eq_getElem h.core.cur⟩
  have e : Update s Click.enter = EnterPressed s := by
    unfold Update
    rw [growTo_eq s h.core.cur]
  rw [e, EnterPressed_eq s row hrow]
  cases hG : readRow row with
  | none => exact ⟨s, rfl, Or.inl rfl⟩
  | some G =>
    simp only
    split_ifs
    · exact ⟨s, rfl, Or.inl rfl⟩
    · exact ⟨s, rfl, Or.inl rfl⟩
    · exact ⟨_, rfl, evaluate_keys_nonzero s G h l hl⟩

theorem C11_witness :
    ∃ t, Update demoGuessed Click.enter = some t ∧
      (t.keys 82 = demoGuessed.keys 82 ∨
        (demoGuessed.keys 82 = RIGHTLETTERWRONGPLACE ∧ t.keys 82 = RIGHTLETTERRIGHTPLACE)) :=
  C11_hint_changes_after_first demoGuessed demoGuessed_reachable 82 (by decide)

/-! ## Loading the candidate dictionary -/

theorem mem_foldl_loadDictMap (d : List (List Nat)) (m0 : List (List Nat)) (x : List Nat) :
    x ∈ d.foldl (fun m w => if m.contains (toUpper w) then m else m ++ [toUpper w]) m0 ↔
      x ∈ m0 ∨ x ∈ d.map toUpper := by
  induction d generalizing m0 with
  | nil => simp
  | cons w d ih =>
    simp only [List.foldl_cons, List.map_cons, List.mem_cons]
    rw [ih]
    by_cases h : m0.contains (toUpper w) = true
    · rw [if_pos h]
      have h1 : toUpper w ∈ m0 := by simpa using h
      constructor
      · rintro (h2 | h2)
        · exact Or.inl h2
        · exact Or.inr (Or.inr h2)
      · rintro (h2 | h2 | h2)
        · exact Or.inl h2
        · exact Or.inl (h2 ▸ h1)
        · exact Or.inr h2
    · rw [if_neg h]
      simp only [List.mem_append, List.mem_singleton]
      tauto

theorem mem_loadDictMap (d : List (List Nat)) (x : List Nat) :
    x ∈ loadDictMap d ↔ x ∈ d.map toUpper := by
  unfold loadDictMap
  rw [mem_foldl_loadDictMap]
  simp

/-! ## Hints PresentWrongPlace and PresentRightPlace belong to letters of the secret word -/

theorem K12_greenStep (i c : Nat) (st : AntiwordGame × (Nat → Bool)) (h : K12 st.1) :
    K12 (greenStep i c st).1 := by
  intro l hl
  rw [greenStep_keys] at hl
  rw [greenStep_wordMap]
  by_cases h1 : (claimLoop i (st.1.wordMap c)).2 = true ∧ l = c
  · obtain ⟨h2, h3⟩ := h1
    subst h3
    rw [if_pos rfl]
    intro h4
    rw [claimLoop_eq_nil] at h4
    rw [h4] at h2
    simp [claimLoop] at h2
  · rw [if_neg h1] at hl
    have h2 := h l hl
    split_ifs with h3
    · subst h3
      intro h4
      rw [claimLoop_eq_nil] at h4
      exact h2 h4
    · exact h2

theorem K12_bindStep (skip : Nat → Bool) (i c : Nat) (awg : AntiwordGame) (h : K12 awg) :
    K12 (bindStep skip i c awg) := by
  intro l hl
  rw [bindStep_keys] at hl
  have key : awg.wordMap l ≠ [] := by
    by_cases h1 : skip i = false ∧ l = c ∧ awg.keys c = 0
    · rw [if_pos h1] at hl
      obtain ⟨_, h3, _⟩ := h1
      subst h3
      by_cases h2 : (bindLoop (awg.wordMap l)).2 = true
      · intro h4
        rw [h4] at h2
        simp [bindLoop] at h2
      · rw [if_neg h2] at hl
        omega
    · rw [if_neg h1] at hl
      exact h l hl
  rw [bindStep_wordMap]
  split_ifs with h3
  · intro h4
    rw [bindLoop_eq_nil] at h4
    rw [h3.2] at key
    exact key h4
  · exact key

theorem K12_greenPass (cs : List Nat) (i : Nat) (st : AntiwordGame × (Nat → Bool))
    (h : K12 st.1) : K12 (greenPass i cs st).1 := by
  induction cs generalizing i st with
  | nil => exact h
  | cons c cs ih => exact ih (i + 1) _ (K12_greenStep i c st h)

theorem K12_bindPass (skip : Nat → Bool) (cs : List Nat) (i : Nat) (awg : AntiwordGame)
    (h : K12 awg) : K12 (bindPass skip i cs awg) := by
  induction cs generalizing i awg with
  | nil => exact h
  | cons c cs ih => exact ih (i + 1) _ (K12_bindStep skip i c awg h)

theorem K12_evaluate (s : AntiwordGame) (G : List Nat) (h : K12 s) : K12 (evaluate s G) := by
  have h0 : K12 { s with dictMap := s.dictMap.filter (fun k => k != G) } := h
  have h1 := K12_greenPass G 0 ({ s with dictMap := s.dictMap.filter (fun k => k != G) },
    fun _ => false) h0
  have h2 : K12 (ResetBindings (afterGreen s G).1) := by
    intro l hl
    simp only [ResetBindings, ne_eq, List.map_eq_nil_iff]
    exact h1 l hl
  exact K12_bindPass (afterGreen s G).2 G 0 _ h2

/-! ## Board-independent facts of a session -/

theorem Aux_congr (s t : AntiwordGame) (h : Aux s) (hk : t.keys = s.keys)
    (hm : t.wordMap = s.wordMap) (hw : t.word = s.word) (hd : t.dictMap = s.dictMap) :
    Aux t := by
  refine ⟨?_, ?_⟩
  · intro l hl
    rw [hk] at hl
    rw [hm]
    exact h.k12 l hl
  · rw [hw, hd]; exact h.wordIn

theorem Aux_evaluate (s : AntiwordGame) (G : List Nat) (hi : Inv s) (h : Aux s)
    (hne : G ≠ s.word) : Aux (evaluate s G) := by
  refine ⟨K12_evaluate s G h.k12, ?_⟩
  have e : (evaluate s G).word = s.word := afterBind_word s G hi.core
  rw [e, mem_evaluate_dictMap s hi.core G s.word]
  refine ⟨h.wordIn, fun e2 => hne e2.symm, ?_⟩
  rintro ⟨x, h1, _, h3⟩
  exact h3 h1

theorem Aux_EnterPressed (s t : AntiwordGame) (hi : Inv s) (h : Aux s)
    (ht : EnterPressed s = some t) : Aux t := by
  obtain ⟨row, hrow⟩ : ∃ row, s.playtrix[s.entryWord]? = some row :=
    ⟨_, List.getElem?_eq_getElem hi.core.cur⟩
  rw [EnterPressed_eq s row hrow] at ht
  cases hG : readRow row with
  | none => simp only [hG, Option.some.injEq] at ht; subst ht; exact h
  | some G =>
    simp only [hG, Option.some.injEq] at ht
    split_ifs at ht with h1 h2
    · subst ht; exact h
    · subst ht; exact h
    · subst ht; exact Aux_evaluate s G hi h h1

theorem Aux_setLetter (s t : AntiwordGame) (r0 j0 v : Nat) (h : Aux s)
    (ht : setLetter s r0 j0 v = some t) : Aux t := by
  have e := setLetter_some s t r0 j0 v ht
  exact Aux_congr s t h (by rw [e]) (by rw [e]) (by rw [e]) (by rw [e])

theorem Aux_Update (s t : AntiwordGame) (c : Click) (hi : Inv s) (h : Aux s)
    (ht : Update s c = some t) : Aux t := by
  unfold Update at ht
  rw [growTo_eq s hi.core.cur] at ht
  cases c with
  | enter => exact Aux_EnterPressed s t hi h ht
  | key x =>
    simp only at ht
    split_ifs at ht with h1 h2 h3
    · exact Aux_setLetter { s with entryLetter := s.entryLetter - 1 } t _ _ _
        (Aux_congr s _ h rfl rfl rfl rfl) ht
    · exact Aux_setLetter _ t _ _ _ h ht
    · cases h4 : setLetter s s.entryWord s.entryLetter x with
      | none => simp [h4] at ht
      | some b =>
        simp only [h4, Option.some.injEq] at ht
        subst ht
        exact Aux_congr b _ (Aux_setLetter s b _ _ _ h h4) rfl rfl rfl rfl
    · simp only [Option.some.injEq] at ht
      subst ht; exact h

theorem Aux_fillRow (i : Nat) (g : List Nat) (js : List Nat) (a b : AntiwordGame)
    (h : Aux a) (hb : fillRow i g js a = some b) : Aux b := by
  induction js generalizing a with
  | nil =>
    simp only [fillRow, Option.some.injEq] at hb
    subst hb; exact h
  | cons j js ih =>
    simp only [fillRow] at hb
    cases h1 : g[j]? with
    | none => simp [h1] at hb
    | some c =>
      simp only [h1] at hb
      cases h2 : setLetter a i j c with
      | none => simp [h2] at hb
      | some a2 =>
        simp only [h2] at hb
        exact ih a2 (Aux_setLetter a a2 i j c h h2) hb

theorem Aux_replay (gs : List (List Nat)) (i : Nat) (a s : AntiwordGame)
    (hi : Inv a) (h : Aux a) (hle : a.entryWord ≤ i) (hs : replay i gs a = some s) :
    Aux s := by
  induction gs generalizing i a with
  | nil =>
    simp only [replay, Option.some.injEq] at hs
    subst hs; exact h
  | cons g gs ih =>
    simp only [replay] at hs
    cases h1 : fillRow i (toUpper g) (List.range GetWordSize) (growTo a i) with
    | none => simp [h1] at hs
    | some b =>
      simp only [h1] at hs
      cases h2 : EnterPressed b with
      | none => simp [h2] at hs
      | some c =>
        simp only [h2] at hs
        obtain ⟨hb, hbw, _⟩ := fillRow_inv i _ _ (growTo a i) b (Inv_growTo a i hi) hle h1
        have hc := Inv_EnterPressed b c hb h2
        obtain ⟨hcw, _⟩ := EnterPressed_entryWord b c hb h2
        have e : (growTo a i).entryWord = a.entryWord := rfl
        have ab : Aux b := Aux_fillRow i _ _ (growTo a i) b (Aux_congr a _ h rfl rfl rfl rfl) h1
        exact ih (i + 1) c hc (Aux_EnterPressed b c hb ab h2) (by omega) hs

theorem Aux_freshState (awg : AntiwordGame) (i : Nat) (w : List Nat)
    (hw : awg.dict[i]? = some w) : Aux (freshState awg w) := by
  refine ⟨?_, ?_⟩
  · intro l hl
    simp [freshState] at hl
  · show toUpper w ∈ loadDictMap awg.dict
    rw [mem_loadDictMap]
    exact List.mem_map_of_mem _ (List.mem_iff_getElem?.mpr ⟨i, hw⟩)

theorem Aux_Reset (awg s : AntiwordGame) (debug : Option (List (List Nat))) (wordIdx : Nat)
    (h : awg.entryLetter ≤ 5) (hs : Reset awg debug wordIdx = some s) : Aux s := by
  unfold Reset at hs
  cases debug with
  | none =>
    cases h1 : awg.dict[wordIdx]? with
    | none => simp [h1] at hs
    | some w =>
      simp only [Option.isNone_none, if_true, h1, Option.some.injEq] at hs
      subst hs; exact Aux_freshState awg wordIdx w h1
  | some gs =>
    cases h1 : awg.dict[0]? with
    | none => simp [h1] at hs
    | some w =>
      simp only [Option.isNone_some, Bool.false_eq_true, if_false, h1] at hs
      exact Aux_replay gs 0 _ s (Inv_freshState awg w h) (Aux_freshState awg 0 w h1)
        (Nat.zero_le _) hs

theorem Reachable_Aux (s : AntiwordGame) (h : Reachable s) : Aux s := by
  induction h with
  | reset awg debug wordIdx s h1 h2 => exact Aux_Reset awg s debug wordIdx h1 h2
  | click s c t h1 h2 ih => exact Aux_Update s t c (Reachable_Inv s h1) ih h2

/-- C20: in every reachable state the candidate dictionary contains the secret word. -/
theorem C20_secret_stays_candidate (s : AntiwordGame) (hs : Reachable s) :
    s.word ∈ s.dictMap :=
  (Reachable_Aux s hs).wordIn

theorem C20_witness : demoGuessed.word ∈ demoGuessed.dictMap :=
  C20_secret_stays_candidate demoGuessed demoGuessed_reachable

/-! ## The board in a session without scripted guesses -/

theorem modify_eq_self {α : Type} (f : α → α) (i : Nat) (l : List α)
    (h : ∀ x, l[i]? = some x → f x = x) : List.modify f i l = l := by
  apply List.ext_getElem?
  intro m
  rw [List.getElem?_modify]
  cases hm : l[m]? with
  | none => rfl
  | some x =>
    by_cases e : i = m
    · subst e
      simp [h x hm]
    · simp [e]

theorem evaluate_entryWord (s : AntiwordGame) (G : List Nat) (h : Core s) :
    (evaluate s G).entryWord = s.entryWord + 1 := by
  rw [evaluate_eq]
  simp [afterBind_entryWord s G h]

theorem evaluate_length (s : AntiwordGame) (G : List Nat) (h : Core s) :
    (evaluate s G).playtrix.length = s.playtrix.length + 1 := by
  rw [evaluate_eq]
  simp [afterBind_length s G h]

theorem PInv_freshState (awg : AntiwordGame) (w : List Nat) : PInv (freshState awg w) := by
  have hcell : ∀ j c, cell? (freshState awg w) (freshState awg w).entryWord j = some c →
      c.letter = 0 := by
    intro j c hc
    unfold cell? freshState at hc
    simp only [List.getElem?_cons_zero] at hc
    rw [emptyRow_cell j c hc]
  refine ⟨rfl, fun j c _ hc => hcell j c hc, fun j c hc hne => absurd (hcell j c hc) hne⟩

theorem PInv_evaluate (s : AntiwordGame) (G : List Nat) (hi : Inv s) (h : PInv s) :
    PInv (evaluate s G) := by
  have hc := hi.core
  have e1 := evaluate_entryWord s G hc
  have e2 := evaluate_length s G hc
  have hcell : ∀ j c, cell? (evaluate s G) (evaluate s G).entryWord j = some c →
      c.letter = 0 := by
    intro j c hcl
    rw [cell?_evaluate s G hc, e1, if_neg (by have := h.last; omega),
      if_pos (by have := h.last; omega)] at hcl
    rw [emptyRow_cell j c hcl]
  refine ⟨?_, fun j c _ hcl => hcell j c hcl, fun j c hcl hne => absurd (hcell j c hcl) hne⟩
  rw [e1, e2, h.last]

theorem setLetter_length (s t : AntiwordGame) (r0 j0 v : Nat)
    (ht : setLetter s r0 j0 v = some t) : t.playtrix.length = s.playtrix.length := by
  rw [setLetter_some s t r0 j0 v ht]
  simp

theorem PInv_Update (s t : AntiwordGame) (c : Click) (hi : Inv s) (h : PInv s)
    (ht : Update s c = some t) : PInv t := by
  unfold Update at ht
  rw [growTo_eq s hi.core.cur] at ht
  cases c with
  | enter =>
    obtain ⟨row, hrow⟩ : ∃ row, s.playtrix[s.entryWord]? = some row :=
      ⟨_, List.getElem?_eq_getElem hi.core.cur⟩
    simp only at ht
    rw [EnterPressed_eq s row hrow] at ht
    cases hG : readRow row with
    | none => simp only [hG, Option.some.injEq] at ht; subst ht; exact h
    | some G =>
      simp only [hG, Option.some.injEq] at ht
      split_ifs at ht
      · subst ht; exact h
      · subst ht; exact h
      · subst ht; exact PInv_evaluate s G hi h
  | key y =>
    simp only at ht
    split_ifs at ht with h1 h2 h3
    · have e := setLetter_some _ t _ _ _ ht
      have hcl := cell?_setLetter _ t _ _ _ ht
      have ew : t.entryWord = s.entryWord := by rw [e]
      have el : t.entryLetter = s.entryLetter - 1 := by rw [e]
      have ek : t.keys = s.keys := by rw [e]
      have ee : t.enforcementMap = s.enforcementMap := by rw [e]
      refine ⟨?_, ?_, ?_⟩
      · rw [setLetter_length _ t _ _ _ ht, ew]; exact h.last
      · intro j c hj hc
        rw [ew, hcl] at hc
        by_cases hj0 : j = s.entryLetter - 1
        · rw [if_pos ⟨rfl, hj0⟩] at hc
          cases hx : cell? s s.entryWord j with
          | none =>
            have hx2 : cell? { s with entryLetter := s.entryLetter - 1 } s.entryWord j = none := hx
            rw [hx2] at hc; simp at hc
          | some x =>
            have hx2 : cell? { s with entryLetter := s.entryLetter - 1 } s.entryWord j
                = some x := hx
            rw [hx2] at hc
            simp only [Option.map_some', Option.some.injEq] at hc
            rw [← hc]
        · rw [if_neg (by intro hh; exact hj0 hh.2)] at hc
          exact h.blank j c (by rw [el] at hj; omega) hc
      · intro j c hc hne
        rw [ew, hcl] at hc
        rw [ek, ee]
        by_cases hj0 : j = s.entryLetter - 1
        · rw [if_pos ⟨rfl, hj0⟩] at hc
          cases hx : cell? s s.entryWord j with
          | none =>
            have hx2 : cell? { s with entryLetter := s.entryLetter - 1 } s.entryWord j = none := hx
            rw [hx2] at hc; simp at hc
          | some x =>
            have hx2 : cell? { s with entryLetter := s.entryLetter - 1 } s.entryWord j
                = some x := hx
            rw [hx2] at hc
            simp only [Option.map_some', Option.some.injEq] at hc
            rw [← hc] at hne
            exact absurd rfl hne
        · rw [if_neg (by intro hh; exact hj0 hh.2)] at hc
          exact h.legal j c hc hne
    · have e := setLetter_some _ t _ _ _ ht
      have hcl := cell?_setLetter _ t _ _ _ ht
      have ew : t.entryWord = s.entryWord := by rw [e]
      have el : t.entryLetter = s.entryLetter := by rw [e]
      have ek : t.keys = s.keys := by rw [e]
      have ee : t.enforcementMap = s.enforcementMap := by rw [e]
      refine ⟨?_, ?_, ?_⟩
      · rw [setLetter_length _ t _ _ _ ht, ew]; exact h.last
      · intro j c hj hc
        rw [ew, hcl] at hc
        by_cases hj0 : j = s.entryLetter
        · rw [if_pos ⟨rfl, hj0⟩] at hc
          cases hx : cell? s s.entryWord j with
          | none => rw [hx] at hc; simp at hc
          | some x =>
            rw [hx] at hc
            simp only [Option.map_some', Option.some.injEq] at hc
            rw [← hc]
        · rw [if_neg (by intro hh; exact hj0 hh.2)] at hc
          exact h.blank j c (by rw [el] at hj; exact hj) hc
      · intro j c hc hne
        rw [ew, hcl] at hc
        rw [ek, ee]
        by_cases hj0 : j = s.entryLetter
        · rw [if_pos ⟨rfl, hj0⟩] at hc
          cases hx : cell? s s.entryWord j with
          | none => rw [hx] at hc; simp at hc
          | some x =>
            rw [hx] at hc
            simp only [Option.map_some', Option.some.injEq] at hc
            rw [← hc] at hne
            exact absurd rfl hne
        · rw [if_neg (by intro hh; exact hj0 hh.2)] at hc
          exact h.legal j c hc hne
    · cases h4 : setLetter s s.entryWord s.entryLetter y with
      | none => simp [h4] at ht
      | some b =>
        simp only [h4, Option.some.injEq] at ht
        subst ht
        have e := setLetter_some s b _ _ _ h4
        have hcl := cell?_setLetter s b _ _ _ h4
        have ew : b.entryWord = s.entryWord := by rw [e]
        have el : b.entryLetter = s.entryLetter := by rw [e]
        have ek : b.keys = s.keys := by rw [e]
        have ee : b.enforcementMap = s.enforcementMap := by rw [e]
        refine ⟨?_, ?_, ?_⟩
        · show b.playtrix.length = b.entryWord + 1
          rw [setLetter_length s b _ _ _ h4, ew]; exact h.last
        · intro j c hj hc
          have hj2 : s.entryLetter + 1 ≤ j := by
            have : b.entryLetter + 1 ≤ j := hj
            omega
          have hc2 : cell? b s.entryWord j = some c := by rw [← ew]; exact hc
          rw [hcl, if_neg (by intro hh; omega)] at hc2
          exact h.blank j c (by omega) hc2
        · intro j c hc hne
          have hc2 : cell? b s.entryWord j = some c := by rw [← ew]; exact hc
          show b.enforcementMap j c.letter = true ∧ b.keys c.letter ≠ 3
          rw [ek, ee]
          rw [hcl] at hc2
          by_cases hj0 : j = s.entryLetter
          · rw [if_pos ⟨rfl, hj0⟩] at hc2
            cases hx : cell? s s.entryWord j with
            | none => rw [hx] at hc2; simp at hc2
            | some x =>
              rw [hx] at hc2
              simp only [Option.map_some', Option.some.injEq] at hc2
              rw [← hc2, hj0]
              exact ⟨h3.2.2, h3.2.1⟩
          · rw [if_neg (by intro hh; exact hj0 hh.2)] at hc2
            exact h.legal j c hc2 hne
    · simp only [Option.some.injEq] at ht
      subst ht; exact h

theorem Played_PInv (s : AntiwordGame) (h : Played s) : PInv s := by
  induction h with
  | reset awg wordIdx s h1 h2 =>
    unfold Reset at h2
    cases h3 : awg.dict[wordIdx]? with
    | none => simp [h3] at h2
    | some w =>
      simp only [Option.isNone_none, if_true, h3, Option.some.injEq] at h2
      subst h2; exact PInv_freshState awg w
  | click s c t h1 h2 ih =>
    exact PInv_Update s t c (Reachable_Inv s (Played_Reachable s h1)) ih h2

/-! ## After the winning guess -/

theorem full_row_entryLetter (s : AntiwordGame) (hi : Inv s) (hp : PInv s)
    (row : List ColorfulLetter) (G : List Nat) (hrow : s.playtrix[s.entryWord]? = some row)
    (hG : readRow row = some G) : s.entryLetter = 5 := by
  have hcol := hi.core.col
  by_contra hne
  have h5 : row.length = 5 := hi.core.rows5 row (List.mem_iff_getElem?.mpr ⟨_, hrow⟩)
  have h4 : row[4]? = some (row.get ⟨4, by omega⟩) := List.getElem?_eq_getElem (by omega)
  have hz := hp.blank 4 _ (by omega) (by rw [cell?_row s _ row hrow]; exact h4)
  exact (readRow_some row G hG).2 _ (List.mem_iff_getElem?.mpr ⟨4, h4⟩) hz

theorem Update_won (s : AntiwordGame) (hi : Inv s) (hp : PInv s)
    (row : List ColorfulLetter) (hrow : s.playtrix[s.entryWord]? = some row)
    (hw : readRow row = some s.word) (c : Click) (hc : c ≠ Click.key 91) :
    Update s c = some s := by
  unfold Update
  rw [growTo_eq s hi.core.cur]
  cases c with
  | enter =>
    simp only
    rw [EnterPressed_eq s row hrow]
    simp only [hw, if_true]
  | key y =>
    have hy : ¬ y = 90 + 1 := by
      intro e
      apply hc
      rw [e]
    have h5 := full_row_entryLetter s hi hp row s.word hrow hw
    simp only [hy, if_false, h5, Nat.lt_irrefl, false_and]

/-- Two sessions with dictionary CRANE, REACT and secret CRANE.  In the first CRANE is typed
and submitted, then Backspace and the key S turn the row into CRANS.  In the second CRANE is
replayed by Reset as a scripted guess, and the key S then turns the row into SRANE. -/
theorem C5_counterexample :
    (∃ s0 s b t, Reset (newGame [crane, react]) none 0 = some s0 ∧
      runClicks s0 (typeWord CRANE ++ [Click.enter]) = some s ∧
      (s.playtrix[s.entryWord]?).bind readRow = some s.word ∧
      Update s (Click.key 91) = some b ∧ Update b (Click.key 83) = some t ∧
      boardLetters s = [[67, 82, 65, 78, 69]] ∧ boardLetters t = [[67, 82, 65, 78, 83]]) ∧
    (∃ s t, Reset (newGame [crane, react]) (some [crane]) 0 = some s ∧
      (s.playtrix[s.entryWord]?).bind readRow = some s.word ∧
      Update s (Click.key 83) = some t ∧
      boardLetters s = [[67, 82, 65, 78, 69]] ∧ boardLetters t = [[83, 82, 65, 78, 69]]) := by
  have h1 : ((Reset (newGame [crane, react]) none 0).bind (fun s0 =>
      (runClicks s0 (typeWord CRANE ++ [Click.enter])).bind (fun s =>
        (Update s (Click.key 91)).bind (fun b =>
          (Update b (Click.key 83)).bind (fun t =>
            some ((s.playtrix[s.entryWord]?).bind readRow == some s.word,
              boardLetters s, boardLetters t))))))
      = some (true, [[67, 82, 65, 78, 69]], [[67, 82, 65, 78, 83]]) := by
    decide!
  have h2 : ((Reset (newGame [crane, react]) (some [crane]) 0).bind (fun s =>
      (Update s (Click.key 83)).bind (fun t =>
        some ((s.playtrix[s.entryWord]?).bind readRow == some s.word,
          boardLetters s, boardLetters t))))
      = some (true, [[67, 82, 65, 78, 69]], [[83, 82, 65, 78, 69]]) := by
    decide!
  constructor
  · obtain ⟨s0, a0, h1⟩ := Option.bind_eq_some.mp h1
    obtain ⟨s, a1, h1⟩ := Option.bind_eq_some.mp h1
    obtain ⟨b, a2, h1⟩ := Option.bind_eq_some.mp h1
    obtain ⟨t, a3, h1⟩ := Option.bind_eq_some.mp h1
    simp only [Option.some.injEq, Prod.mk.injEq, beq_iff_eq] at h1
    exact ⟨s0, s, b, t, a0, a1, h1.1, a2, a3, h1.2.1, h1.2.2⟩
  · obtain ⟨s, a1, h2⟩ := Option.bind_eq_some.mp h2
    obtain ⟨t, a2, h2⟩ := Option.bind_eq_some.mp h2
    simp only [Option.some.injEq, Prod.mk.injEq, beq_iff_eq] at h2
    exact ⟨s, t, a1, h2.1, a2, h2.2.1, h2.2.2⟩

/-- C5 (amended): in a session started by Reset without scripted guesses, once the entry row
holds the secret word (so that a Submit is the winning one), every run of Submit and
EnterLetter events that contains no Backspace returns the session state unchanged. -/
theorem C5_won_state_is_kept (s : AntiwordGame) (hs : Played s)
    (row : List ColorfulLetter) (hrow : s.playtrix[s.entryWord]? = some row)
    (hw : readRow row = some s.word) (clicks : List Click)
    (hno : ∀ c ∈ clicks, c ≠ Click.key 91) : runClicks s clicks = some s := by
  have hi := Reachable_Inv s (Played_Reachable s hs)
  have hp := Played_PInv s hs
  induction clicks with
  | nil => rfl
  | cons c clicks ih =>
    simp only [runClicks, Update_won s hi hp row hrow hw c (hno c (List.mem_cons_self _ _))]
    exact ih (fun c2 h2 => hno c2 (List.mem_cons_of_mem _ h2))

theorem C5_witness :
    runClicks demoWon [Click.enter, Click.key 65, Click.enter, Click.key 83] = some demoWon :=
  C5_won_state_is_kept demoWon demoWon_played _ rfl rfl _ (by decide)

/-! ## Backspace -/

/-- With dictionary CRANE, REACT, Reset replays the scripted guess CRANE, the secret word:
the entry column is 0 and the row is full, and a Backspace clears the C. -/
theorem C13_counterexample :
    ∃ s t, Reset (newGame [crane, react]) (some [crane]) 0 = some s ∧ s.entryLetter = 0 ∧
      Update s (Click.key 91) = some t ∧
      boardLetters s = [[67, 82, 65, 78, 69]] ∧ boardLetters t = [[0, 82, 65, 78, 69]] := by
  have h : ((Reset (newGame [crane, react]) (some [crane]) 0).bind (fun s =>
      (Update s (Click.key 91)).bind (fun t =>
        some (s.entryLetter, boardLetters s, boardLetters t))))
      = some (0, [[67, 82, 65, 78, 69]], [[0, 82, 65, 78, 69]]) := by
    decide!
  obtain ⟨s, a1, h⟩ := Option.bind_eq_some.mp h
  obtain ⟨t, a2, h⟩ := Option.bind_eq_some.mp h
  simp only [Option.some.injEq, Prod.mk.injEq] at h
  exact ⟨s, t, a1, h.1, a2, h.2.1, h.2.2⟩

/-- C13 (amended): in every reachable state a Backspace at an entry column greater than 0
decrements the column and clears the letter of exactly that cell of the entry row; in a
session started by Reset without scripted guesses, a Backspace at entry column 0 returns
the state unchanged. -/
theorem C13_backspace (s : AntiwordGame) (hs : Reachable s) :
    (Played s → s.entryLetter = 0 → Update s (Click.key 91) = some s) ∧
      (0 < s.entryLetter → Update s (Click.key 91) = some { s with entryLetter := s.entryLetter - 1, playtrix := List.modify (List.modify (fun c => { c with letter := 0 }) (s.entryLetter - 1)) s.entryWord s.playtrix }) := by
  have hi := Reachable_Inv s hs
  refine ⟨?_, ?_⟩
  · intro hp h0
    have hb := (Played_PInv s hp).blank
    unfold Update
    rw [growTo_eq s hi.core.cur]
    have hn : ¬ s.entryLetter > 0 := by omega
    simp only [if_true, hn, if_false]
    obtain ⟨t, ht⟩ := setLetter_total s hi.core.rows5 s.entryWord s.entryLetter 0 hi.core.cur
      (by omega)
    rw [ht, setLetter_some s t _ _ _ ht]
    have e : List.modify (List.modify (fun c => ({ c with letter := 0 } : ColorfulLetter))
        s.entryLetter) s.entryWord s.playtrix = s.playtrix := by
      apply modify_eq_self
      intro row hrow
      apply modify_eq_self
      intro x hx
      have hz := hb s.entryLetter x (le_refl _) (by rw [cell?_row s _ row hrow]; exact hx)
      cases x with
      | mk a b =>
        simp only at hz
        subst hz; rfl
    rw [e]
  · intro hpos
    unfold Update
    rw [growTo_eq s hi.core.cur]
    have hp : s.entryLetter > 0 := hpos
    simp only [if_true, hp]
    obtain ⟨t, ht⟩ := setLetter_total { s with entryLetter := s.entryLetter - 1 } hi.core.rows5
      s.entryWord (s.entryLetter - 1) 0 hi.core.cur (by have := hi.core.col; omega)
    have e := setLetter_some _ t _ _ _ ht
    rw [e] at ht
    exact ht

theorem C13_witness :
    Update (demoState emptyRow 0) (Click.key 91) = some (demoState emptyRow 0) ∧
      Update demoWon (Click.key 91) = some { demoWon with entryLetter := demoWon.entryLetter - 1, playtrix := List.modify (List.modify (fun c => { c with letter := 0 }) (demoWon.entryLetter - 1)) demoWon.entryWord demoWon.playtrix } :=
  ⟨(C13_backspace (demoState emptyRow 0)
      (Reachable.reset _ none 0 _ (Nat.zero_le 5) demo_reset)).1
      (Played.reset _ 0 _ (Nat.zero_le 5) demo_reset) rfl,
    (C13_backspace demoWon (Played_Reachable _ demoWon_played)).2 (by decide)⟩

/-! ## Dictionary words that left the candidate dictionary -/

theorem evaluate_dict (s : AntiwordGame) (G : List Nat) (h : Core s) :
    (evaluate s G).dict = s.dict := afterBind_dict s G h

theorem evaluate_word (s : AntiwordGame) (G : List Nat) (h : Core s) :
    (evaluate s G).word = s.word := afterBind_word s G h

theorem evaluate_enf_typed (s : AntiwordGame) (h : Inv s) (G : List Nat) (k x : Nat)
    (hleg : ∀ (j y : Nat), G[j]? = some y → s.enforcementMap j y = true)
    (hnot : s.enforcementMap k x = false) : (evaluate s G).enforcementMap k x = false := by
  have hc := h.core
  have e : (evaluate s G).enforcementMap k x = (afterBind s G).enforcementMap k x := rfl
  rw [e]
  by_cases hex : exactAt s.word G k
  · rw [afterBind_enf_hit s G hc k x hex]
    by_contra h1
    have h2 : G[k]? = some x := by simpa using h1
    have := hleg k x h2
    rw [hnot] at this
    exact Bool.noConfusion this
  · by_cases h2 : G[k]? = some x
    · exact afterBind_enf_forbid s G hc k x hex h2
    · rw [afterBind_enf_other s G hc k x hex h2]
      exact hnot

theorem exists_not_exact (S G : List Nat) (hS : S.length = 5) (hG : G.length = 5)
    (hne : G ≠ S) : ∃ j x, G[j]? = some x ∧ ¬ exactAt S G j := by
  by_contra hall
  apply hne
  apply List.ext_getElem?
  intro j
  by_cases hj : j < 5
  · have hx : G[j]? = some (G.get ⟨j, by omega⟩) := List.getElem?_eq_getElem (by omega)
    by_contra hd
    apply hall
    refine ⟨j, _, hx, ?_⟩
    rintro ⟨c, h1, h2⟩
    rw [h1, h2] at hd
    exact hd rfl
  · rw [List.getElem?_eq_none (by omega), List.getElem?_eq_none (by omega)]

theorem evaluate_keys_absent (s : AntiwordGame) (G : List Nat) (hi : Inv s) (ha : Aux s)
    (x : Nat) (hx : x ∈ G) (hnot : x ∉ s.word) : (evaluate s G).keys x = 3 := by
  have hc := hi.core
  have hb := afterBind_inv s G hc
  obtain ⟨j, hj⟩ := List.mem_iff_getElem?.mp hx
  have hjl : j < G.length := (List.getElem?_eq_some.mp hj).1
  have hnex : ¬ exactAt s.word G j := by
    rintro ⟨c, h1, h2⟩
    rw [hj] at h1
    cases h1
    exact hnot (List.mem_iff_getElem?.mpr ⟨j, h2⟩)
  have h0 : (afterBind s G).keys x ≠ 0 :=
    hb.keys_seen x j hjl ((skip_false_iff s G hc j).mpr hnex) hj
  have e : (evaluate s G).keys x = (afterBind s G).keys x := rfl
  have hr := (Core_evaluate s G hc).krange x
  have hk := K12_evaluate s G ha.k12 x
  have hw : (evaluate s G).wordMap x = [] := by
    rw [wordMap_eq_nil_iff _ (Core_evaluate s G hc), evaluate_word s G hc]
    exact hnot
  rw [e] at hr hk
  rw [e]
  by_contra h3
  exact hk (by omega) hw

theorem Gone_congr (s t : AntiwordGame) (h : Gone s) (hk : t.keys = s.keys)
    (he : t.enforcementMap = s.enforcementMap) (hw : t.word = s.word)
    (hd : t.dictMap = s.dictMap) (hdd : t.dict = s.dict) : Gone t := by
  intro h5 w hw2
  rw [hw] at h5
  rw [hdd] at hw2
  rcases h h5 w hw2 with h1 | h1 | ⟨j, x, h1, h2⟩
  · left; rw [hd]; exact h1
  · right; left; rw [hw]; exact h1
  · right; right
    exact ⟨j, x, h1, by rw [he, hk]; exact h2⟩

theorem Gone_evaluate (s : AntiwordGame) (G : List Nat) (row : List ColorfulLetter)
    (hi : Inv s) (ha : Aux s) (hp : PInv s) (hg : Gone s)
    (hrow : s.playtrix[s.entryWord]? = some row) (hG : readRow row = some G)
    (hne : G ≠ s.word) : Gone (evaluate s G) := by
  have hc := hi.core
  obtain ⟨hG5, hcells⟩ := row_holds s hi row G hrow hG
  have hnz : ∀ (j y : Nat), G[j]? = some y → y ≠ 0 := by
    intro j y hy
    obtain ⟨h1, h2⟩ := readRow_some row G hG
    rw [h1, List.getElem?_map] at hy
    cases hr : row[j]? with
    | none => simp [hr] at hy
    | some c =>
      simp only [hr, Option.map_some', Option.some.injEq] at hy
      rw [← hy]
      exact h2 c (List.mem_iff_getElem?.mpr ⟨j, hr⟩)
  have hleg : ∀ (j y : Nat), G[j]? = some y → s.enforcementMap j y = true := by
    intro j y hy
    exact (hp.legal j ⟨y, 0⟩ (hcells j y hy) (hnz j y hy)).1
  intro h5 w hw
  rw [evaluate_word s G hc] at h5 ⊢
  rw [evaluate_dict s G hc] at hw
  have keep : Blocked s w → Blocked (evaluate s G) w := by
    rintro ⟨j, x, h1, h2⟩
    refine ⟨j, x, h1, ?_⟩
    rcases h2 with h2 | h2
    · left; exact evaluate_enf_typed s hi G j x hleg h2
    · right; exact evaluate_keys3 s G hi x h2
  rcases hg h5 w hw with h1 | h1 | h1
  · by_cases hwG : w = G
    · right; right
      subst hwG
      obtain ⟨j, x, hx, hnex⟩ := exists_not_exact s.word w h5 hG5 hne
      exact ⟨j, x, hx, Or.inl (afterBind_enf_forbid s w hc j x hnex hx)⟩
    · by_cases hpr : ∃ x, x ∈ w ∧ x ∈ G ∧ x ∉ s.word
      · right; right
        obtain ⟨x, hxw, hxG, hxS⟩ := hpr
        obtain ⟨j, hj⟩ := List.mem_iff_getElem?.mp hxw
        exact ⟨j, x, hj, Or.inr (evaluate_keys_absent s G hi ha x hxG hxS)⟩
      · left
        rw [mem_evaluate_dictMap s hc G w]
        exact ⟨h1, hwG, hpr⟩
  · right; left; exact h1
  · right; right; exact keep h1

theorem Gone_Update (s t : AntiwordGame) (c : Click) (hi : Inv s) (ha : Aux s) (hp : PInv s)
    (hg : Gone s) (ht : Update s c = some t) : Gone t := by
  unfold Update at ht
  rw [growTo_eq s hi.core.cur] at ht
  cases c with
  | enter =>
    obtain ⟨row, hrow⟩ : ∃ row, s.playtrix[s.entryWord]? = some row :=
      ⟨_, List.getElem?_eq_getElem hi.core.cur⟩
    simp only at ht
    rw [EnterPressed_eq s row hrow] at ht
    cases hG : readRow row with
    | none => simp only [hG, Option.some.injEq] at ht; subst ht; exact hg
    | some G =>
      simp only [hG, Option.some.injEq] at ht
      split_ifs at ht with h1 h2
      · subst ht; exact hg
      · subst ht; exact hg
      · subst ht; exact Gone_evaluate s G row hi ha hp hg hrow hG h1
  | key y =>
    simp only at ht
    split_ifs at ht with h1 h2 h3
    · have e := setLetter_some _ t _ _ _ ht
      exact Gone_congr s t hg (by rw [e]) (by rw [e]) (by rw [e]) (by rw [e]) (by rw [e])
    · have e := setLetter_some _ t _ _ _ ht
      exact Gone_congr s t hg (by rw [e]) (by rw [e]) (by rw [e]) (by rw [e]) (by rw [e])
    · cases h4 : setLetter s s.entryWord s.entryLetter y with
      | none => simp [h4] at ht
      | some b =>
        simp only [h4, Option.some.injEq] at ht
        subst ht
        have e := setLetter_some s b _ _ _ h4
        exact Gone_congr s _ hg (by rw [e]) (by rw [e]) (by rw [e]) (by rw [e]) (by rw [e])
    · simp only [Option.some.injEq] at ht
      subst ht; exact hg

theorem Played_Gone (s : AntiwordGame) (h : Played s) : Gone s := by
  induction h with
  | reset awg wordIdx s h1 h2 =>
    unfold Reset at h2
    cases h3 : awg.dict[wordIdx]? with
    | none => simp [h3] at h2
    | some w =>
      simp only [Option.isNone_none, if_true, h3, Option.some.injEq] at h2
      subst h2
      intro _ v hv
      left
      show v ∈ loadDictMap awg.dict
      rw [mem_loadDictMap]
      exact hv
  | click s c t h1 h2 ih =>
    have hr := Played_Reachable s h1
    exact Gone_Update s t c (Reachable_Inv s hr) (Reachable_Aux s hr) (Played_PInv s h1) ih h2

/-- With dictionary CRANE, REACT, Reset replays the scripted guesses REACT, REACT: the first
is evaluated and removed from the candidate dictionary, the second fills the entry row and
is rejected as unrecognised although REACT is a dictionary entry. -/
theorem C8_counterexample :
    ∃ s row, Reset (newGame [crane, react]) (some [react, react]) 0 = some s ∧
      s.playtrix[s.entryWord]? = some row ∧ readRow row = some REACT ∧
      REACT ∈ s.dict.map toUpper ∧ REACT ≠ s.word ∧ REACT ∉ s.dictMap ∧
      EnterPressed s = some s := by
  have h : ((Reset (newGame [crane, react]) (some [react, react]) 0).bind (fun s =>
      (s.playtrix[s.entryWord]?).bind (fun row =>
        some (readRow row, (s.dict.map toUpper).contains REACT, s.word, s.dictMap))))
      = some (some REACT, true, CRANE, [CRANE]) := by
    decide!
  obtain ⟨s, a1, h⟩ := Option.bind_eq_some.mp h
  obtain ⟨row, a2, h⟩ := Option.bind_eq_some.mp h
  simp only [Option.some.injEq, Prod.mk.injEq] at h
  obtain ⟨h1, h2, h3, h4⟩ := h
  have hne : REACT ≠ s.word := by rw [h3]; decide
  have hnm : REACT ∉ s.dictMap := by rw [h4]; decide
  refine ⟨s, row, a1, a2, h1, by simpa using h2, hne, hnm, ?_⟩
  rw [EnterPressed_eq s row a2]
  have hc : s.dictMap.contains REACT = false := by rw [h4]; decide
  simp only [h1, if_neg hne, hc, if_true]

/-- C8 (amended): the recognised-word check consults the shrinking candidate dictionary;
still, in a session started by Reset without scripted guesses whose secret word has five
letters, a full row whose word is an uppercased dictionary entry is never rejected as
unrecognised: the word is the secret word or still a candidate (a word that has left the
candidate dictionary can no longer be typed in full), and the Submit wins or evaluates
the row. -/
theorem C8_typed_dictionary_word_is_recognised (s : AntiwordGame) (hs : Played s)
    (h5 : s.word.length = 5) (row : List ColorfulLetter) (w : List Nat)
    (hrow : s.playtrix[s.entryWord]? = some row) (hw : readRow row = some w)
    (hd : w ∈ s.dict.map toUpper) :
    (w = s.word ∨ w ∈ s.dictMap) ∧
      EnterPressed s = some (if w = s.word then s else evaluate s w) := by
  have hr := Played_Reachable s hs
  have hi := Reachable_Inv s hr
  have hp := Played_PInv s hs
  have key : w = s.word ∨ w ∈ s.dictMap := by
    rcases Played_Gone s hs h5 w hd with h1 | h1 | ⟨j, x, hx, hb⟩
    · exact Or.inr h1
    · exact Or.inl h1
    · exfalso
      obtain ⟨_, hcells⟩ := row_holds s hi row w hrow hw
      have hnz : x ≠ 0 := by
        obtain ⟨h1, h2⟩ := readRow_some row w hw
        rw [h1, List.getElem?_map] at hx
        cases hr : row[j]? with
        | none => simp [hr] at hx
        | some c =>
          simp only [hr, Option.map_some', Option.some.injEq] at hx
          rw [← hx]
          exact h2 c (List.mem_iff_getElem?.mpr ⟨j, hr⟩)
      have hl := hp.legal j ⟨x, 0⟩ (hcells j x hx) hnz
      rcases hb with hb | hb
      · rw [hb] at hl
        exact Bool.noConfusion hl.1
      · exact hl.2 hb
  refine ⟨key, ?_⟩
  rw [EnterPressed_eq s row hrow]
  simp only [hw]
  by_cases e : w = s.word
  · simp only [e, if_true]
  · have hm : w ∈ s.dictMap := key.resolve_left e
    have hc : ¬ s.dictMap.contains w = false := by simp [hm]
    simp only [if_neg e, if_neg hc]

theorem demoTyped_played : Played demoTyped :=
  Played.click _ _ _ (Played.click _ _ _ (Played.click _ _ _ (Played.click _ _ _
    (Played.click _ _ _ (Played.reset _ _ _ (Nat.zero_le 5) demo_reset)
      demo_key1) demo_key2) demo_key3) demo_key4) demo_key5

theorem C8_witness :
    (REACT = demoTyped.word ∨ REACT ∈ demoTyped.dictMap) ∧
      EnterPressed demoTyped
        = some (if REACT = demoTyped.word then demoTyped else evaluate demoTyped REACT) :=
  C8_typed_dictionary_word_is_recognised demoTyped demoTyped_played rfl
    [⟨82, 0⟩, ⟨69, 0⟩, ⟨65, 0⟩, ⟨67, 0⟩, ⟨84, 0⟩] REACT rfl rfl (by decide)

/-! ## The occurrence records after the exact-match loop -/

theorem positionsFrom_nodup (l : Nat) (cs : List Nat) (i : Nat) :
    (positionsFrom l i cs).Nodup := by
  induction cs generalizing i with
  | nil => simp [positionsFrom]
  | cons c cs ih =>
    simp only [positionsFrom]
    split_ifs with h
    · rw [List.nodup_cons]
      refine ⟨?_, ih (i + 1)⟩
      intro hm
      have := ((mem_positionsFrom l cs (i + 1) i).mp hm).1
      omega
    · exact ih (i + 1)

theorem claimLoop_eq_map (p : Nat) (rs : List PositionAndClaim)
    (h : (rs.map (fun r => r.pos)).Nodup) :
    (claimLoop p rs).1 = rs.map (fun r => if r.pos = p then { r with claim := true } else r) := by
  induction rs with
  | nil => simp [claimLoop]
  | cons r rs ih =>
    simp only [List.map_cons, List.nodup_cons] at h
    obtain ⟨h1, h2⟩ := h
    by_cases hp : r.pos = p
    · simp only [claimLoop, hp, if_true, List.map_cons]
      congr 1
      symm
      calc rs.map (fun r => if r.pos = p then { r with claim := true } else r)
          = rs.map id := by
            apply List.map_congr_left
            intro x hx
            have hx2 : x.pos ≠ p := by
              intro e
              apply h1
              rw [hp, ← e]
              exact List.mem_map_of_mem _ hx
            simp [hx2]
        _ = rs := List.map_id _
    · simp only [claimLoop, hp, if_false, List.map_cons, ih h2]

theorem markExact_pos (G : List Nat) (L i : Nat) (r : PositionAndClaim) :
    (markExact G L i r).pos = r.pos := by
  unfold markExact
  split_ifs <;> rfl

theorem markExact_zero (G : List Nat) (L : Nat) (r : PositionAndClaim) :
    markExact G L 0 r = r := by
  unfold markExact
  simp

theorem markExact_succ (G : List Nat) (L i c : Nat) (hc : G[i]? = some c)
    (r : PositionAndClaim) :
    markExact G L (i + 1) r =
      if L = c ∧ r.pos = i then { markExact G L i r with claim := true }
      else markExact G L i r := by
  unfold markExact
  by_cases h1 : r.pos = i
  · by_cases h2 : L = c
    · subst h2
      simp [h1, hc]
    · have h3 : ¬ G[r.pos]? = some L := by
        rw [h1, hc]
        intro e
        cases e
        exact h2 rfl
      simp [h2, h3]
  · have h2 : r.pos < i + 1 ↔ r.pos < i := by omega
    simp [h1, h2]

theorem greenPass_wordMap (a0 : AntiwordGame) (G : List Nat) (h : Core a0) (L : Nat) :
    (greenPass 0 G (a0, fun _ => false)).1.wordMap L
      = (a0.wordMap L).map (markExact G L G.length) := by
  have key := greenPass_rule0 G
    (fun i st => ∀ L, st.1.wordMap L = (a0.wordMap L).map (markExact G L i))
    (by
      intro i c st hc hq L
      rw [greenStep_wordMap]
      by_cases hL : L = c
      · subst hL
        rw [if_pos rfl, hq L, claimLoop_eq_map, List.map_map]
        · apply List.map_congr_left
          intro r _
          simp only [Function.comp, markExact_succ G L i L hc r, markExact_pos, true_and]
        · rw [List.map_map]
          have e : ((fun r => r.pos) ∘ markExact G L i) = (fun r : PositionAndClaim => r.pos) := by
            funext r
            exact markExact_pos G L i r
          rw [e, h.wfm L]
          exact positionsFrom_nodup L _ 0
      · rw [if_neg hL, hq L]
        apply List.map_congr_left
        intro r _
        rw [markExact_succ G L i c hc r, if_neg (by intro hh; exact hL hh.1)])
    (a0, fun _ => false)
    (by
      intro L
      show a0.wordMap L = _
      have e : markExact G L 0 = id := by
        funext r
        exact markExact_zero G L r
      rw [e, List.map_id])
  exact key L

theorem afterGreen_wordMap (s : AntiwordGame) (G : List Nat) (h : Core s) (L : Nat) :
    (afterGreen s G).1.wordMap L = (s.wordMap L).map (markExact G L G.length) :=
  greenPass_wordMap _ G (Core_filter s h _) L

/-! ## The second loop keeps positions and claims -/

theorem bindLoop_pc (rs : List PositionAndClaim) :
    (bindLoop rs).1.map (fun r => (r.pos, r.claim)) = rs.map (fun r => (r.pos, r.claim)) := by
  induction rs with
  | nil => simp [bindLoop]
  | cons r rs ih =>
    by_cases h1 : r.claim = false <;> by_cases h2 : r.bound = false <;>
      simp [bindLoop, h1, h2, ih]

theorem bindPass_pc (skip : Nat → Bool) (G : List Nat) (a1 : AntiwordGame) (L : Nat) :
    ((bindPass skip 0 G a1).wordMap L).map (fun r => (r.pos, r.claim))
      = (a1.wordMap L).map (fun r => (r.pos, r.claim)) := by
  have key := bindPass_rule0 skip G
    (fun _ awg => ∀ L, (awg.wordMap L).map (fun r => (r.pos, r.claim))
      = (a1.wordMap L).map (fun r => (r.pos, r.claim)))
    (by
      intro i c awg _ hq L
      rw [bindStep_wordMap]
      split_ifs with h
      · rw [bindLoop_pc, ← h.2]; exact hq L
      · exact hq L)
    a1 (fun _ => rfl)
  exact key L

theorem evaluate_claimed (s : AntiwordGame) (G : List Nat) (h : Core s) (L : Nat)
    (r : PositionAndClaim) (hr : r ∈ (evaluate s G).wordMap L) (hc : r.claim = true) :
    ∃ r0 ∈ s.wordMap L, r0.pos = r.pos ∧ (r0.claim = true ∨ G[r0.pos]? = some L) := by
  have e : (evaluate s G).wordMap L = (afterBind s G).wordMap L := rfl
  rw [e] at hr
  have h1 : (r.pos, r.claim) ∈ ((afterBind s G).wordMap L).map (fun r => (r.pos, r.claim)) :=
    List.mem_map_of_mem _ hr
  unfold afterBind at h1
  rw [bindPass_pc] at h1
  simp only [ResetBindings, List.map_map] at h1
  rw [afterGreen_wordMap s G h L, List.map_map] at h1
  obtain ⟨r0, h2, h3⟩ := List.mem_map.mp h1
  simp only [Function.comp, Prod.mk.injEq, markExact_pos] at h3
  refine ⟨r0, h2, h3.1, ?_⟩
  have h4 := h3.2
  rw [hc] at h4
  unfold markExact at h4
  split_ifs at h4 with h5
  · exact Or.inr h5.2
  · exact Or.inl h4

/-! ## Induction over the reachable states -/

theorem Reachable_rec (P : AntiwordGame → Prop)
    (hfresh : ∀ awg w, P (freshState awg w))
    (hboard : ∀ s t, P s → t.keys = s.keys → t.wordMap = s.wordMap → t.word = s.word →
      t.dictMap = s.dictMap → t.dict = s.dict → t.enforcementMap = s.enforcementMap →
      t.entryWord = s.entryWord → P t)
    (heval : ∀ s row G, Inv s → P s → s.playtrix[s.entryWord]? = some row →
      readRow row = some G → G ≠ s.word → P (evaluate s G))
    (s : AntiwordGame) (h : Reachable s) : P s := by
  have hEnter : ∀ s t, Inv s → P s → EnterPressed s = some t → P t := by
    intro s t hi hp ht
    obtain ⟨row, hrow⟩ : ∃ row, s.playtrix[s.entryWord]? = some row :=
      ⟨_, List.getElem?_eq_getElem hi.core.cur⟩
    rw [EnterPressed_eq s row hrow] at ht
    cases hG : readRow row with
    | none => simp only [hG, Option.some.injEq] at ht; subst ht; exact hp
    | some G =>
      simp only [hG, Option.some.injEq] at ht
      split_ifs at ht with h1 h2
      · subst ht; exact hp
      · subst ht; exact hp
      · subst ht; exact heval s row G hi hp hrow hG h1
  have hSet : ∀ s t r0 j0 v, P s → setLetter s r0 j0 v = some t → P t := by
    intro s t r0 j0 v hp ht
    have e := setLetter_some s t r0 j0 v ht
    exact hboard s t hp (by rw [e]) (by rw [e]) (by rw [e]) (by rw [e]) (by rw [e])
      (by rw [e]) (by rw [e])
  have hUpd : ∀ s t c, Inv s → P s → Update s c = some t → P t := by
    intro s t c hi hp ht
    unfold Update at ht
    rw [growTo_eq s hi.core.cur] at ht
    cases c with
    | enter => exact hEnter s t hi hp ht
    | key x =>
      simp only at ht
      split_ifs at ht with h1 h2 h3
      · exact hSet { s with entryLetter := s.entryLetter - 1 } t _ _ _
          (hboard s _ hp rfl rfl rfl rfl rfl rfl rfl) ht
      · exact hSet _ t _ _ _ hp ht
      · cases h4 : setLetter s s.entryWord s.entryLetter x with
        | none => simp [h4] at ht
        | some b =>
          simp only [h4, Option.some.injEq] at ht
          subst ht
          exact hboard b _ (hSet s b _ _ _ hp h4) rfl rfl rfl rfl rfl rfl rfl
      · simp only [Option.some.injEq] at ht
        subst ht; exact hp
  have hFill : ∀ (i : Nat) (g js : List Nat) (a b : AntiwordGame), P a →
      fillRow i g js a = some b → P b := by
    intro i g js
    induction js with
    | nil =>
      intro a b hp hb
      simp only [fillRow, Option.some.injEq] at hb
      subst hb; exact hp
    | cons j js ih =>
      intro a b hp hb
      simp only [fillRow] at hb
      cases h1 : g[j]? with
      | none => simp [h1] at hb
      | some c =>
        simp only [h1] at hb
        cases h2 : setLetter a i j c with
        | none => simp [h2] at hb
        | some a2 =>
          simp only [h2] at hb
          exact ih a2 b (hSet a a2 i j c hp h2) hb
  have hReplay : ∀ (gs : List (List Nat)) (i : Nat) (a s : AntiwordGame), Inv a → P a →
      a.entryWord ≤ i → replay i gs a = some s → P s := by
    intro gs
    induction gs with
    | nil =>
      intro i a s _ hp _ hs
      simp only [replay, Option.some.injEq] at hs
      subst hs; exact hp
    | cons g gs ih =>
      intro i a s hi hp hle hs
      simp only [replay] at hs
      cases h1 : fillRow i (toUpper g) (List.range GetWordSize) (growTo a i) with
      | none => simp [h1] at hs
      | some b =>
        simp only [h1] at hs
        cases h2 : EnterPressed b with
        | none => simp [h2] at hs
        | some c =>
          simp only [h2] at hs
          obtain ⟨hb, hbw, _⟩ := fillRow_inv i _ _ (growTo a i) b (Inv_growTo a i hi) hle h1
          have hc := Inv_EnterPressed b c hb h2
          obtain ⟨hcw, _⟩ := EnterPressed_entryWord b c hb h2
          have e : (growTo a i).entryWord = a.entryWord := rfl
          have pb : P b := hFill i _ _ (growTo a i) b (hboard a _ hp rfl rfl rfl rfl rfl rfl rfl) h1
          exact ih (i + 1) c s hc (hEnter b c hb pb h2) (by omega) hs
  induction h with
  | reset awg debug wordIdx s h1 h2 =>
    unfold Reset at h2
    cases debug with
    | none =>
      cases h3 : awg.dict[wordIdx]? with
      | none => simp [h3] at h2
      | some w =>
        simp only [Option.isNone_none, if_true, h3, Option.some.injEq] at h2
        subst h2; exact hfresh awg w
    | some gs =>
      cases h3 : awg.dict[0]? with
      | none => simp [h3] at h2
      | some w =>
        simp only [Option.isNone_some, Bool.false_eq_true, if_false, h3] at h2
        exact hReplay gs 0 _ s (Inv_freshState awg w h1) (hfresh awg w) (Nat.zero_le _) h2
  | click s c t h1 h2 ih => exact hUpd s t c (Reachable_Inv s h1) ih h2

/-! ## Claimed occurrence records -/

theorem record_letter (s : AntiwordGame) (h : Core s) (l : Nat) (r : PositionAndClaim)
    (hr : r ∈ s.wordMap l) : s.word[r.pos]? = some l := by
  have h1 : r.pos ∈ (s.wordMap l).map (fun r => r.pos) := List.mem_map_of_mem _ hr
  rw [h.wfm l] at h1
  have h2 := ((mem_positionsFrom l s.word 0 r.pos).mp h1).2
  simpa using h2

theorem Claims_evaluate (s : AntiwordGame) (G : List Nat) (row : List ColorfulLetter)
    (hi : Inv s) (h : Claims s) (hrow : s.playtrix[s.entryWord]? = some row)
    (hG : readRow row = some G) : Claims (evaluate s G) := by
  have hc := hi.core
  have hG5 := (row_holds s hi row G hrow hG).1
  refine ⟨?_, ?_⟩
  · intro h0
    rw [evaluate_entryWord s G hc] at h0
    omega
  · intro l r hr hcl
    obtain ⟨r0, h1, h2, h3⟩ := evaluate_claimed s G hc l r hr hcl
    have hS := record_letter s hc l r0 h1
    have e : ∀ x, (evaluate s G).enforcementMap r.pos x
        = (afterBind s G).enforcementMap r0.pos x := by
      intro x; rw [← h2]; rfl
    have hsame : ∀ x, G[r0.pos]? = some l →
        (afterBind s G).enforcementMap r0.pos x = true → x = l := by
      intro x hg hx
      rw [afterBind_enf_hit s G hc r0.pos x ⟨l, hg, hS⟩, hg] at hx
      have hx2 : l = x := by simpa using hx
      exact hx2.symm
    rcases h3 with h3 | h3
    · obtain ⟨h4, h5⟩ := h.coll l r0 h1 h3
      refine ⟨by rw [← h2]; exact h4, ?_⟩
      intro x hx
      rw [e] at hx
      by_cases hex : exactAt s.word G r0.pos
      · obtain ⟨c, hc1, hc2⟩ := hex
        rw [hS] at hc2
        cases hc2
        exact hsame x hc1 hx
      · by_cases hgx : G[r0.pos]? = some x
        · rw [afterBind_enf_forbid s G hc r0.pos x hex hgx] at hx
          exact Bool.noConfusion hx
        · rw [afterBind_enf_other s G hc r0.pos x hex hgx] at hx
          exact h5 x hx
    · refine ⟨?_, ?_⟩
      · have := (List.getElem?_eq_some.mp h3).1
        omega
      · intro x hx
        rw [e] at hx
        exact hsame x h3 hx

theorem Reachable_Claims (s : AntiwordGame) (h : Reachable s) : Claims s := by
  apply Reachable_rec Claims ?_ ?_ ?_ s h
  · intro awg w
    have hno : ∀ l r, r ∈ (freshState awg w).wordMap l → r.claim = false := by
      intro l r hr
      simp only [freshState, buildWordMap_apply, List.nil_append, List.mem_map] at hr
      obtain ⟨_, _, h2⟩ := hr
      subst h2; rfl
    refine ⟨fun _ => hno, ?_⟩
    intro l r hr hcl
    rw [hno l r hr] at hcl
    exact Bool.noConfusion hcl
  · intro s t hp hk hm hw hd hdd he hew
    refine ⟨?_, ?_⟩
    · intro h0 l r hr
      rw [hm] at hr
      exact hp.first (by rw [← hew]; exact h0) l r hr
    · intro l r hr hcl
      rw [hm] at hr
      rw [he]
      exact hp.coll l r hr hcl
  · intro s row G hi hp hrow hG _
    exact Claims_evaluate s G row hi hp hrow hG

/-! ## Counting the free occurrence records -/

theorem countP_positionsFrom (L : Nat) (P : Nat → Bool) (cs : List Nat) (i : Nat) :
    (positionsFrom L i cs).countP P
      = (List.range cs.length).countP (fun k => decide (cs[k]? = some L) && P (i + k)) := by
  induction cs generalizing i with
  | nil => simp [positionsFrom]
  | cons c cs ih =>
    rw [List.length_cons, List.range_succ_eq_map, List.countP_cons, List.countP_map]
    have e : ((fun k => decide ((c :: cs)[k]? = some L) && P (i + k)) ∘ Nat.succ)
        = (fun k => decide (cs[k]? = some L) && P (i + 1 + k)) := by
      funext k
      simp only [Function.comp, Nat.succ_eq_add_one, List.getElem?_cons_succ]
      have : i + (k + 1) = i + 1 + k := by omega
      rw [this]
    rw [e, ← ih (i + 1)]
    by_cases h : c = L
    · simp [positionsFrom, h, List.countP_cons]
    · simp [positionsFrom, h]

theorem bindLoop_snd_count (rs : List PositionAndClaim) :
    (bindLoop rs).2 = true ↔ 0 < rs.countP freeRec := by
  rw [bindLoop_snd, List.countP_pos_iff]
  constructor
  · rintro ⟨r, h1, h2, h3⟩
    exact ⟨r, h1, by simp [freeRec, h2, h3]⟩
  · rintro ⟨r, h1, h2⟩
    simp only [freeRec, Bool.and_eq_true, Bool.not_eq_true'] at h2
    exact ⟨r, h1, h2.1, h2.2⟩

theorem free_after_green (s : AntiwordGame) (G : List Nat) (hc : Core s)
    (hce : claimedExact s G) (L : Nat) :
    ((ResetBindings (afterGreen s G).1).wordMap L).countP freeRec = unmatched s.word G L := by
  simp only [ResetBindings]
  rw [afterGreen_wordMap s G hc L, List.map_map, List.countP_map]
  have e1 : (s.wordMap L).countP (freeRec ∘ (fun r => { r with bound := false }) ∘
      markExact G L G.length)
      = (s.wordMap L).countP ((fun p => decide (G[p]? ≠ some L)) ∘ (fun r => r.pos)) := by
    apply List.countP_congr
    intro r hr
    have h1 := hce L r hr
    simp only [Function.comp, freeRec, markExact, Bool.not_false, Bool.and_true]
    by_cases hg : G[r.pos]? = some L
    · have hl : r.pos < G.length := (List.getElem?_eq_some.mp hg).1
      simp [hg, hl]
    · have hcl : r.claim = false := by
        cases h2 : r.claim with
        | false => rfl
        | true => exact absurd (h1 h2) hg
      simp [hg, hcl]
  rw [e1, ← List.countP_map, hc.wfm L, countP_positionsFrom]
  unfold unmatched
  simp only [Nat.zero_add]

theorem earlierMisplaced_succ (S G : List Nat) (L i : Nat) :
    earlierMisplaced S G L (i + 1)
      = earlierMisplaced S G L i + (if G[i]? = some L ∧ S[i]? ≠ some L then 1 else 0) := by
  unfold earlierMisplaced
  rw [List.range_succ, List.countP_append]
  congr 1
  by_cases h1 : G[i]? = some L <;> by_cases h2 : S[i]? = some L <;>
    simp [List.countP_cons, h1, h2]

theorem twoPass_miss (S G : List Nat) (i c : Nat) (hc : G[i]? = some c)
    (hS : S[i]? ≠ some c) :
    twoPass S G i = if earlierMisplaced S G c i < unmatched S G c then 1 else 3 := by
  unfold twoPass
  simp only [hc, if_neg hS]

theorem twoPass_hit (S G : List Nat) (i c : Nat) (hc : G[i]? = some c)
    (hS : S[i]? = some c) : twoPass S G i = 2 := by
  unfold twoPass
  simp only [hc, if_pos hS]

theorem TwoInv_step (a1 : AntiwordGame) (skip : Nat → Bool) (S G : List Nat) (i c : Nat)
    (awg : AntiwordGame)
    (hskip : ∀ (j x : Nat), G[j]? = some x → (skip j = false ↔ S[j]? ≠ some x))
    (hc : G[i]? = some c) (h : TwoInv a1 skip S G i awg) :
    TwoInv a1 skip S G (i + 1) (bindStep skip i c awg) := by
  have hb := h.base
  refine ⟨BindInv_step a1 skip G i c awg hc hb, ?_, ?_⟩
  · intro L
    rw [bindStep_wordMap, earlierMisplaced_succ]
    have hf := h.free L
    by_cases h1 : skip i = false ∧ L = c
    · obtain ⟨h2, h3⟩ := h1
      subst h3
      have hS : S[i]? ≠ some L := (hskip i L hc).mp h2
      rw [if_pos ⟨h2, rfl⟩, if_pos ⟨hc, hS⟩]
      by_cases hsucc : (bindLoop (awg.wordMap L)).2 = true
      · have := bindLoop_count _ hsucc
        omega
      · have h0 : ¬ 0 < (awg.wordMap L).countP freeRec := by
          rw [← bindLoop_snd_count]; exact hsucc
        rw [bindLoop_fail _ (by simpa using hsucc)]
        omega
    · rw [if_neg h1]
      have h2 : ¬ (G[i]? = some L ∧ S[i]? ≠ some L) := by
        rintro ⟨h3, h4⟩
        rw [hc] at h3
        cases h3
        exact h1 ⟨(hskip i c hc).mpr h4, rfl⟩
      rw [if_neg h2]
      omega
  · intro j x hj hsj hx
    rw [bindStep_cell]
    by_cases hji : j = i
    · subst hji
      rw [hc] at hx
      cases hx
      have hS : S[j]? ≠ some c := (hskip j c hc).mp hsj
      rw [if_pos ⟨hsj, hb.entryWord.symm, rfl⟩, hb.cell_same a1.entryWord j (by omega)]
      rw [twoPass_miss S G j c hc hS]
      have hf := h.free c
      have e : ((bindLoop (awg.wordMap c)).2 = true) ↔
          earlierMisplaced S G c j < unmatched S G c := by
        rw [bindLoop_snd_count]
        omega
      by_cases hsucc : (bindLoop (awg.wordMap c)).2 = true
      · rw [if_pos hsucc, if_pos (e.mp hsucc)]
      · rw [if_neg hsucc, if_neg (fun hh => hsucc (e.mpr hh))]
    · rw [if_neg (by intro hh; exact hji hh.2.2)]
      exact h.cells j x (by omega) hsj hx

theorem TwoInv_bindPass (a1 : AntiwordGame) (skip : Nat → Bool) (S G : List Nat)
    (hcore : Core a1)
    (hskip : ∀ (j x : Nat), G[j]? = some x → (skip j = false ↔ S[j]? ≠ some x))
    (hfree : ∀ L, (a1.wordMap L).countP freeRec = unmatched S G L) :
    TwoInv a1 skip S G G.length (bindPass skip 0 G a1) :=
  bindPass_rule0 skip G (TwoInv a1 skip S G)
    (fun i c awg hc hq => TwoInv_step a1 skip S G i c awg hskip hc hq) _
    ⟨BindInv_init a1 skip G hcore,
      fun L => by rw [hfree L]; simp [earlierMisplaced],
      fun j c hj _ _ => absurd hj (Nat.not_lt_zero j)⟩

theorem evaluate_twoPass (s : AntiwordGame) (hi : Inv s) (row : List ColorfulLetter)
    (G : List Nat) (hrow : s.playtrix[s.entryWord]? = some row) (hG : readRow row = some G)
    (hce : claimedExact s G) (j c : Nat) (hj : G[j]? = some c) :
    cell? (evaluate s G) s.entryWord j = some ⟨c, twoPass s.word G j⟩ := by
  have hc := hi.core
  obtain ⟨_, hcells⟩ := row_holds s hi row G hrow hG
  have hcell := hcells j c hj
  have hjl : j < G.length := (List.getElem?_eq_some.mp hj).1
  rw [cell?_evaluate s G hc, if_pos hc.cur]
  by_cases hex : exactAt s.word G j
  · rw [afterBind_cell_hit s G hc j hex, hcell]
    obtain ⟨x, h1, h2⟩ := hex
    rw [hj] at h1
    cases h1
    rw [twoPass_hit s.word G j c hj h2]
    rfl
  · have hg := afterGreen_inv s G hc
    have hskip : ∀ (k x : Nat), G[k]? = some x →
        ((afterGreen s G).2 k = false ↔ s.word[k]? ≠ some x) := by
      intro k x hk
      rw [skip_false_iff s G hc k]
      constructor
      · intro h1 h2
        exact h1 ⟨x, hk, h2⟩
      · rintro h1 ⟨y, h2, h3⟩
        rw [hk] at h2
        cases h2
        exact h1 h3
    have h2 := TwoInv_bindPass (ResetBindings (afterGreen s G).1) (afterGreen s G).2 s.word G
      (Core_ResetBindings _ hg.core) hskip (free_after_green s G hc hce)
    have hs : (afterGreen s G).2 j = false := (skip_false_iff s G hc j).mpr hex
    have he : (ResetBindings (afterGreen s G).1).entryWord = s.entryWord := hg.entryWord
    have h3 := h2.cells j c hjl hs hj
    rw [he] at h3
    have h4 : cell? (ResetBindings (afterGreen s G).1) s.entryWord j = cell? s s.entryWord j :=
      hg.cell_miss s.entryWord j (by rintro ⟨_, _, h5⟩; exact hex h5)
    rw [h4, hcell] at h3
    exact h3

/-! ## The first Submit against the two-pass reference -/

theorem apple_reset : Reset (newGame [apple, paper]) none 0 = some (appleState emptyRow 0) := rfl

theorem apple_key1 : Update (appleState emptyRow 0) (Click.key 80)
    = some (appleState [⟨80, 0⟩, ⟨0, 0⟩, ⟨0, 0⟩, ⟨0, 0⟩, ⟨0, 0⟩] 1) := rfl

theorem apple_key2 : Update (appleState [⟨80, 0⟩, ⟨0, 0⟩, ⟨0, 0⟩, ⟨0, 0⟩, ⟨0, 0⟩] 1) (Click.key 65)
    = some (appleState [⟨80, 0⟩, ⟨65, 0⟩, ⟨0, 0⟩, ⟨0, 0⟩, ⟨0, 0⟩] 2) := rfl

theorem apple_key3 : Update (appleState [⟨80, 0⟩, ⟨65, 0⟩, ⟨0, 0⟩, ⟨0, 0⟩, ⟨0, 0⟩] 2) (Click.key 80)
    = some (appleState [⟨80, 0⟩, ⟨65, 0⟩, ⟨80, 0⟩, ⟨0, 0⟩, ⟨0, 0⟩] 3) := rfl

theorem apple_key4 : Update (appleState [⟨80, 0⟩, ⟨65, 0⟩, ⟨80, 0⟩, ⟨0, 0⟩, ⟨0, 0⟩] 3) (Click.key 69)
    = some (appleState [⟨80, 0⟩, ⟨65, 0⟩, ⟨80, 0⟩, ⟨69, 0⟩, ⟨0, 0⟩] 4) := rfl

theorem apple_key5 : Update (appleState [⟨80, 0⟩, ⟨65, 0⟩, ⟨80, 0⟩, ⟨69, 0⟩, ⟨0, 0⟩] 4) (Click.key 82)
    = some appleTyped := rfl

theorem appleTyped_played : Played appleTyped :=
  Played.click _ _ _ (Played.click _ _ _ (Played.click _ _ _ (Played.click _ _ _
    (Played.click _ _ _ (Played.reset _ _ _ (Nat.zero_le 5) apple_reset)
      apple_key1) apple_key2) apple_key3) apple_key4) apple_key5

/-- C14: in every reachable state in which no guess has been evaluated yet (entry row 0), an
accepted Submit of `G` classifies every column `i` as the two-pass reference `twoPass` does:
PresentRightPlace iff `G[i] = S[i]`, otherwise PresentWrongPlace iff fewer earlier columns
hold `G[i]` outside its exact place than the secret word has unmatched positions holding
`G[i]`, otherwise Absent.  For S = APPLE and G = PAPER the reference is PresentWrongPlace,
PresentWrongPlace, PresentRightPlace, PresentWrongPlace, Absent. -/
theorem C14_first_submit_is_two_pass :
    (∀ (s : AntiwordGame), Reachable s → s.entryWord = 0 →
      ∀ (row : List ColorfulLetter) (G : List Nat), s.playtrix[s.entryWord]? = some row →
        readRow row = some G → G ∈ s.dictMap → G ≠ s.word →
        ∃ t, EnterPressed s = some t ∧ ∀ (i : Nat), i < 5 →
          ∃ c, G[i]? = some c ∧ cell? t s.entryWord i = some ⟨c, twoPass s.word G i⟩) ∧
      (List.range 5).map (twoPass APPLE PAPER)
        = [RIGHTLETTERWRONGPLACE, RIGHTLETTERWRONGPLACE, RIGHTLETTERRIGHTPLACE,
            RIGHTLETTERWRONGPLACE, WRONGLETTER] := by
  refine ⟨?_, by decide⟩
  intro s hs h0 row G hrow hG hmem hne
  have hi := Reachable_Inv s hs
  have hce : claimedExact s G := by
    intro l r hr hcl
    rw [(Reachable_Claims s hs).first h0 l r hr] at hcl
    exact Bool.noConfusion hcl
  refine ⟨evaluate s G, EnterPressed_accept s row G hrow hG hne hmem, ?_⟩
  intro i hi5
  have h5 := (row_holds s hi row G hrow hG).1
  have hx : G[i]? = some (G.get ⟨i, by omega⟩) := List.getElem?_eq_getElem (by omega)
  exact ⟨_, hx, evaluate_twoPass s hi row G hrow hG hce i _ hx⟩

theorem C14_witness :
    ∃ t, EnterPressed appleTyped = some t ∧ ∀ (i : Nat), i < 5 →
      ∃ c, PAPER[i]? = some c ∧
        cell? t appleTyped.entryWord i = some ⟨c, twoPass appleTyped.word PAPER i⟩ :=
  C14_first_submit_is_two_pass.1 appleTyped (Played_Reachable _ appleTyped_played) rfl
    [⟨80, 0⟩, ⟨65, 0⟩, ⟨80, 0⟩, ⟨69, 0⟩, ⟨82, 0⟩] PAPER rfl rfl (by decide) (by decide)

/-! ## Standard scoring and the two-pass reference -/

theorem unmatched_nil (G : List Nat) (L : Nat) : unmatched [] G L = 0 := by
  simp [unmatched]

theorem unmatched_cons_nil (s : Nat) (S : List Nat) (L : Nat) :
    unmatched (s :: S) [] L = (if s = L then 1 else 0) + unmatched S [] L := by
  unfold unmatched
  rw [List.length_cons, List.range_succ_eq_map, List.countP_cons, List.countP_map]
  have e : ((fun k => decide ((s :: S)[k]? = some L) && decide (([] : List Nat)[k]? ≠ some L))
      ∘ Nat.succ)
      = (fun k => decide (S[k]? = some L) && decide (([] : List Nat)[k]? ≠ some L)) := by
    funext k
    simp [Function.comp]
  rw [e]
  by_cases h : s = L
  · simp [h]; omega
  · simp [h]

theorem unmatched_cons_cons (s g : Nat) (S G : List Nat) (L : Nat) :
    unmatched (s :: S) (g :: G) L
      = (if s = L ∧ g ≠ L then 1 else 0) + unmatched S G L := by
  unfold unmatched
  rw [List.length_cons, List.range_succ_eq_map, List.countP_cons, List.countP_map]
  have e : ((fun k => decide ((s :: S)[k]? = some L) && decide ((g :: G)[k]? ≠ some L))
      ∘ Nat.succ)
      = (fun k => decide (S[k]? = some L) && decide (G[k]? ≠ some L)) := by
    funext k
    simp [Function.comp]
  rw [e]
  by_cases h : s = L <;> by_cases h2 : g = L <;> first | (simp [h, h2]; done) | (simp [h, h2]; omega)

theorem count_unmatchedLetters (S G : List Nat) (L : Nat) :
    (unmatchedLetters S G).count L = unmatched S G L := by
  induction S generalizing G with
  | nil => simp [unmatchedLetters, unmatched_nil]
  | cons s S ih =>
    cases G with
    | nil =>
      rw [unmatchedLetters, unmatched_cons_nil, List.count_cons, ih]
      by_cases h : s = L <;> first | (simp [h]; done) | (simp [h]; omega)
    | cons g G =>
      rw [unmatchedLetters, unmatched_cons_cons]
      by_cases hg : g = s
      · rw [if_pos hg, ih]
        have : ¬ (s = L ∧ g ≠ L) := by
          rintro ⟨h1, h2⟩
          exact h2 (hg.trans h1)
        simp [this]
      · rw [if_neg hg, List.count_cons, ih]
        by_cases h : s = L
        · have h2 : g ≠ L := fun e => hg (e.trans h.symm)
          simp [h, h2]
          omega
        · simp [h]

theorem scoreFrom_twoPass (S G : List Nat) (cs : List Nat) (i : Nat) (pool : List Nat)
    (hcs : ∀ j, cs[j]? = G[i + j]?)
    (hpool : ∀ L, pool.count L = unmatched S G L - earlierMisplaced S G L i) (j : Nat) :
    (scoreFrom S i cs pool)[j]? = (cs[j]?).map (fun _ => twoPass S G (i + j)) := by
  induction cs generalizing i pool j with
  | nil => simp [scoreFrom]
  | cons c cs ih =>
    have hc : G[i]? = some c := by
      have := hcs 0
      simpa using this.symm
    have htail : ∀ j, cs[j]? = G[i + 1 + j]? := by
      intro j
      have := hcs (j + 1)
      rw [List.getElem?_cons_succ] at this
      rw [this]
      congr 1
      omega
    have hidx : ∀ j, i + 1 + j = i + (j + 1) := by intro j; omega
    have hother : ∀ L, L ≠ c →
        earlierMisplaced S G L (i + 1) = earlierMisplaced S G L i := by
      intro L hL
      rw [earlierMisplaced_succ]
      have : ¬ (G[i]? = some L ∧ S[i]? ≠ some L) := by
        rintro ⟨h1, _⟩
        rw [hc] at h1
        cases h1
        exact hL rfl
      rw [if_neg this]
      rfl
    by_cases hS : S[i]? = some c
    · have hsame : ∀ L, earlierMisplaced S G L (i + 1) = earlierMisplaced S G L i := by
        intro L
        rw [earlierMisplaced_succ]
        have : ¬ (G[i]? = some L ∧ S[i]? ≠ some L) := by
          rintro ⟨h1, h2⟩
          rw [hc] at h1
          cases h1
          exact h2 hS
        rw [if_neg this]
        rfl
      have hp2 : ∀ L, pool.count L = unmatched S G L - earlierMisplaced S G L (i + 1) := by
        intro L
        rw [hsame L, hpool L]
      simp only [scoreFrom, if_pos hS]
      cases j with
      | zero =>
        simp only [List.getElem?_cons_zero, Option.map_some', Nat.add_zero]
        rw [twoPass_hit S G i c hc hS]
      | succ j =>
        simp only [List.getElem?_cons_succ]
        rw [ih (i + 1) pool htail hp2 j, hidx j]
    · have hcnt := hpool c
      have hown : earlierMisplaced S G c (i + 1) = earlierMisplaced S G c i + 1 := by
        rw [earlierMisplaced_succ, if_pos ⟨hc, hS⟩]
      have hmem : pool.contains c = true ↔ c ∈ pool := by simp
      have hcon : pool.contains c = true ↔ earlierMisplaced S G c i < unmatched S G c := by
        rw [hmem, ← List.count_pos_iff]
        omega
      by_cases hin : pool.contains c = true
      · have hlt := hcon.mp hin
        have hp2 : ∀ L, (pool.erase c).count L
            = unmatched S G L - earlierMisplaced S G L (i + 1) := by
          intro L
          by_cases hL : L = c
          · rw [hL, List.count_erase_self, hown, hcnt]
            omega
          · rw [List.count_erase_of_ne hL, hother L hL, hpool L]
        simp only [scoreFrom, if_neg hS, hin, if_true]
        cases j with
        | zero =>
          simp only [List.getElem?_cons_zero, Option.map_some', Nat.add_zero]
          rw [twoPass_miss S G i c hc hS, if_pos hlt]
        | succ j =>
          simp only [List.getElem?_cons_succ]
          rw [ih (i + 1) _ htail hp2 j, hidx j]
      · have hz : ¬ earlierMisplaced S G c i < unmatched S G c := fun h => hin (hcon.mpr h)
        have hp2 : ∀ L, pool.count L = unmatched S G L - earlierMisplaced S G L (i + 1) := by
          intro L
          by_cases hL : L = c
          · rw [hL, hown, hcnt]
            omega
          · rw [hother L hL, hpool L]
        have hin2 : pool.contains c = false := by simpa using hin
        simp only [scoreFrom, if_neg hS, hin2, Bool.false_eq_true, if_false]
        cases j with
        | zero =>
          simp only [List.getElem?_cons_zero, Option.map_some', Nat.add_zero]
          rw [twoPass_miss S G i c hc hS, if_neg hz]
        | succ j =>
          simp only [List.getElem?_cons_succ]
          rw [ih (i + 1) pool htail hp2 j, hidx j]

theorem wordleScore_getElem? (S G : List Nat) (j : Nat) :
    (wordleScore S G)[j]? = (G[j]?).map (fun _ => twoPass S G j) := by
  have h := scoreFrom_twoPass S G G 0 (unmatchedLetters S G)
    (by intro j; rw [Nat.zero_add])
    (by intro L; rw [count_unmatchedLetters]; simp [earlierMisplaced]) j
  rw [Nat.zero_add] at h
  exact h

/-! ## Interactive play scores as standard Wordle -/

theorem row_letter_ne_zero (row : List ColorfulLetter) (G : List Nat)
    (hG : readRow row = some G) (j y : Nat) (hy : G[j]? = some y) : y ≠ 0 := by
  obtain ⟨h1, h2⟩ := readRow_some row G hG
  rw [h1, List.getElem?_map] at hy
  cases hr : row[j]? with
  | none => simp [hr] at hy
  | some c =>
    simp only [hr, Option.map_some', Option.some.injEq] at hy
    rw [← hy]
    exact h2 c (List.mem_iff_getElem?.mpr ⟨j, hr⟩)

theorem Played_claimedExact (s : AntiwordGame) (hs : Played s) (row : List ColorfulLetter)
    (G : List Nat) (hrow : s.playtrix[s.entryWord]? = some row) (hG : readRow row = some G) :
    claimedExact s G := by
  have hr := Played_Reachable s hs
  have hi := Reachable_Inv s hr
  obtain ⟨h5, hcells⟩ := row_holds s hi row G hrow hG
  intro l r hrec hcl
  obtain ⟨hpos, hcol⟩ := (Reachable_Claims s hr).coll l r hrec hcl
  have hy : G[r.pos]? = some (G.get ⟨r.pos, by omega⟩) := List.getElem?_eq_getElem (by omega)
  have hleg := (Played_PInv s hs).legal r.pos ⟨_, 0⟩ (hcells r.pos _ hy)
    (row_letter_ne_zero row G hG r.pos _ hy)
  have hl : G.get ⟨r.pos, by omega⟩ = l := hcol _ hleg.1
  rw [hy, hl]

/-- C19: in a session started by Reset without scripted guesses, every accepted Submit of a
guess `G` returns a state whose row `G` was typed in holds the letters of `G` classified
exactly as standard Wordle scoring of `G` against the secret word computed from scratch
(`wordleScore`), whatever occurrences earlier guesses have claimed. -/
theorem C19_played_submit_is_standard_scoring (s : AntiwordGame) (hs : Played s)
    (row : List ColorfulLetter) (G : List Nat)
    (hrow : s.playtrix[s.entryWord]? = some row) (hG : readRow row = some G)
    (hmem : G ∈ s.dictMap) (hne : G ≠ s.word) :
    ∃ (t : AntiwordGame) (submitted : List ColorfulLetter), EnterPressed s = some t ∧
      t.playtrix[s.entryWord]? = some submitted ∧
      submitted.map (fun c => c.letter) = G ∧
      submitted.map (fun c => c.state) = wordleScore s.word G := by
  have hr := Played_Reachable s hs
  have hi := Reachable_Inv s hr
  have hc := hi.core
  have hce := Played_claimedExact s hs row G hrow hG
  have h5 := (row_holds s hi row G hrow hG).1
  have hlen : s.entryWord < (evaluate s G).playtrix.length := by
    rw [evaluate_length s G hc]
    have := hc.cur
    omega
  obtain ⟨submitted, hsub⟩ : ∃ submitted, (evaluate s G).playtrix[s.entryWord]? = some submitted :=
    ⟨_, List.getElem?_eq_getElem hlen⟩
  have hcell : ∀ (j c : Nat), G[j]? = some c → submitted[j]? = some ⟨c, twoPass s.word G j⟩ := by
    intro j c hj
    rw [← cell?_row (evaluate s G) s.entryWord submitted hsub j]
    exact evaluate_twoPass s hi row G hrow hG hce j c hj
  have hs5 : submitted.length = 5 :=
    (Core_evaluate s G hc).rows5 submitted (List.mem_iff_getElem?.mpr ⟨_, hsub⟩)
  refine ⟨evaluate s G, submitted, EnterPressed_accept s row G hrow hG hne hmem, hsub, ?_, ?_⟩
  · apply List.ext_getElem?
    intro j
    rw [List.getElem?_map]
    by_cases hj : j < 5
    · have hx : G[j]? = some (G.get ⟨j, by omega⟩) := List.getElem?_eq_getElem (by omega)
      rw [hcell j _ hx, hx]
      rfl
    · rw [List.getElem?_eq_none (by omega), List.getElem?_eq_none (by omega)]
      rfl
  · apply List.ext_getElem?
    intro j
    rw [List.getElem?_map, wordleScore_getElem?]
    by_cases hj : j < 5
    · have hx : G[j]? = some (G.get ⟨j, by omega⟩) := List.getElem?_eq_getElem (by omega)
      rw [hcell j _ hx, hx]
      rfl
    · rw [List.getElem?_eq_none (by omega), List.getElem?_eq_none (by omega)]
      rfl

theorem C19_witness :
    ∃ (t : AntiwordGame) (submitted : List ColorfulLetter), EnterPressed appleTyped = some t ∧
      t.playtrix[appleTyped.entryWord]? = some submitted ∧
      submitted.map (fun c => c.letter) = PAPER ∧
      submitted.map (fun c => c.state) = wordleScore appleTyped.word PAPER :=
  C19_played_submit_is_standard_scoring appleTyped appleTyped_played
    [⟨80, 0⟩, ⟨65, 0⟩, ⟨80, 0⟩, ⟨69, 0⟩, ⟨82, 0⟩] PAPER rfl rfl (by decide) (by decide)

end Antiword
